import Mathlib

/-!
Synchronisation coordinator (blockchain/synker.go)

A shallow embedding of the `synker` of `blockchain/synker.go`: the syncing-set
operations `syncShard` / `stopSyncShard`, one resolution cycle `UpdateState`
(peer scan, readiness flags, request carving) and the pool drain loops.

Conventions of the embedding.

* `uint64` values are natural numbers; the three places where the cycle adds
  or subtracts (`+ 1`, `+ defaultMaxBlkReqPerPeer - 1`, `Height - local`) go
  through `u64add` / `u64sub`, which wrap at `2 ^ 64` as Go does.
* A Go map that the cycle iterates is a list of key/value pairs, visited in
  list order (one of the orders Go may choose); a map that is only indexed is
  its read function.
* A nil dereference is a run-time panic: the functions that can hit one return
  `Option`, with `none` for the panic.
* Calls of `SyncBlkBeacon`, `SyncBlkShard`, `SyncBlkShardToBeacon` and
  `SyncBlkCrossShard` do not return a value and no decision of the cycle reads
  the in-flight cache they write, so a cycle is described by the state it
  leaves and the list of those calls, in the order they are made.
-/

namespace common

/-- The constant `HashSize` of `common/hash.go`. -/
def HashSize : Nat := 32

/-- The type `Hash [HashSize]byte`. -/
abbrev Hash := { l : List (Fin 256) // l.length = HashSize }

/-- The zero value of `Hash`. -/
def Hash.zero : Hash := ⟨List.replicate HashSize 0, by simp⟩

instance : Inhabited Hash := ⟨Hash.zero⟩

/-- Modelled from the spec: `common.IndexOfByte` is not among the sources; it is
the position of the first occurrence of `item` in `arr`, or `-1` when `item`
does not occur ("the shard is configured as a mandatory relay shard"). -/
def IndexOfByte (item : Nat) : List Nat → Int
  | [] => -1
  | x :: xs => if x = item then 0 else
      (if IndexOfByte item xs < 0 then -1 else IndexOfByte item xs + 1)

/-! ## Hashes (`common/hash.go`) -/

/-- A Go byte slice, and a Go string seen as its bytes. -/
abbrev Bytes := List (Fin 256)

/-- The constant `MaxHashStringSize`. -/
def MaxHashStringSize : Nat := HashSize * 2

/-- The error values of `hash.go`: `ErrHashStrSize`, the error of `SetBytes`
("invalid hash length of n, want 32"), and the two errors of the library
function `hex.Decode`. -/
inductive HashError where
  | ErrHashStrSize
  | invalidHashLength (nhlen : Nat)
  | hexInvalidByte (b : Fin 256)
  | hexErrLength
  deriving DecidableEq, Repr

/-- The read `hash[i]`. -/
def Hash.get (hash : Hash) (i : Nat) : Fin 256 := hash.val.getD i 0

/-- The assignment `hash[i] = b`. -/
def Hash.set (hash : Hash) (i : Nat) (b : Fin 256) : Hash :=
  ⟨hash.val.set i b, by simp [hash.property]⟩

/-- The table `hextable = "0123456789abcdef"` of the Go library package
`encoding/hex`, as byte values. -/
def hextable : Bytes :=
  [48, 49, 50, 51, 52, 53, 54, 55, 56, 57, 97, 98, 99, 100, 101, 102]

/-- The Go library function `hex.EncodeToString`: for every byte `v` the two
characters `hextable[v >> 4]` and `hextable[v & 0x0f]`. -/
def hexEncodeToString : Bytes → Bytes
  | [] => []
  | v :: t => hextable.getD (v.val / 16) 0 :: hextable.getD (v.val % 16) 0 :: hexEncodeToString t

/-- The value of a hexadecimal digit character of either case (the table
`reverseHexTable` of `encoding/hex`); `none` for any other byte. -/
def fromHexChar (c : Fin 256) : Option Nat :=
  if 48 ≤ c.val ∧ c.val ≤ 57 then some (c.val - 48)
  else if 97 ≤ c.val ∧ c.val ≤ 102 then some (c.val - 87)
  else if 65 ≤ c.val ∧ c.val ≤ 70 then some (c.val - 55)
  else none

/-- The Go library function `hex.Decode`, as the bytes it decodes: one byte per
pair of digits, an invalid-byte error at the first byte that is no digit, and a
length error for a trailing single digit. -/
def hexDecode : Bytes → Except HashError Bytes
  | [] => Except.ok []
  | [p] =>
    match fromHexChar p with
    | none => Except.error (HashError.hexInvalidByte p)
    | some _ => Except.error HashError.hexErrLength
  | p :: q :: t =>
    match fromHexChar p, fromHexChar q with
    | none, _ => Except.error (HashError.hexInvalidByte p)
    | some _, none => Except.error (HashError.hexInvalidByte q)
    | some a, some b =>
      match hexDecode t with
      | Except.error e => Except.error e
      | Except.ok rest => Except.ok (Fin.ofNat (a * 16 + b) :: rest)

/-- The loop `for i := 0; i < HashSize/2; i++ (hash[i], hash[HashSize-1-i] =
hash[HashSize-1-i], hash[i])` of `String`. -/
def Hash.swapEnds (hash : Hash) : Hash :=
  (List.range (HashSize / 2)).foldl
    (fun h i => (h.set i (h.get (HashSize - 1 - i))).set (HashSize - 1 - i) (h.get i)) hash

/-- The method `String` (value receiver: the swaps are made on a copy). -/
def Hash.String (hash : Hash) : Bytes :=
  hexEncodeToString (Hash.swapEnds hash).val

/-- The method `SetBytes`: the error and the hash after the call. With equal
lengths `copy(hash[:], newHash)` replaces every byte. -/
def Hash.SetBytes (hash : Hash) (newHash : Bytes) : Option HashError × Hash :=
  if h : newHash.length ≠ HashSize then
    (some (HashError.invalidHashLength newHash.length), hash)
  else
    (none, ⟨newHash, by simpa using h⟩)

/-- The method `BytesToHash`: `var h Hash; h.SetBytes(b); return h` (the receiver
is not used, the error is dropped). -/
def Hash.BytesToHash (_hash : Hash) (b : Bytes) : Hash :=
  (Hash.SetBytes Hash.zero b).2

/-- The method `NewHash` (value receiver). -/
def Hash.NewHash (hash : Hash) (newHash : Bytes) : Except HashError Hash :=
  match Hash.SetBytes hash newHash with
  | (some err, _) => Except.error err
  | (none, h) => Except.ok h

/-- The write of `hex.Decode` into the slice `reversedHash[off:]` of a zeroed
hash: decoded byte number `i` goes to index `off + i`. -/
def Hash.writeAt (off : Nat) (decoded : Bytes) : Hash :=
  (decoded.enumFrom off).foldl (fun h e => h.set e.1 e.2) Hash.zero

/-- The loop `for i, b := range reversedHash[:HashSize/2] (dst[i],
dst[HashSize-1-i] = reversedHash[HashSize-1-i], b)` of `Decode`. -/
def Hash.reverseCopy (dst reversedHash : Hash) : Hash :=
  (List.range (HashSize / 2)).foldl
    (fun d i => (d.set i (reversedHash.get (HashSize - 1 - i))).set (HashSize - 1 - i)
      (reversedHash.get i)) dst

/-- The method `Decode`: the error and the destination after the call (the
receiver is not used). -/
def Hash.Decode (dst : Hash) (src : Bytes) : Option HashError × Hash :=
  if src.length > MaxHashStringSize then (some HashError.ErrHashStrSize, dst)
  else
    let srcBytes : Bytes := if src.length % 2 = 0 then src else 48 :: src
    match hexDecode srcBytes with
    | Except.error err => (some err, dst)
    | Except.ok decoded =>
      (none, Hash.reverseCopy dst (Hash.writeAt (HashSize - srcBytes.length / 2) decoded))

/-- The method `NewHashFromStr` (value receiver `self`, decoded into itself). -/
def Hash.NewHashFromStr (self : Hash) (hash : Bytes) : Except HashError Hash :=
  match Hash.Decode self hash with
  | (some err, _) => Except.error err
  | (none, h) => Except.ok h

/-- The method `Compare`: its body is the single statement `return 0` (neither
pointer is read). -/
def Hash.Compare (_hash _hash2 : Hash) : Int := 0

/-- A hash that differs from the zero hash: first byte 1, the other bytes 0. -/
def Hash.one : Hash := ⟨1 :: List.replicate 31 0, by decide⟩

end common

namespace blockchain

open common

/-- Number of values of a `uint64`. -/
def U64 : Nat := 18446744073709551616

/-- Addition of two `uint64` values. -/
def u64add (a b : Nat) : Nat := (a + b) % U64

/-- Subtraction of two `uint64` values (wraps below zero). -/
def u64sub (a b : Nat) : Nat := (a + U64 - b % U64) % U64

/-- The peer identity `libp2p.ID`, used only as a map key. -/
abbrev PeerID := Nat

/-- The role strings the cycle compares `userRole` / `userShardRole` with; every
other string (the empty string included) is `other`. -/
inductive Role where
  | PROPOSER_ROLE
  | VALIDATOR_ROLE
  | SHARD_ROLE
  | other
  deriving DecidableEq, Repr

/-- The node-mode strings the code compares `config.NodeMode` with; every other
string is `other`. -/
inductive NodeMode where
  | NODEMODE_AUTO
  | NODEMODE_BEACON
  | NODEMODE_SHARD
  | other
  deriving DecidableEq, Repr

/-- The struct `ChainState`. -/
structure ChainState where
  Height : Nat
  BlockHash : Hash
  BestStateHash : Hash
  deriving DecidableEq

/-- The value `ChainState{Height: h}`. -/
def ChainState.ofHeight (h : Nat) : ChainState := ⟨h, Hash.zero, Hash.zero⟩

/-- The zero value of `ChainState`, read from a map for an absent key. -/
def ChainState.zero : ChainState := ChainState.ofHeight 0

/-- The struct `peerState`. `Beacon` and the entries of `CrossShardPool` are
pointers and may be nil (`none`); `ShardToBeaconPool` is a pointer that the code
tests for nil. The entries of `Shard` are taken to be non-nil. -/
structure peerState where
  Shard : List (Nat × ChainState)
  Beacon : Option ChainState
  ShardToBeaconPool : Option (List (Nat × List Nat))
  CrossShardPool : List (Nat × Option (List (Nat × List Nat)))
  Peer : PeerID

/-- The struct `reportedChainState`. `ClosestShardsState` is only indexed. -/
structure reportedChainState where
  ClosestBeaconState : ChainState
  ClosestShardsState : Nat → ChainState
  ShardToBeaconBlks : List (Nat × List (PeerID × List Nat))
  CrossShardBlks : List (Nat × List (PeerID × List Nat))

/-- The field `Status.IsLatest` of `synker`. -/
structure IsLatestT where
  Beacon : Bool
  Shards : Nat → Option Bool

/-- The field `Status` of `synker`; `Shards` is the syncing set. -/
structure StatusT where
  Shards : List Nat
  IsLatest : IsLatestT

/-- The field `States.PoolsState` of `synker`. -/
structure PoolsStateT where
  BeaconPool : List Nat
  ShardToBeaconPool : Nat → Option (List Nat)
  CrossShardPool : Nat → Option (List Nat)
  ShardsPool : Nat → Option (List Nat)

/-- The field `States` of `synker` (the part a cycle touches). -/
structure StatesT where
  PeersState : List (PeerID × peerState)
  PoolsState : PoolsStateT

/-- The struct `synker`. -/
structure synker where
  Status : StatusT
  States : StatesT

/-- What a cycle reads from `synker.blockchain`: the configuration, the best
states and the pools. `GetBestStateShard(s).ShardHeight` and
`blockchain.BestState.Shard[s].ShardHeight` read the same best state and are the
one field `ShardHeight`. `BeaconPubkeyRole` is the pair returned by
`BestState.Beacon.GetPubkeyRole` for the user key at the current round and
`ShardPubkeyRole s` the string returned by `BestState.Shard[s].GetPubkeyRole`. -/
structure BlockChain where
  NodeMode : NodeMode
  RelayShards : List Nat
  hasUserKeySet : Bool
  BeaconPubkeyRole : Role × Nat
  ShardPubkeyRole : Nat → Role
  BeaconHeight : Nat
  ShardHeight : Nat → Nat
  GetBestHeightOfShard : Nat → Nat
  BeaconPoolValidHeight : List Nat
  ShardPoolValidHeight : Nat → List Nat
  ShardToBeaconPoolValidPending : Nat → Option (List Nat)
  CrossShardPoolValidHeight : Nat → Nat → Option (List Nat)

/-- The package constants the cycle uses; their declarations are not among the
sources, so they are parameters. -/
structure Consts where
  defaultMaxBlkReqPerPeer : Nat
  defaultMaxBlkReqPerTime : Nat
  MAX_SHARD_NUMBER : Nat

/-- The three error values of the syncing-set operations, named after their
messages: "synchronzation is already started", "synchronzation can not be
stopped" (own shard and relay shard alike) and "synchronzation is already
stopped". -/
inductive SyncError where
  | alreadyStarted (shardID : Nat)
  | cannotBeStopped (shardID : Nat)
  | alreadyStopped (shardID : Nat)
  deriving DecidableEq, Repr

/-- The calls a cycle makes, with the arguments of the Go signatures. -/
inductive Call where
  | SyncBlkBeacon (byHash getFromPool : Bool) (blksHash : List Hash)
      (fromH toH : Nat) (peerID : PeerID)
  | SyncBlkShard (shardID : Nat) (byHash getFromPool : Bool) (blksHash : List Hash)
      (fromH toH : Nat) (peerID : PeerID)
  | SyncBlkShardToBeacon (shardID : Nat) (byHash bySpecificHeights getFromPool : Bool)
      (blksHash : List Hash) (blkHeights : List Nat) (fromH toH : Nat) (peerID : PeerID)
  | SyncBlkCrossShard (getFromPool byHash : Bool) (blksHash : List Hash)
      (blksHeight : List Nat) (fromShard toShard : Nat) (peerID : PeerID)
  deriving DecidableEq

/-! ## The syncing set -/

/-- The method `syncShard`. -/
def syncShard (s : synker) (shardID : Nat) : Option SyncError × synker :=
  if shardID ∈ s.Status.Shards then
    (some (SyncError.alreadyStarted shardID), s)
  else
    (none, { s with Status := { s.Status with Shards := shardID :: s.Status.Shards } })

/-- The method `SyncShard` (it takes the status lock around `syncShard`). -/
def SyncShard (s : synker) (shardID : Nat) : Option SyncError × synker :=
  syncShard s shardID

/-- The method `stopSyncShard`. `delete(Shards, shardID)` removes the key. -/
def stopSyncShard (bc : BlockChain) (s : synker) (shardID : Nat) :
    Option SyncError × synker :=
  if (bc.NodeMode = NodeMode.NODEMODE_AUTO ∨ bc.NodeMode = NodeMode.NODEMODE_SHARD) ∧
      bc.BeaconPubkeyRole.1 = Role.SHARD_ROLE ∧ shardID = bc.BeaconPubkeyRole.2 then
    (some (SyncError.cannotBeStopped shardID), s)
  else if shardID ∈ s.Status.Shards then
    if IndexOfByte shardID bc.RelayShards < 0 then
      (none, { s with Status :=
        { s.Status with Shards := s.Status.Shards.filter (fun x => x ≠ shardID) } })
    else
      (some (SyncError.cannotBeStopped shardID), s)
  else
    (some (SyncError.alreadyStopped shardID), s)

/-- The method `stopSyncUnnecessaryShard`: `stopSyncShard` on the shard ids
`0 .. MAX_SHARD_NUMBER - 1`, errors dropped. -/
def stopSyncUnnecessaryShard (k : Consts) (bc : BlockChain) (s : synker) : synker :=
  (List.range k.MAX_SHARD_NUMBER).foldl (fun acc shardID => (stopSyncShard bc acc shardID).2) s

/-! ## One resolution cycle: `UpdateState` -/

/-- The local variables `userRole`, `userShardID`, `userShardRole`. -/
structure UserRoles where
  userRole : Role
  userShardID : Nat
  userShardRole : Role

/-- The role variables as `UpdateState` and `GetPoolsState` compute them: the
zero values when `config.UserKeySet` is nil. -/
def userRoles (bc : BlockChain) : UserRoles :=
  if bc.hasUserKeySet then
    ⟨bc.BeaconPubkeyRole.1, bc.BeaconPubkeyRole.2, bc.ShardPubkeyRole bc.BeaconPubkeyRole.2⟩
  else
    ⟨Role.other, 0, Role.other⟩

/-- The method `GetPoolsState`. -/
def GetPoolsState (bc : BlockChain) (s : synker) : synker :=
  let u := userRoles bc
  let p0 := s.States.PoolsState
  let p1 : PoolsStateT := { p0 with BeaconPool := bc.BeaconPoolValidHeight }
  let shardsPool : Nat → Option (List Nat) :=
    s.Status.Shards.foldl
      (fun m shardID => Function.update m shardID (some (bc.ShardPoolValidHeight shardID)))
      p1.ShardsPool
  let p2 : PoolsStateT := { p1 with ShardsPool := shardsPool }
  let p3 : PoolsStateT :=
    if u.userRole = Role.PROPOSER_ROLE ∨ u.userRole = Role.VALIDATOR_ROLE then
      { p2 with ShardToBeaconPool := bc.ShardToBeaconPoolValidPending }
    else p2
  let p4 : PoolsStateT :=
    if u.userShardRole = Role.PROPOSER_ROLE ∨ u.userShardRole = Role.VALIDATOR_ROLE then
      { p3 with CrossShardPool := bc.CrossShardPoolValidHeight u.userShardID }
    else p3
  { s with States := { s.States with PoolsState := p4 } }

/-- The state at line 200 of `UpdateState`: pools read, and, when a user key is
set, `syncShard(userShardID)` then `stopSyncUnnecessaryShard()`. -/
def cycleStart (k : Consts) (bc : BlockChain) (s : synker) : synker :=
  let s0 := GetPoolsState bc s
  if bc.hasUserKeySet then
    stopSyncUnnecessaryShard k bc (syncShard s0 (userRoles bc).userShardID).2
  else s0

/-- The initial `RCS` (lines 200-212): the local beacon height, and the local
height of every shard of the syncing set. -/
def initRCS (bc : BlockChain) (shards : List Nat) : reportedChainState :=
  { ClosestBeaconState := ChainState.ofHeight bc.BeaconHeight
    ClosestShardsState := fun shardID =>
      if shardID ∈ shards then ChainState.ofHeight (bc.ShardHeight shardID) else ChainState.zero
    ShardToBeaconBlks := []
    CrossShardBlks := [] }

/-- The assignment `RCS.ClosestShardsState[shardID] = st`. -/
def setShard (rcs : reportedChainState) (shardID : Nat) (st : ChainState) :
    reportedChainState :=
  { rcs with ClosestShardsState := Function.update rcs.ClosestShardsState shardID st }

/-- The assignment `m[key] = v` on a map kept as a list of pairs. -/
def mapSet {V : Type} : List (Nat × V) → Nat → V → List (Nat × V)
  | [], key, v => [(key, v)]
  | (k0, x) :: t, key, v => if k0 = key then (key, v) :: t else (k0, x) :: mapSet t key v

/-- The two statements `if _, ok := m[shardID]; !ok (m[shardID] = make(..))` and
`m[shardID][peerID] = blks`. -/
def recordBlks (m : List (Nat × List (PeerID × List Nat))) (shardID : Nat) (peerID : PeerID)
    (blks : List Nat) : List (Nat × List (PeerID × List Nat)) :=
  mapSet m shardID (mapSet ((m.lookup shardID).getD []) peerID blks)

/-- Lines 215-225: one shard of the syncing set, for one peer. -/
def scanSyncingShard (bc : BlockChain) (ps : peerState) (rcs : reportedChainState)
    (shardID : Nat) : reportedChainState :=
  match ps.Shard.lookup shardID with
  | some shardState =>
    if shardState.Height ≥ bc.GetBestHeightOfShard shardID ∧
        shardState.Height > bc.ShardHeight shardID then
      if (rcs.ClosestShardsState shardID).Height = bc.ShardHeight shardID then
        setShard rcs shardID shardState
      else if shardState.Height < (rcs.ClosestShardsState shardID).Height then
        setShard rcs shardID shardState
      else rcs
    else rcs
  | none => rcs

/-- Lines 228-235: the beacon state of one peer, already known to be at least
the local beacon height. -/
def adoptBeacon (bc : BlockChain) (b : ChainState) (rcs : reportedChainState) :
    reportedChainState :=
  if b.Height > bc.BeaconHeight then
    let r : reportedChainState :=
      if rcs.ClosestBeaconState.Height = bc.BeaconHeight then
        { rcs with ClosestBeaconState := b }
      else rcs
    if b.Height < r.ClosestBeaconState.Height then { r with ClosestBeaconState := b } else r
  else rcs

/-- Lines 250-260: one shard id of the loop over `0 .. MAX_SHARD_NUMBER - 1` of a
beacon proposer or validator, for one peer. -/
def scanBeaconViewShard (bc : BlockChain) (ps : peerState) (rcs : reportedChainState)
    (shardID : Nat) : reportedChainState :=
  match ps.Shard.lookup shardID with
  | some shardState =>
    if shardState.Height > bc.GetBestHeightOfShard shardID then
      if (rcs.ClosestShardsState shardID).Height = 0 then
        setShard rcs shardID shardState
      else if shardState.Height < (rcs.ClosestShardsState shardID).Height then
        setShard rcs shardID shardState
      else rcs
    else rcs
  | none => rcs

/-- Lines 238-274: the `switch userRole` that records the pool state of one
peer. Ranging over a nil `*pool` panics. -/
def recordPoolState (k : Consts) (bc : BlockChain) (u : UserRoles) (peerID : PeerID)
    (ps : peerState) (rcs : reportedChainState) : Option reportedChainState :=
  match u.userRole with
  | Role.PROPOSER_ROLE | Role.VALIDATOR_ROLE =>
    if bc.NodeMode = NodeMode.NODEMODE_AUTO ∨ bc.NodeMode = NodeMode.NODEMODE_BEACON then
      let r1 : reportedChainState :=
        match ps.ShardToBeaconPool with
        | some pool =>
          pool.foldl (fun r e =>
            { r with ShardToBeaconBlks := recordBlks r.ShardToBeaconBlks e.1 peerID e.2 }) rcs
        | none => rcs
      some ((List.range k.MAX_SHARD_NUMBER).foldl (scanBeaconViewShard bc ps) r1)
    else some rcs
  | Role.SHARD_ROLE =>
    if (bc.NodeMode = NodeMode.NODEMODE_AUTO ∨ bc.NodeMode = NodeMode.NODEMODE_SHARD) ∧
        (u.userShardRole = Role.PROPOSER_ROLE ∨ u.userShardRole = Role.VALIDATOR_ROLE) then
      match ps.CrossShardPool.lookup u.userShardID with
      | some (some pool) =>
        some (pool.foldl (fun r e =>
          { r with CrossShardBlks := recordBlks r.CrossShardBlks e.1 peerID e.2 }) rcs)
      | some none => none
      | none => some rcs
    else some rcs
  | Role.other => some rcs

/-- Lines 214-275: the body of the loop over the peer table, for one peer.
Reading `peerState.Beacon.Height` of a nil `Beacon` panics. -/
def scanPeer (k : Consts) (bc : BlockChain) (u : UserRoles) (shards : List Nat)
    (rcs : reportedChainState) (entry : PeerID × peerState) : Option reportedChainState :=
  let r1 := shards.foldl (scanSyncingShard bc entry.2) rcs
  match entry.2.Beacon with
  | none => none
  | some b =>
    if b.Height ≥ bc.BeaconHeight then
      recordPoolState k bc u entry.1 entry.2 (adoptBeacon bc b r1)
    else some r1

/-- Lines 213-276: the loop over the peer table. -/
def scanPeers (k : Consts) (bc : BlockChain) (u : UserRoles) (shards : List Nat) :
    reportedChainState → List (PeerID × peerState) → Option reportedChainState
  | rcs, [] => some rcs
  | rcs, e :: es =>
    match scanPeer k bc u shards rcs e with
    | none => none
    | some r => scanPeers k bc u shards r es

/-- The value of `RCS` after the peer scan of `UpdateState` (line 276). -/
def peerScan (k : Consts) (bc : BlockChain) (s : synker) : Option reportedChainState :=
  let s1 := cycleStart k bc s
  scanPeers k bc (userRoles bc) s1.Status.Shards (initRCS bc s1.Status.Shards)
    s1.States.PeersState

/-- The method `SetChainState`. -/
def SetChainState (s : synker) (shard : Bool) (shardID : Nat) (ready : Bool) : synker :=
  if shard then
    { s with Status := { s.Status with IsLatest := { s.Status.IsLatest with
        Shards := Function.update s.Status.IsLatest.Shards shardID (some ready) } } }
  else
    { s with Status := { s.Status with IsLatest := { s.Status.IsLatest with Beacon := ready } } }

/-- The method `IsLatest`. -/
def IsLatest (s : synker) (shard : Bool) (shardID : Nat) : Bool :=
  if shard then
    match s.Status.IsLatest.Shards shardID with
    | none => false
    | some ready => ready
  else s.Status.IsLatest.Beacon

/-- Lines 277-293: the readiness flags. -/
def setReadiness (bc : BlockChain) (u : UserRoles) (rcs : reportedChainState) (s : synker) :
    synker :=
  if s.States.PeersState.length > 0 then
    let s1 :=
      if u.userRole ≠ Role.SHARD_ROLE ∧ rcs.ClosestBeaconState.Height = bc.BeaconHeight then
        SetChainState s false 0 true
      else SetChainState s false 0 false
    if u.userRole = Role.SHARD_ROLE ∧
        u64sub rcs.ClosestBeaconState.Height 1 ≤ bc.BeaconHeight then
      if (rcs.ClosestShardsState u.userShardID).Height = bc.ShardHeight u.userShardID ∧
          (rcs.ClosestShardsState u.userShardID).Height ≥
            bc.GetBestHeightOfShard u.userShardID then
        SetChainState (SetChainState s1 false 0 true) true u.userShardID true
      else
        SetChainState (SetChainState s1 false 0 false) true u.userShardID false
    else s1
  else s

/-- Lines 296-298: the per-cycle clamp of the beacon target. -/
def clampBeacon (k : Consts) (bc : BlockChain) (rcs : reportedChainState) :
    reportedChainState :=
  if u64sub rcs.ClosestBeaconState.Height bc.BeaconHeight > k.defaultMaxBlkReqPerTime then
    { rcs with ClosestBeaconState := { rcs.ClosestBeaconState with
        Height := u64add bc.BeaconHeight k.defaultMaxBlkReqPerTime } }
  else rcs

/-- Lines 299-309: the loop that carves the beacon range, started at the cursor
`cur`. The constant expression `defaultMaxBlkReqPerPeer - 1` is `P - 1`. -/
def carveBeacon (k : Consts) (target : Nat) : Nat → List (PeerID × peerState) → List Call
  | _, [] => []
  | cur, e :: es =>
    if u64sub (u64add cur k.defaultMaxBlkReqPerPeer) 1 ≥ target then
      [Call.SyncBlkBeacon false false [] cur target e.1]
    else
      Call.SyncBlkBeacon false false [] cur (u64sub (u64add cur k.defaultMaxBlkReqPerPeer) 1) e.1
        :: carveBeacon k target (u64add cur (k.defaultMaxBlkReqPerPeer - 1)) es

/-- The nested loops `for shardID, peer := range m (for peerID, blks := range peer ..)`
of lines 315-319 and 339-343, one call `mk shardID peerID blks` per entry. -/
def specificHeightCalls (mk : Nat → PeerID → List Nat → Call)
    (m : List (Nat × List (PeerID × List Nat))) : List Call :=
  (m.map (fun e => e.2.map (fun pe => mk e.1 pe.1 pe.2))).flatten

/-- Lines 323-332: the loop over the peers that carves the shard-to-beacon range
of one shard (it has no `break`). -/
def carveShardToBeacon (k : Consts) (shardID target : Nat) :
    Nat → List (PeerID × peerState) → List Call
  | _, [] => []
  | cur, e :: es =>
    match e.2.Shard.lookup shardID with
    | some _ =>
      if u64sub (u64add cur k.defaultMaxBlkReqPerPeer) 1 ≥ target then
        Call.SyncBlkShardToBeacon shardID false false false [] [] cur target e.1
          :: carveShardToBeacon k shardID target cur es
      else
        Call.SyncBlkShardToBeacon shardID false false false [] [] cur
            (u64sub (u64add cur k.defaultMaxBlkReqPerPeer) 1) e.1
          :: carveShardToBeacon k shardID target (u64add cur (k.defaultMaxBlkReqPerPeer - 1)) es
    | none => carveShardToBeacon k shardID target cur es

/-- Lines 311-347: the pool requests, gated by `IsLatest(false, 0)`. -/
def poolRequests (k : Consts) (bc : BlockChain) (u : UserRoles) (s : synker)
    (rcs : reportedChainState) : List Call :=
  if IsLatest s false 0 then
    match u.userRole with
    | Role.PROPOSER_ROLE | Role.VALIDATOR_ROLE =>
      if bc.NodeMode = NodeMode.NODEMODE_AUTO ∨ bc.NodeMode = NodeMode.NODEMODE_BEACON then
        specificHeightCalls
            (fun shardID peerID blks =>
              Call.SyncBlkShardToBeacon shardID false true true [] blks 0 0 peerID)
            rcs.ShardToBeaconBlks
          ++ ((List.range k.MAX_SHARD_NUMBER).map (fun shardID =>
            if bc.GetBestHeightOfShard shardID < (rcs.ClosestShardsState shardID).Height then
              carveShardToBeacon k shardID (rcs.ClosestShardsState shardID).Height
                (u64add (bc.GetBestHeightOfShard shardID) 1) s.States.PeersState
            else [])).flatten
      else []
    | Role.SHARD_ROLE =>
      if (bc.NodeMode = NodeMode.NODEMODE_AUTO ∨ bc.NodeMode = NodeMode.NODEMODE_SHARD) ∧
          (u.userShardRole = Role.PROPOSER_ROLE ∨ u.userShardRole = Role.VALIDATOR_ROLE) then
        if IsLatest s true u.userShardID then
          specificHeightCalls
            (fun shardID peerID blks =>
              Call.SyncBlkCrossShard true false [] blks shardID u.userShardID peerID)
            rcs.CrossShardBlks
        else []
      else []
    | Role.other => []
  else []

/-- Lines 351-355: the per-cycle clamp of one shard target. -/
def clampShard (k : Consts) (bc : BlockChain) (rcs : reportedChainState) (shardID : Nat) :
    reportedChainState :=
  if u64sub (rcs.ClosestShardsState shardID).Height (bc.ShardHeight shardID) >
      k.defaultMaxBlkReqPerTime then
    setShard rcs shardID
      (ChainState.ofHeight (u64add (bc.ShardHeight shardID) k.defaultMaxBlkReqPerTime))
  else rcs

/-- Lines 357-372: the loop over the peers that carves the range of one shard. -/
def carveShard (k : Consts) (shardID target : Nat) :
    Nat → List (PeerID × peerState) → List Call
  | _, [] => []
  | cur, e :: es =>
    match e.2.Shard.lookup shardID with
    | some shardState =>
      if shardState.Height ≥ cur then
        if u64sub (u64add cur k.defaultMaxBlkReqPerPeer) 1 ≥ target then
          [Call.SyncBlkShard shardID false false [] cur target e.1]
        else
          Call.SyncBlkShard shardID false false [] cur
              (u64sub (u64add cur k.defaultMaxBlkReqPerPeer) 1) e.1
            :: carveShard k shardID target (u64add cur (k.defaultMaxBlkReqPerPeer - 1)) es
      else carveShard k shardID target cur es
    | none => carveShard k shardID target cur es

/-- Lines 349-373: the loop over the syncing set; it returns the final `RCS` and
the calls made. -/
def shardRequests (k : Consts) (bc : BlockChain) (peers : List (PeerID × peerState)) :
    reportedChainState → List Nat → reportedChainState × List Call
  | rcs, [] => (rcs, [])
  | rcs, shardID :: rest =>
    let r := clampShard k bc rcs shardID
    let cs := carveShard k shardID (r.ClosestShardsState shardID).Height
      (u64add (bc.ShardHeight shardID) 1) peers
    let out := shardRequests k bc peers r rest
    (out.1, cs ++ out.2)

/-- What one run of `UpdateState` leaves: the synker state, the final value of the
local `RCS`, and the calls made, in order. -/
structure CycleResult where
  state : synker
  RCS : reportedChainState
  calls : List Call

/-- The method `UpdateState`; `none` when the cycle panics. -/
def UpdateState (k : Consts) (bc : BlockChain) (s : synker) : Option CycleResult :=
  let u := userRoles bc
  let s1 := cycleStart k bc s
  match peerScan k bc s with
  | none => none
  | some rcs0 =>
    let s2 := setReadiness bc u rcs0 s1
    let rcs1 := clampBeacon k bc rcs0
    let beaconCalls := carveBeacon k rcs1.ClosestBeaconState.Height
      (u64add bc.BeaconHeight 1) s2.States.PeersState
    let poolCalls := poolRequests k bc u s2 rcs1
    let sh := shardRequests k bc s2.States.PeersState rcs1 s2.Status.Shards
    some
      { state := { s2 with States := { s2.States with PeersState := [] } }
        RCS := sh.1
        calls := beaconCalls ++ poolCalls ++ sh.2 }

/-! ## The pool drain -/

/-- The loop `for _, newBlk := range blks` of `InsertBeaconBlockFromPool` and
`InsertShardBlockFromPool`: `insert` is called on each block in turn and the loop
breaks at the first error. It returns the state left and the blocks `insert` was
called on, in call order. -/
def insertLoop {σ Blk E : Type} (insert : σ → Blk → σ × Option E) :
    σ → List Blk → σ × List Blk
  | st, [] => (st, [])
  | st, b :: bs =>
    match (insert st b).2 with
    | some _ => ((insert st b).1, [b])
    | none => ((insertLoop insert (insert st b).1 bs).1, b :: (insertLoop insert (insert st b).1 bs).2)

/-- The method `InsertBeaconBlockFromPool`. The pool method `GetValidBlock` and
the chain method `InsertBeaconBlock` are not among the sources and are
parameters; `σ` is the state they act on. -/
def InsertBeaconBlockFromPool {σ Blk E : Type} (GetValidBlock : σ → List Blk)
    (InsertBeaconBlock : σ → Blk → Bool → σ × Option E) (st : σ) : σ × List Blk :=
  insertLoop (fun st0 newBlk => InsertBeaconBlock st0 newBlk false) st (GetValidBlock st)

/-- The method `InsertShardBlockFromPool`, with `GetValidBlock shardID` for
`config.ShardPool[shardID].GetValidBlock()`. -/
def InsertShardBlockFromPool {σ Blk E : Type} (GetValidBlock : Nat → σ → List Blk)
    (InsertShardBlock : σ → Blk → Bool → σ × Option E) (shardID : Nat) (st : σ) :
    σ × List Blk :=
  insertLoop (fun st0 newBlk => InsertShardBlock st0 newBlk false) st (GetValidBlock shardID st)

/-! ## Specification-side definitions and concrete inputs -/

/-- Position of the first block whose insertion returns an error, when the blocks
are inserted one after the other from state `st`; `none` when none fails. -/
def firstFailure {σ Blk E : Type} (insert : σ → Blk → σ × Option E) :
    σ → List Blk → Option Nat
  | _, [] => none
  | st, b :: bs =>
    match (insert st b).2 with
    | some _ => some 0
    | none => (firstFailure insert (insert st b).1 bs).map (fun i => i + 1)

/-- Number of blocks up to and including the first failing one (all of them when
none fails). -/
def attempted {σ Blk E : Type} (insert : σ → Blk → σ × Option E) (st : σ)
    (blks : List Blk) : Nat :=
  match firstFailure insert st blks with
  | some i => i + 1
  | none => blks.length

/-- The chain state after inserting the blocks of `l` one after the other. -/
def runInserts {σ Blk E : Type} (insert : σ → Blk → σ × Option E) (st : σ) (l : List Blk) : σ :=
  l.foldl (fun s0 b => (insert s0 b).1) st

/-- Block number `i` of `blks` exists and its insertion, made after the insertion
of the blocks before it, returns an error. -/
def failsAt {σ Blk E : Type} (insert : σ → Blk → σ × Option E) (st : σ) (blks : List Blk)
    (i : Nat) : Prop :=
  ∃ b, blks[i]? = some b ∧ (insert (runInserts insert st (blks.take i)) b).2 ≠ none

/-- Every block of `blks` before position `i` is inserted without error, each
after the insertion of the blocks before it. -/
def succeedsBefore {σ Blk E : Type} (insert : σ → Blk → σ × Option E) (st : σ)
    (blks : List Blk) (i : Nat) : Prop :=
  ∀ j, j < i → ∀ b, blks[j]? = some b →
    (insert (runInserts insert st (blks.take j)) b).2 = none

/-- The beacon heights the peers of a table report, in visiting order. -/
def beaconHeights (peers : List (PeerID × peerState)) : List Nat :=
  peers.filterMap (fun e => e.2.Beacon.map (fun b => b.Height))

/-- The reported beacon heights strictly greater than the local height `L`. -/
def qualifyingBeaconHeights (L : Nat) (peers : List (PeerID × peerState)) : List Nat :=
  (beaconHeights peers).filter (fun h => decide (L < h))

/-- The effect of lines 227-235 on the height of the beacon target, for a peer
that reports beacon height `h`. -/
def stepBeaconHeight (L cur h : Nat) : Nat :=
  if h > L then (if h < (if cur = L then h else cur) then h else (if cur = L then h else cur))
  else cur

/-- No entry of the cross-shard pool map of a peer is a nil pointer. -/
def crossShardPoolNonNil (ps : peerState) : Prop :=
  ∀ x ∈ ps.CrossShardPool, x.2 ≠ none

/-- The call is a `SyncBlkBeacon` call. -/
def Call.isBeacon : Call → Bool
  | Call.SyncBlkBeacon _ _ _ _ _ _ => true
  | _ => false

/-- The call is a `SyncBlkShard` call. -/
def Call.isShard : Call → Bool
  | Call.SyncBlkShard _ _ _ _ _ _ _ => true
  | _ => false

/-- The caps on one call: a height range `(fromH, toH)` passed to `SyncBlkBeacon`
(or to `SyncBlkShard` for shard `shardID`) starts above the local height `L` of
that chain, ends at most at `L + defaultMaxBlkReqPerTime`, and holds at most
`defaultMaxBlkReqPerPeer` heights. Other calls carry no height range to cap. -/
def callWithinCaps (k : Consts) (bc : BlockChain) : Call → Prop
  | Call.SyncBlkBeacon _ _ _ fromH toH _ =>
    bc.BeaconHeight + 1 ≤ fromH ∧ toH ≤ bc.BeaconHeight + k.defaultMaxBlkReqPerTime ∧
      toH + 1 - fromH ≤ k.defaultMaxBlkReqPerPeer
  | Call.SyncBlkShard shardID _ _ _ fromH toH _ =>
    bc.ShardHeight shardID + 1 ≤ fromH ∧
      toH ≤ bc.ShardHeight shardID + k.defaultMaxBlkReqPerTime ∧
      toH + 1 - fromH ≤ k.defaultMaxBlkReqPerPeer
  | _ => True

/-- Every height a peer reports (beacon and shards) is a `uint64` value. -/
def reportsU64 (ps : peerState) : Prop :=
  (∀ b, ps.Beacon = some b → b.Height < U64) ∧ ∀ x ∈ ps.Shard, x.2.Height < U64

/-- The branch of lines 238-262 is taken: beacon-level role PROPOSER or VALIDATOR
in node mode AUTO or BEACON. -/
def beaconCommitteeBranch (bc : BlockChain) (u : UserRoles) : Prop :=
  (u.userRole = Role.PROPOSER_ROLE ∨ u.userRole = Role.VALIDATOR_ROLE) ∧
    (bc.NodeMode = NodeMode.NODEMODE_AUTO ∨ bc.NodeMode = NodeMode.NODEMODE_BEACON)

/-- No target of a shard of `shards` is below the local height of that shard. -/
def shardTargetsAtLeastLocal (bc : BlockChain) (shards : List Nat)
    (rcs : reportedChainState) : Prop :=
  ∀ shardID ∈ shards, bc.ShardHeight shardID ≤ (rcs.ClosestShardsState shardID).Height

/-- Every shard target of `RCS` is a `uint64` value. -/
def shardTargetsU64 (rcs : reportedChainState) : Prop :=
  ∀ shardID, (rcs.ClosestShardsState shardID).Height < U64

/-- A chain whose state is its canonical height and whose blocks are heights:
inserting height `st + 1` succeeds, any other height is refused. -/
def heightChainInsert (st : Nat) (blk : Nat) (_fromPool : Bool) : Nat × Option Unit :=
  if blk = st + 1 then (blk, none) else (st, some ())

/-- A synker state with syncing set `shards`, peer table `peers`, both flags
false and empty pool views. -/
def mkSynker (shards : List Nat) (peers : List (PeerID × peerState)) : synker :=
  { Status := { Shards := shards, IsLatest := { Beacon := false, Shards := fun _ => none } }
    States := { PeersState := peers
                PoolsState := ⟨[], fun _ => none, fun _ => none, fun _ => none⟩ } }

/-- A peer `id` that reports beacon height `bh` and the shard heights `sh`, and
no pool content. -/
def mkPeer (id : PeerID) (bh : Nat) (sh : List (Nat × Nat)) : PeerID × peerState :=
  (id, { Shard := sh.map (fun e => (e.1, ChainState.ofHeight e.2))
         Beacon := some (ChainState.ofHeight bh)
         ShardToBeaconPool := none
         CrossShardPool := []
         Peer := id })

/-- A node in mode `mode` whose key has beacon-level role `role` for shard
`shardID` and shard-level role `shardRole`, with relay shards `relay`, local
beacon height `bh`, local height `sh` of every shard and beacon view `bv` of
every shard. -/
def mkChain (mode : NodeMode) (relay : List Nat) (role : Role) (shardID : Nat)
    (shardRole : Role) (bh sh bv : Nat) : BlockChain :=
  { NodeMode := mode
    RelayShards := relay
    hasUserKeySet := true
    BeaconPubkeyRole := (role, shardID)
    ShardPubkeyRole := fun _ => shardRole
    BeaconHeight := bh
    ShardHeight := fun _ => sh
    GetBestHeightOfShard := fun _ => bv
    BeaconPoolValidHeight := []
    ShardPoolValidHeight := fun _ => []
    ShardToBeaconPoolValidPending := fun _ => none
    CrossShardPoolValidHeight := fun _ _ => none }

/-- The read `m[shardID][peerID]` of a map such as `RCS.ShardToBeaconBlks`; `none`
when either key is absent. -/
def blksEntry (m : List (Nat × List (PeerID × List Nat))) (shardID : Nat) (peerID : PeerID) :
    Option (List Nat) :=
  (m.lookup shardID).bind (fun pm => pm.lookup peerID)

/-- The shard-to-beacon pending height list a peer reports for `shardID`; `none`
when the peer reports none (nil pool, or no entry for the shard). -/
def reportedShardToBeacon (ps : peerState) (shardID : Nat) : Option (List Nat) :=
  ps.ShardToBeaconPool.bind (fun pool => pool.lookup shardID)

/-- The keys of a map kept as a list of pairs are pairwise distinct, as the keys
of a Go map are. -/
def keysNodup {V : Type} (m : List (Nat × V)) : Prop := (m.map Prod.fst).Nodup

instance {V : Type} (m : List (Nat × V)) : Decidable (keysNodup m) := by
  unfold keysNodup
  infer_instance

/-- The peer reports a beacon state whose height is at least `L`. -/
def beaconAtLeast (L : Nat) (ps : peerState) : Bool :=
  match ps.Beacon with
  | some b => decide (L ≤ b.Height)
  | none => false

/-- The first of two optional values that is present. -/
def firstSome {α : Type} (a b : Option α) : Option α :=
  match a with
  | some x => some x
  | none => b

/-- What the peer scan is expected to hold at `ShardToBeaconBlks[shardID][peerID]`
for a beacon proposer or validator: the list the peer `peerID` of the table
reports for the shard, when that peer's beacon height is at least `L`. -/
def expectedShardToBeacon (L : Nat) (peers : List (PeerID × peerState)) (shardID : Nat)
    (peerID : PeerID) : Option (List Nat) :=
  (peers.lookup peerID).bind
    (fun ps => if beaconAtLeast L ps then reportedShardToBeacon ps shardID else none)

/-- A peer `id` that reports beacon height `bh`, no shard state, and the
shard-to-beacon pending lists `pool`. -/
def mkPoolPeer (id : PeerID) (bh : Nat) (pool : List (Nat × List Nat)) : PeerID × peerState :=
  (id, { Shard := []
         Beacon := some (ChainState.ofHeight bh)
         ShardToBeaconPool := some pool
         CrossShardPool := []
         Peer := id })

/-! ## The in-flight cache and the `SyncBlk*` methods -/

/-- The block kinds passed to `getBlkPrefixSyncKey` (the constants `beaconBlk`,
`shardBlk`, `shardToBeaconBlk`, `crossShardBlk`). -/
inductive BlkType where
  | beaconBlk
  | shardBlk
  | shardToBeaconBlk
  | crossShardBlk
  deriving DecidableEq, Repr

/-- What the `SyncBlk*` methods use and the sources do not hold: the key prefix
function `getBlkPrefixSyncKey(isByHash, blkType, shardID, fromShard)` and the
time-to-live constant `defaultMaxBlockSyncTime`. They are parameters. -/
structure SyncParams where
  getBlkPrefixSyncKey : Bool → BlkType → Nat → Nat → Bytes
  defaultMaxBlockSyncTime : Nat

/-- Modelled from the spec: the cache `Status.CurrentlySyncBlks` belongs to a
cache library that is not among the sources. The spec describes it as "a mapping
from a composite key to a timestamp, with bounded time-to-live": an entry is a
key and the time at which it expires. -/
abbrev SyncCache := List (Bytes × Nat)

/-- Modelled from the spec: an entry inserted at time `T` with time-to-live `Δ`
expires at `T + Δ`; "eligible for re-request at any cycle run at time >= T+Δ, and
never before", so it is live exactly at the times before `T + Δ`. -/
def SyncCache.live (now : Nat) (e : Bytes × Nat) : Bool := decide (now < e.2)

/-- Modelled from the spec: the cache method `Items()`, the entries that have not
expired at time `now`. -/
def SyncCache.Items (c : SyncCache) (now : Nat) : SyncCache := c.filter (SyncCache.live now)

/-- Modelled from the spec: the cache method `DeleteExpired()` ("periodic sweep of
expired entries") at time `now`. -/
def SyncCache.DeleteExpired (c : SyncCache) (now : Nat) : SyncCache :=
  c.filter (SyncCache.live now)

/-- The map read `_, ok := cacheItems[key]`. -/
def SyncCache.has (items : SyncCache) (key : Bytes) : Bool :=
  items.any (fun e => decide (e.1 = key))

/-- Modelled from the spec: the cache method `Add(key, value, ttl)` at time `now`.
A key that is still in flight is left as it is (the error is dropped by the
callers); otherwise the key is stored with expiry `now + ttl`, replacing an
expired entry ("a key is only removed by expiry or by the next cycle issuing a
fresh request that overwrites it"). -/
def SyncCache.Add (c : SyncCache) (key : Bytes) (now ttl : Nat) : SyncCache :=
  if (c.Items now).has key then c
  else (key, now + ttl) :: c.filter (fun e => decide (e.1 ≠ key))

/-- The decimal digits of a `uint64`, as `fmt.Sprintf("%v", height)` prints
them. -/
def fmtUint64 (n : Nat) : Bytes := (Nat.toDigits 10 n).map (fun ch => Fin.ofNat ch.toNat)

/-- The key `fmt.Sprintf("%v%v", prefix, height)`. -/
def heightKey (pfx : Bytes) (height : Nat) : Bytes := pfx ++ fmtUint64 height

/-- The key `fmt.Sprintf("%v%v", prefix, blkHash.String())`. -/
def hashKey (pfx : Bytes) (blkHash : Hash) : Bytes := pfx ++ Hash.String blkHash

/-- The heights `fromHeight, fromHeight + 1, ..., toHeight` (none when
`toHeight < fromHeight`). -/
def heightsOf (fromHeight toHeight : Nat) : List Nat :=
  List.range' fromHeight (toHeight + 1 - fromHeight)

/-- The maximal runs of consecutive heights of a list, each as the pair of its
first and last height. -/
def runsOf : List Nat → List (Nat × Nat)
  | [] => []
  | h :: t =>
    match runsOf t with
    | [] => [(h, h)]
    | (f, e) :: rest => if h + 1 = f then (h, e) :: rest else (h, h) :: (f, e) :: rest

/-- Modelled from the spec: `getBlkNeedToGetByHash` is not among the sources.
"Skip any hash already in flight; issue one request batching all remaining
hashes": the hashes whose key is not in the cache items. -/
def getBlkNeedToGetByHash (pfx : Bytes) (blksHash : List Hash) (cacheItems : SyncCache)
    (_peerID : PeerID) : List Hash :=
  blksHash.filter (fun h => ! cacheItems.has (hashKey pfx h))

/-- The height is neither in the pool view nor in flight. -/
def heightNeeded (pfx : Bytes) (cacheItems : SyncCache) (poolItems : List Nat) (h : Nat) : Bool :=
  decide (h ∉ poolItems) && ! cacheItems.has (heightKey pfx h)

/-- Modelled from the spec: `getBlkNeedToGetBySpecificHeight` is not among the
sources. "Specific-height requests follow the same dedup discipline": the listed
heights that are neither in the pool view nor in flight. -/
def getBlkNeedToGetBySpecificHeight (pfx : Bytes) (blkHeights : List Nat)
    (cacheItems : SyncCache) (poolItems : List Nat) (_peerID : PeerID) : List Nat :=
  blkHeights.filter (heightNeeded pfx cacheItems poolItems)

/-- Modelled from the spec: `getBlkNeedToGetByHeight` is not among the sources.
"Consult the cache: skip entries already outstanding and not yet expired; only
request the complement", and "a block height present in the pool is never
re-requested": the heights of `[from, to]` that are neither in the pool view nor
in flight, as batches `fromHeight -> toHeight` of consecutive heights. -/
def getBlkNeedToGetByHeight (pfx : Bytes) (fromH toH : Nat) (cacheItems : SyncCache)
    (poolItems : List Nat) (_peerID : PeerID) : List (Nat × Nat) :=
  runsOf ((heightsOf fromH toH).filter (heightNeeded pfx cacheItems poolItems))

/-- A sequence of `CurrentlySyncBlks.Add(key, time.Now().Unix(),
defaultMaxBlockSyncTime)` calls; the clock is read once per `SyncBlk*` call. -/
def registerKeys (sp : SyncParams) (now : Nat) (cache : SyncCache) (keys : List Bytes) :
    SyncCache :=
  keys.foldl (fun c key => c.Add key now sp.defaultMaxBlockSyncTime) cache

/-- The heights registered by the loops `for fromHeight, toHeight := range batches
(for height := fromHeight; height <= toHeight; height++ ..)`. -/
def batchHeights (batches : List (Nat × Nat)) : List Nat :=
  (batches.map (fun b => heightsOf b.1 b.2)).flatten

/-- The inner loop `for height := fromHeight; height <= toHeight; height++` ends:
it does not when `toHeight` is the largest `uint64` and the range is not
empty. -/
def batchLoopEnds (b : Nat × Nat) : Bool := decide (b.2 < b.1) || decide (b.2 + 1 < U64)

/-- The messages pushed to the network (`go config.Server.PushMessage...`). -/
inductive Push where
  | GetBlockBeaconByHash (blksHash : List Hash) (getFromPool : Bool) (peerID : PeerID)
  | GetBlockBeaconByHeight (fromH toH : Nat) (peerID : PeerID)
  | GetBlockShardByHash (shardID : Nat) (blksHash : List Hash) (getFromPool : Bool)
      (peerID : PeerID)
  | GetBlockShardByHeight (shardID : Nat) (fromH toH : Nat) (peerID : PeerID)
  | GetBlockShardToBeaconByHash (shardID : Nat) (blksHash : List Hash) (getFromPool : Bool)
      (peerID : PeerID)
  | GetBlockShardToBeaconBySpecificHeight (shardID : Nat) (blkHeights : List Nat)
      (getFromPool : Bool) (peerID : PeerID)
  | GetBlockShardToBeaconByHeight (shardID : Nat) (fromH toH : Nat) (peerID : PeerID)
  | GetBlockCrossShardByHash (fromShard toShard : Nat) (blksHash : List Hash)
      (getFromPool : Bool) (peerID : PeerID)
  | GetBlockCrossShardBySpecificHeight (fromShard toShard : Nat) (blksHeight : List Nat)
      (getFromPool : Bool) (peerID : PeerID)
  deriving DecidableEq

/-- The method `GetBeaconPoolStateByHeight`. -/
def GetBeaconPoolStateByHeight (s : synker) : List Nat := s.States.PoolsState.BeaconPool

/-- The method `GetShardPoolStateByHeight` (an absent key reads as the empty
slice). -/
def GetShardPoolStateByHeight (s : synker) (shardID : Nat) : List Nat :=
  (s.States.PoolsState.ShardsPool shardID).getD []

/-- The method `GetShardToBeaconPoolStateByHeight` (nil, the empty slice, for an
absent key). -/
def GetShardToBeaconPoolStateByHeight (s : synker) (shardID : Nat) : List Nat :=
  (s.States.PoolsState.ShardToBeaconPool shardID).getD []

/-- The method `GetCrossShardPoolStateByHeight`. -/
def GetCrossShardPoolStateByHeight (s : synker) (fromShard : Nat) : List Nat :=
  (s.States.PoolsState.CrossShardPool fromShard).getD []

/-- The by-hash branch shared by the four `SyncBlk*` methods: the hashes to get
and the cache after their registration. -/
def syncByHash (sp : SyncParams) (pfx : Bytes) (now : Nat) (cache : SyncCache)
    (blksHash : List Hash) (peerID : PeerID) : SyncCache × List Hash :=
  let blksNeedToGet := getBlkNeedToGetByHash pfx blksHash (cache.Items now) peerID
  (registerKeys sp now cache (blksNeedToGet.map (hashKey pfx)), blksNeedToGet)

/-- The by-specific-height branch of `SyncBlkShardToBeacon` and
`SyncBlkCrossShard`. -/
def syncBySpecificHeight (sp : SyncParams) (pfx : Bytes) (now : Nat) (cache : SyncCache)
    (poolItems : List Nat) (blkHeights : List Nat) (peerID : PeerID) : SyncCache × List Nat :=
  let blksNeedToGet :=
    getBlkNeedToGetBySpecificHeight pfx blkHeights (cache.Items now) poolItems peerID
  (registerKeys sp now cache (blksNeedToGet.map (heightKey pfx)), blksNeedToGet)

/-- The by-height branch of `SyncBlkBeacon`, `SyncBlkShard` and
`SyncBlkShardToBeacon`: the batches to get and the cache after the registration
of every height of every batch; `none` when a registration loop does not end. -/
def syncByHeight (sp : SyncParams) (pfx : Bytes) (now : Nat) (cache : SyncCache)
    (poolItems : List Nat) (fromH toH : Nat) (peerID : PeerID) :
    Option (SyncCache × List (Nat × Nat)) :=
  let blkBatchsNeedToGet :=
    getBlkNeedToGetByHeight pfx fromH toH (cache.Items now) poolItems peerID
  if blkBatchsNeedToGet.all batchLoopEnds then
    some (registerKeys sp now cache ((batchHeights blkBatchsNeedToGet).map (heightKey pfx)),
      blkBatchsNeedToGet)
  else none

/-- The method `SyncBlkBeacon` at time `now`: the cache after the call and the
messages pushed. -/
def SyncBlkBeacon (sp : SyncParams) (s : synker) (cache : SyncCache) (now : Nat)
    (byHash getFromPool : Bool) (blksHash : List Hash) (fromH toH : Nat) (peerID : PeerID) :
    Option (SyncCache × List Push) :=
  if byHash then
    let r := syncByHash sp (sp.getBlkPrefixSyncKey true BlkType.beaconBlk 0 0) now cache
      blksHash peerID
    some (r.1,
      if r.2.length > 0 then [Push.GetBlockBeaconByHash r.2 getFromPool peerID] else [])
  else
    match syncByHeight sp (sp.getBlkPrefixSyncKey false BlkType.beaconBlk 0 0) now cache
        (GetBeaconPoolStateByHeight s) fromH toH peerID with
    | none => none
    | some r => some (r.1, r.2.map (fun b => Push.GetBlockBeaconByHeight b.1 b.2 peerID))

/-- The method `SyncBlkShard` at time `now`. -/
def SyncBlkShard (sp : SyncParams) (s : synker) (cache : SyncCache) (now : Nat)
    (shardID : Nat) (byHash getFromPool : Bool) (blksHash : List Hash) (fromH toH : Nat)
    (peerID : PeerID) : Option (SyncCache × List Push) :=
  if byHash then
    let r := syncByHash sp (sp.getBlkPrefixSyncKey true BlkType.shardBlk shardID 0) now cache
      blksHash peerID
    some (r.1,
      if r.2.length > 0 then [Push.GetBlockShardByHash shardID r.2 getFromPool peerID] else [])
  else
    match syncByHeight sp (sp.getBlkPrefixSyncKey false BlkType.shardBlk shardID 0) now cache
        (GetShardPoolStateByHeight s shardID) fromH toH peerID with
    | none => none
    | some r => some (r.1, r.2.map (fun b => Push.GetBlockShardByHeight shardID b.1 b.2 peerID))

/-- The method `SyncBlkShardToBeacon` at time `now`. -/
def SyncBlkShardToBeacon (sp : SyncParams) (s : synker) (cache : SyncCache) (now : Nat)
    (shardID : Nat) (byHash bySpecificHeights getFromPool : Bool) (blksHash : List Hash)
    (blkHeights : List Nat) (fromH toH : Nat) (peerID : PeerID) :
    Option (SyncCache × List Push) :=
  if byHash then
    let r := syncByHash sp (sp.getBlkPrefixSyncKey true BlkType.shardToBeaconBlk shardID 0) now
      cache blksHash peerID
    some (r.1,
      if r.2.length > 0 then
        [Push.GetBlockShardToBeaconByHash shardID r.2 getFromPool peerID]
      else [])
  else if bySpecificHeights then
    let r := syncBySpecificHeight sp
      (sp.getBlkPrefixSyncKey false BlkType.shardToBeaconBlk shardID 0) now cache
      (GetShardToBeaconPoolStateByHeight s shardID) blkHeights peerID
    some (r.1,
      if r.2.length > 0 then
        [Push.GetBlockShardToBeaconBySpecificHeight shardID r.2 getFromPool peerID]
      else [])
  else
    match syncByHeight sp (sp.getBlkPrefixSyncKey false BlkType.shardToBeaconBlk shardID 0) now
        cache (GetShardToBeaconPoolStateByHeight s shardID) fromH toH peerID with
    | none => none
    | some r =>
      some (r.1, r.2.map (fun b => Push.GetBlockShardToBeaconByHeight shardID b.1 b.2 peerID))

/-- The method `SyncBlkCrossShard` at time `now`. The zero heights are dropped
first, and the call returns at once when none is left. -/
def SyncBlkCrossShard (sp : SyncParams) (s : synker) (cache : SyncCache) (now : Nat)
    (getFromPool byHash : Bool) (blksHash : List Hash) (blksHeight : List Nat)
    (fromShard toShard : Nat) (peerID : PeerID) : Option (SyncCache × List Push) :=
  if byHash then
    let r := syncByHash sp (sp.getBlkPrefixSyncKey true BlkType.crossShardBlk toShard fromShard)
      now cache blksHash peerID
    some (r.1,
      if r.2.length > 0 then
        [Push.GetBlockCrossShardByHash fromShard toShard r.2 getFromPool peerID]
      else [])
  else
    let tempBlksHeight := blksHeight.filter (fun value => decide (value ≠ 0))
    if tempBlksHeight.length = 0 then some (cache, [])
    else
      let r := syncBySpecificHeight sp
        (sp.getBlkPrefixSyncKey false BlkType.crossShardBlk toShard fromShard) now cache
        (GetCrossShardPoolStateByHeight s fromShard) tempBlksHeight peerID
      some (r.1,
        if r.2.length > 0 then
          [Push.GetBlockCrossShardBySpecificHeight fromShard toShard r.2 getFromPool peerID]
        else [])

/-- One call of a cycle, made at time `now` on the cache `cache`. -/
def execCall (sp : SyncParams) (s : synker) (now : Nat) (cache : SyncCache) :
    Call → Option (SyncCache × List Push)
  | Call.SyncBlkBeacon byHash getFromPool blksHash fromH toH peerID =>
    SyncBlkBeacon sp s cache now byHash getFromPool blksHash fromH toH peerID
  | Call.SyncBlkShard shardID byHash getFromPool blksHash fromH toH peerID =>
    SyncBlkShard sp s cache now shardID byHash getFromPool blksHash fromH toH peerID
  | Call.SyncBlkShardToBeacon shardID byHash bySpecificHeights getFromPool blksHash blkHeights
      fromH toH peerID =>
    SyncBlkShardToBeacon sp s cache now shardID byHash bySpecificHeights getFromPool blksHash
      blkHeights fromH toH peerID
  | Call.SyncBlkCrossShard getFromPool byHash blksHash blksHeight fromShard toShard peerID =>
    SyncBlkCrossShard sp s cache now getFromPool byHash blksHash blksHeight fromShard toShard
      peerID

/-- The calls of a cycle made one after the other: the cache left and all the
messages pushed. -/
def runCalls (sp : SyncParams) (s : synker) (now : Nat) :
    SyncCache → List Call → Option (SyncCache × List Push)
  | cache, [] => some (cache, [])
  | cache, call :: rest =>
    match execCall sp s now cache call with
    | none => none
    | some r1 =>
      match runCalls sp s now r1.1 rest with
      | none => none
      | some r2 => some (r2.1, r1.2 ++ r2.2)

/-- One run of `UpdateState` at time `now` together with the in-flight cache:
`CurrentlySyncBlks.DeleteExpired()` (line 185), then the calls of the cycle on the
pool views read by `GetPoolsState`. It returns the cycle result, the cache left
and the messages pushed. -/
def UpdateStateWithCache (k : Consts) (sp : SyncParams) (bc : BlockChain) (s : synker)
    (cache : SyncCache) (now : Nat) : Option (CycleResult × SyncCache × List Push) :=
  match UpdateState k bc s with
  | none => none
  | some r =>
    match runCalls sp r.state now (cache.DeleteExpired now) r.calls with
    | none => none
    | some out => some (r, out.1, out.2)

/-- The cache keys of the identifiers a pushed message requests. -/
def Push.keys (sp : SyncParams) : Push → List Bytes
  | Push.GetBlockBeaconByHash blksHash _ _ =>
    blksHash.map (hashKey (sp.getBlkPrefixSyncKey true BlkType.beaconBlk 0 0))
  | Push.GetBlockBeaconByHeight fromH toH _ =>
    (heightsOf fromH toH).map (heightKey (sp.getBlkPrefixSyncKey false BlkType.beaconBlk 0 0))
  | Push.GetBlockShardByHash shardID blksHash _ _ =>
    blksHash.map (hashKey (sp.getBlkPrefixSyncKey true BlkType.shardBlk shardID 0))
  | Push.GetBlockShardByHeight shardID fromH toH _ =>
    (heightsOf fromH toH).map
      (heightKey (sp.getBlkPrefixSyncKey false BlkType.shardBlk shardID 0))
  | Push.GetBlockShardToBeaconByHash shardID blksHash _ _ =>
    blksHash.map (hashKey (sp.getBlkPrefixSyncKey true BlkType.shardToBeaconBlk shardID 0))
  | Push.GetBlockShardToBeaconBySpecificHeight shardID blkHeights _ _ =>
    blkHeights.map (heightKey (sp.getBlkPrefixSyncKey false BlkType.shardToBeaconBlk shardID 0))
  | Push.GetBlockShardToBeaconByHeight shardID fromH toH _ =>
    (heightsOf fromH toH).map
      (heightKey (sp.getBlkPrefixSyncKey false BlkType.shardToBeaconBlk shardID 0))
  | Push.GetBlockCrossShardByHash fromShard toShard blksHash _ _ =>
    blksHash.map (hashKey (sp.getBlkPrefixSyncKey true BlkType.crossShardBlk toShard fromShard))
  | Push.GetBlockCrossShardBySpecificHeight fromShard toShard blksHeight _ _ =>
    blksHeight.map
      (heightKey (sp.getBlkPrefixSyncKey false BlkType.crossShardBlk toShard fromShard))

/-- The key `key` is in flight until time `E`: the cache holds it with expiry `E`
and holds no entry of that key that expires later. -/
def inFlightUntil (cache : SyncCache) (key : Bytes) (E : Nat) : Prop :=
  (key, E) ∈ cache ∧ ∀ e ∈ cache, e.1 = key → e.2 ≤ E

/-- The heights a pushed message requests by height (a range or a list of
specific heights); none for a request by hash. -/
def Push.heights : Push → List Nat
  | Push.GetBlockBeaconByHeight fromH toH _ => heightsOf fromH toH
  | Push.GetBlockShardByHeight _ fromH toH _ => heightsOf fromH toH
  | Push.GetBlockShardToBeaconBySpecificHeight _ blkHeights _ _ => blkHeights
  | Push.GetBlockShardToBeaconByHeight _ fromH toH _ => heightsOf fromH toH
  | Push.GetBlockCrossShardBySpecificHeight _ _ blksHeight _ _ => blksHeight
  | _ => []

/-- The outcome `(cache, pushes)` of a by-height request keeps clear of the pool
view `pool`: no pushed message requests a height of `pool`, and the cache is the
old one after the registration of heights none of which is in `pool`. -/
def avoidsPool (sp : SyncParams) (pfx : Bytes) (now : Nat) (cache : SyncCache)
    (pool : List Nat) (out : SyncCache × List Push) : Prop :=
  (∀ p ∈ out.2, ∀ h ∈ Push.heights p, h ∉ pool) ∧
  ∃ hs : List Nat, out.1 = registerKeys sp now cache (hs.map (heightKey pfx)) ∧
    ∀ h ∈ hs, h ∉ pool

/-- The outcome `(cache, pushes)` of a `SyncBlk*` call made at time `now` on
`cache` requests only identifiers that are not in flight, and its cache is the
old one after some registrations. -/
def requestsOnlyFresh (sp : SyncParams) (cache : SyncCache) (now : Nat)
    (out : SyncCache × List Push) : Prop :=
  (∀ p ∈ out.2, ∀ key ∈ Push.keys sp p, (cache.Items now).has key = false) ∧
  ∃ keys : List Bytes, out.1 = registerKeys sp now cache keys

/-- A key-prefix function for examples: a tag for by-hash or by-height, a tag for
the block kind, the two shard ids, and a separator. -/
def examplePrefix (isByHash : Bool) (blkType : BlkType) (shardID fromShard : Nat) : Bytes :=
  [if isByHash then 72 else 104,
   (match blkType with
    | BlkType.beaconBlk => 98
    | BlkType.shardBlk => 115
    | BlkType.shardToBeaconBlk => 116
    | BlkType.crossShardBlk => 99),
   Fin.ofNat shardID, Fin.ofNat fromShard, 45]

/-! ## The portal redeem-request instruction builder (`beaconportalproducer.go`) -/

/-- The type `lvdb.MatchingRedeemCustodianDetail`; the builder reads `Amount`. -/
structure MatchingRedeemCustodianDetail where
  RemoteAddress : String
  Amount : Nat
deriving DecidableEq, Repr

/-- The type `lvdb.CustodianState`, restricted to the field the builder touches:
`HoldingPubTokens map[string]uint64`. -/
structure CustodianState where
  HoldingPubTokens : List (String × Nat)
deriving DecidableEq, Repr

/-- The record built by `NewRedeemRequestState` from its nine arguments. -/
structure RedeemRequest where
  UniqueRedeemID : String
  TxReqID : common.Hash
  TokenID : String
  RedeemerAddress : String
  RedeemerRemoteAddress : String
  RedeemAmount : Nat
  Custodians : List (String × MatchingRedeemCustodianDetail)
  RedeemFee : Nat
  BeaconHeight : Nat
deriving DecidableEq

/-- The part of `CurrentPortalState` the redeem builder reads and writes. Both
maps are lists of pairs, read with `List.lookup`. -/
structure CurrentPortalState where
  CustodianPoolState : List (String × CustodianState)
  WaitingRedeemRequests : List (String × RedeemRequest)
deriving DecidableEq

/-- The assignment `m[key] = v` on a map with string keys. -/
def strMapSet {V : Type} : List (String × V) → String → V → List (String × V)
  | [], key, v => [(key, v)]
  | (k0, x) :: t, key, v => if k0 = key then (key, v) :: t else (k0, x) :: strMapSet t key v

/-- The function `getBatchID`. `NewHash` returns a nil pointer together with its
error, the error is dropped, and `dataHash.String()` on the nil pointer panics
(`none`). -/
def getBatchID (beaconHeight : Nat) (txHashStr : Bytes) : Option Bytes :=
  let dataBytes := fmtUint64 beaconHeight ++ txHashStr
  match Hash.NewHash Hash.zero dataBytes with
  | Except.error _ => none
  | Except.ok dataHash => some (Hash.String dataHash)

/-! ## Specification-side definitions: the ranges carved in one cycle -/

/-- The height range `(from, to)` of a `SyncBlkBeacon` call. -/
def Call.beaconRange : Call → Option (Nat × Nat)
  | Call.SyncBlkBeacon _ _ _ fromH toH _ => some (fromH, toH)
  | _ => none

/-- The height range `(from, to)` of a `SyncBlkShard` call for shard `shardID`. -/
def Call.shardRange (shardID : Nat) : Call → Option (Nat × Nat)
  | Call.SyncBlkShard sid _ _ _ fromH toH _ => if sid = shardID then some (fromH, toH) else none
  | _ => none

/-- The peer and the height range of a `SyncBlkShardToBeacon` call for shard
`shardID` made by height range (neither by hash nor by specific heights). -/
def Call.shardToBeaconRange (shardID : Nat) : Call → Option (PeerID × Nat × Nat)
  | Call.SyncBlkShardToBeacon sid false false _ _ _ fromH toH peerID =>
    if sid = shardID then some (peerID, fromH, toH) else none
  | _ => none

/-- The ranges passed to `SyncBlkBeacon` by the calls of a cycle, in order. -/
def beaconRanges (calls : List Call) : List (Nat × Nat) := calls.filterMap Call.beaconRange

/-- The ranges passed to `SyncBlkShard` for shard `shardID`, in order. -/
def shardRanges (shardID : Nat) (calls : List Call) : List (Nat × Nat) :=
  calls.filterMap (Call.shardRange shardID)

/-- The height `h` lies in one of the ranges. -/
def inRanges (rs : List (Nat × Nat)) (h : Nat) : Prop := ∃ r ∈ rs, r.1 ≤ h ∧ h ≤ r.2

/-- Each later range starts no higher than the end of the range before it plus
one. -/
def noGap : List (Nat × Nat) → Prop
  | [] => True
  | [_] => True
  | a :: b :: t => b.1 ≤ a.2 + 1 ∧ noGap (b :: t)

/-- Each later range starts strictly after the end of the range before it. -/
def startsAfterPrevious : List (Nat × Nat) → Prop
  | [] => True
  | [_] => True
  | a :: b :: t => a.2 < b.1 ∧ startsAfterPrevious (b :: t)

/-- The call is a `SyncBlkShardToBeacon` call. -/
def Call.isShardToBeacon : Call → Bool
  | Call.SyncBlkShardToBeacon _ _ _ _ _ _ _ _ _ => true
  | _ => false

/-- The call is a `SyncBlkCrossShard` call. -/
def Call.isCrossShard : Call → Bool
  | Call.SyncBlkCrossShard _ _ _ _ _ _ _ => true
  | _ => false

/-! ## Specification-side definitions: the peer visiting order -/

/-- The synker state `s` with the peer table visited in the order `peers`. -/
def synker.withPeers (s : synker) (peers : List (PeerID × peerState)) : synker :=
  { s with States := { s.States with PeersState := peers } }

/-- The effect of one qualifying-or-not report `h` on the height `cur` of the
target of a syncing shard with local height `Ls` and beacon view `B` (lines
216-223). -/
def stepShardHeight (Ls B cur h : Nat) : Nat :=
  if h ≥ B ∧ h > Ls then
    if cur = Ls then h else if h < cur then h else cur
  else cur

/-- The effect of one peer on the height `cur` of the target of the syncing
shard `shardID`. -/
def shardStep (bc : BlockChain) (ps : peerState) (shardID cur : Nat) : Nat :=
  match ps.Shard.lookup shardID with
  | some shardState =>
    stepShardHeight (bc.ShardHeight shardID) (bc.GetBestHeightOfShard shardID) cur
      shardState.Height
  | none => cur

/-- A peer `id` at beacon height `bh` that reports shard `shardID` at height `h`
with block hash `blockHash`. -/
def mkForkPeer (id : PeerID) (bh shardID h : Nat) (blockHash : Hash) : PeerID × peerState :=
  (id, { Shard := [(shardID, ⟨h, blockHash, Hash.zero⟩)]
         Beacon := some (ChainState.ofHeight bh)
         ShardToBeaconPool := none
         CrossShardPool := []
         Peer := id })

/-- The outcome `(cache, pushes)` of a `SyncBlk*` call made at time `now` on
`cache` registers what it pushes: the key of every identifier of every pushed
message is held by the cache after the call (and is in `Items()` at that time
when the time-to-live is positive), and every entry of the cache after the call
was in the cache before it or has the key of an identifier of a pushed
message. -/
def registersWhatItPushes (sp : SyncParams) (cache : SyncCache) (now : Nat)
    (out : SyncCache × List Push) : Prop :=
  (∀ p ∈ out.2, ∀ key ∈ Push.keys sp p,
    key ∈ out.1.map Prod.fst ∧
      (0 < sp.defaultMaxBlockSyncTime → (out.1.Items now).has key = true)) ∧
  ∀ e ∈ out.1, e ∈ cache ∨ ∃ p ∈ out.2, e.1 ∈ Push.keys sp p

/-! ## The custodian processors (`beaconportalcustodianproducer.go`) -/

/-- The two chain statuses of a custodian withdraw request
(`common.PortalCustodianWithdrawRequestAcceptedChainStatus` and
`common.PortalCustodianWithdrawRequestRejectedChainStatus`). -/
inductive CustodianWithdrawStatus where
  | PortalCustodianWithdrawRequestAcceptedChainStatus
  | PortalCustodianWithdrawRequestRejectedChainStatus
deriving DecidableEq, Repr

/-- The metadata `metadata.PortalCustodianWithdrawRequest` of an action, as far
as the processor reads it. -/
structure PortalCustodianWithdrawRequest where
  Type_ : Int
  PaymentAddress : String
  Amount : Nat
deriving DecidableEq

/-- The decoded action `metadata.PortalCustodianWithdrawRequestAction`. -/
structure PortalCustodianWithdrawRequestAction where
  Meta : PortalCustodianWithdrawRequest
  TxReqID : Hash
  ShardID : Nat
deriving DecidableEq

/-- The content `metadata.PortalCustodianWithdrawRequestContent` of an
instruction. -/
structure PortalCustodianWithdrawRequestContent where
  PaymentAddress : String
  Amount : Nat
  RemainFreeCollateral : Nat
  TxReqID : Hash
  ShardID : Nat
deriving DecidableEq

/-- The four strings of a custodian withdraw instruction, before `strconv.Itoa`
and `json.Marshal`: meta type, shard id, status and content. -/
structure CustodianWithdrawInst where
  metaType : Int
  shardID : Nat
  reqStatus : CustodianWithdrawStatus
  content : PortalCustodianWithdrawRequestContent
deriving DecidableEq

/-- The function `buildCustodianWithdrawInst`. -/
def buildCustodianWithdrawInst (metaType : Int) (shardID : Nat)
    (reqStatus : CustodianWithdrawStatus) (paymentAddress : String) (amount : Nat)
    (remainFreeCollateral : Nat) (txReqID : Hash) : CustodianWithdrawInst :=
  { metaType := metaType
    shardID := shardID
    reqStatus := reqStatus
    content :=
      { PaymentAddress := paymentAddress
        Amount := amount
        RemainFreeCollateral := remainFreeCollateral
        TxReqID := txReqID
        ShardID := shardID } }

namespace portalRequestWithdrawCollateralProcessor

/-- What `buildNewInsts` calls and the sources do not hold, over the type
`Custodian` of `statedb.CustodianState` (also not among the sources): the decoding
of the content string (base64 then JSON), the key
`statedb.GenerateCustodianStateObjectKey(address).String()`, the getter
`GetFreeCollateral`, the function `UpdateCustodianStateAfterWithdrawCollateral`
(taken to return a non-nil custodian) and the constant `common.PRVIDStr`. -/
structure Env (Custodian : Type) where
  decodeAction : String → Option PortalCustodianWithdrawRequestAction
  GenerateCustodianStateObjectKey : String → String
  GetFreeCollateral : Custodian → Nat
  UpdateCustodianStateAfterWithdrawCollateral : Custodian → String → Nat → Custodian
  PRVIDStr : String

/-- The part of `CurrentPortalState` this processor reads and writes: the
custodian pool, a map from key strings to custodian pointers (`none` is a nil
pointer). -/
structure CurrentPortalState (Custodian : Type) where
  CustodianPoolState : List (String × Option Custodian)

/-- The method `buildNewInsts` of `portalRequestWithdrawCollateralProcessor`:
the instructions returned and the portal state after the call (the state is
passed by pointer, `none` is `nil`). The parameters `bc`, `portalParams` and
`optionalData` are not read by the body and `beaconHeight` is not either. -/
def buildNewInsts {Custodian : Type} (env : Env Custodian) (contentStr : String)
    (shardID : Nat) (currentPortalState : Option (CurrentPortalState Custodian))
    (_beaconHeight : Nat) :
    List CustodianWithdrawInst × Option (CurrentPortalState Custodian) :=
  match env.decodeAction contentStr with
  | none => ([], currentPortalState)
  | some actionData =>
    let rejectInst := buildCustodianWithdrawInst actionData.Meta.Type_ shardID
      CustodianWithdrawStatus.PortalCustodianWithdrawRequestRejectedChainStatus
      actionData.Meta.PaymentAddress actionData.Meta.Amount 0 actionData.TxReqID
    match currentPortalState with
    | none => ([rejectInst], none)
    | some st =>
      if st.CustodianPoolState.length ≤ 0 then ([rejectInst], some st)
      else
        let custodianKeyStr := env.GenerateCustodianStateObjectKey actionData.Meta.PaymentAddress
        match st.CustodianPoolState.lookup custodianKeyStr with
        | none => ([rejectInst], some st)
        | some none => ([rejectInst], some st)
        | some (some custodian) =>
          if actionData.Meta.Amount > env.GetFreeCollateral custodian then
            ([rejectInst], some st)
          else
            let updatedCustodian := env.UpdateCustodianStateAfterWithdrawCollateral custodian
              env.PRVIDStr actionData.Meta.Amount
            let st1 : CurrentPortalState Custodian :=
              { CustodianPoolState :=
                  strMapSet st.CustodianPoolState custodianKeyStr (some updatedCustodian) }
            ([buildCustodianWithdrawInst actionData.Meta.Type_ shardID
                CustodianWithdrawStatus.PortalCustodianWithdrawRequestAcceptedChainStatus
                actionData.Meta.PaymentAddress actionData.Meta.Amount
                (env.GetFreeCollateral updatedCustodian) actionData.TxReqID], some st1)

/-- The three conditions under which a request is accepted: the pool is not
empty, a non-nil custodian is stored under the key of `Meta.PaymentAddress`, and
`Meta.Amount` is at most that custodian's free collateral. -/
def acceptable {Custodian : Type} (env : Env Custodian) (st : CurrentPortalState Custodian)
    (actionData : PortalCustodianWithdrawRequestAction) : Prop :=
  st.CustodianPoolState ≠ [] ∧
    ∃ c, st.CustodianPoolState.lookup
        (env.GenerateCustodianStateObjectKey actionData.Meta.PaymentAddress) = some (some c) ∧
      actionData.Meta.Amount ≤ env.GetFreeCollateral c

/-- An environment for examples: every content string decodes to a request of
`amount` by the address `addr`, the key of an address is the address, and a
custodian is its free collateral. -/
def exampleEnv (amount : Nat) : Env Nat :=
  { decodeAction := fun _ => some ⟨⟨110, "addr", amount⟩, Hash.zero, 0⟩
    GenerateCustodianStateObjectKey := fun a => a
    GetFreeCollateral := fun c => c
    UpdateCustodianStateAfterWithdrawCollateral := fun c _ amt => c - amt
    PRVIDStr := "PRV" }

end portalRequestWithdrawCollateralProcessor

/-- What `buildConfirmWithdrawCollateralInstV3` calls and the sources do not
hold: `common.DecodeETHAddr` (its error is dropped), `common.AddPaddingBigInt`,
the constants `common.BigIntSize` and `common.ZeroByte`, and the encoder
`base58.Base58Check.Encode`. -/
structure ConfirmWithdrawEnv where
  DecodeETHAddr : String → Bytes
  AddPaddingBigInt : Int → Nat → Bytes
  BigIntSize : Nat
  Base58CheckEncode : Bytes → Fin 256 → String
  ZeroByte : Fin 256

/-- The Go library function `sort.Strings`: the strings in ascending order.
Every sorting algorithm returns the same list, since strings that compare equal
are the same string. -/
def sortStrings (l : List String) : List String := l.insertionSort (fun a b => a ≤ b)

/-- A Go string given by its bytes, as a string of characters (used for the
hexadecimal string of a hash). -/
def bytesToString (b : Bytes) : String := String.mk (b.map (fun x => Char.ofNat x.val))

/-- The conversion `int(beaconHeight)` of a `uint64` to a 64-bit `int`. -/
def uint64ToInt (h : Nat) : Int :=
  if h % U64 < 9223372036854775808 then (h % U64 : Nat) else ((h % U64 : Nat) : Int) - U64

/-- The bytes appended for one token: the decoded token id followed by the
padded amount. -/
def collateralEntryBytes (env : ConfirmWithdrawEnv) (tokenID : String) (amount : Int) : Bytes :=
  env.DecodeETHAddr tokenID ++ env.AddPaddingBigInt amount env.BigIntSize

/-- The function `buildConfirmWithdrawCollateralInstV3`. The map
`extCollaterals` is the list of its pairs in iteration order; its values are
non-nil `*big.Int`. The read `extCollaterals[tokenID]` is made for keys taken
from the map, so it finds an entry. -/
def buildConfirmWithdrawCollateralInstV3 (env : ConfirmWithdrawEnv) (metaType : Int)
    (shardID : Nat) (incAddress extAddress : String) (extCollaterals : List (String × Int))
    (txReqID : Hash) (beaconHeight : Nat) : List String :=
  let tokenIDs := sortStrings (extCollaterals.map Prod.fst)
  let extCollateralBytes : Bytes :=
    (tokenIDs.map (fun tokenID =>
      collateralEntryBytes env tokenID ((extCollaterals.lookup tokenID).getD 0))).flatten
  let extCollateralStrs := env.Base58CheckEncode extCollateralBytes env.ZeroByte
  [toString metaType,
   toString shardID,
   toString extCollaterals.length,
   incAddress,
   extAddress,
   extCollateralStrs,
   bytesToString (Hash.String txReqID),
   toString (uint64ToInt beaconHeight)]

/-- An environment for examples: a token id decodes to the byte of its length,
an amount is padded to its low byte, and the encoder prints the bytes as
characters. -/
def exampleConfirmEnv : ConfirmWithdrawEnv :=
  { DecodeETHAddr := fun s => [Fin.ofNat s.length]
    AddPaddingBigInt := fun a _ => [Fin.ofNat a.toNat]
    BigIntSize := 32
    Base58CheckEncode := fun b _ => bytesToString b
    ZeroByte := 0 }

/-! ## Theorems: the syncing set -/

theorem IndexOfByte_neg_iff (item : Nat) (arr : List Nat) :
    IndexOfByte item arr < 0 ↔ item ∉ arr := by
  induction arr with
  | nil => simp [IndexOfByte]
  | cons x xs ih =>
    have hnn : ¬ IndexOfByte item xs < 0 → ¬ (IndexOfByte item xs + 1 < 0) := by omega
    by_cases hx : x = item
    · simp [IndexOfByte, hx]
    · have hx2 : ¬ item = x := fun h => hx h.symm
      by_cases hlt : IndexOfByte item xs < 0
      · have hm := ih.mp hlt
        simp [IndexOfByte, hx, hx2, hlt, hm]
      · have hm : ¬ item ∉ xs := fun h => hlt (ih.mpr h)
        have h1 := hnn hlt
        simp only [IndexOfByte, hx, hlt, if_false]
        simp only [List.mem_cons, not_or]
        constructor
        · intro h; exact absurd h h1
        · intro h; exact absurd h.2 hm

/-- C7: `SyncShard(id)` returns the already-started error exactly when `id` is
in the syncing set; on error the state is unchanged, on success the new set is
the old one with `id` added. On an empty set `SyncShard(2)` twice succeeds and
then fails, and leaves the set `[2]`. -/
theorem SyncShard_error_iff_syncing (s : synker) (shardID : Nat) :
    ((SyncShard s shardID).1 = some (SyncError.alreadyStarted shardID) ↔
        shardID ∈ s.Status.Shards) ∧
    ((SyncShard s shardID).1 = none ↔ shardID ∉ s.Status.Shards) ∧
    ((SyncShard s shardID).1 ≠ none → (SyncShard s shardID).2 = s) ∧
    ((SyncShard s shardID).1 = none →
        (SyncShard s shardID).2.States = s.States ∧
        (SyncShard s shardID).2.Status.IsLatest = s.Status.IsLatest ∧
        ∀ x, x ∈ (SyncShard s shardID).2.Status.Shards ↔ x ∈ s.Status.Shards ∨ x = shardID) ∧
    ((SyncShard (mkSynker [] []) 2).1 = none ∧
      (SyncShard (SyncShard (mkSynker [] []) 2).2 2).1 = some (SyncError.alreadyStarted 2) ∧
      (SyncShard (SyncShard (mkSynker [] []) 2).2 2).2.Status.Shards = [2]) := by
  refine ⟨?_, ?_, ?_, ?_, ?_⟩
  · by_cases h : shardID ∈ s.Status.Shards <;> simp [SyncShard, syncShard, h]
  · by_cases h : shardID ∈ s.Status.Shards <;> simp [SyncShard, syncShard, h]
  · by_cases h : shardID ∈ s.Status.Shards <;> simp [SyncShard, syncShard, h]
  · by_cases h : shardID ∈ s.Status.Shards
    · simp [SyncShard, syncShard, h]
    · intro _
      simp only [SyncShard, syncShard, h, if_false, List.mem_cons, true_and]
      intro x
      tauto
  · simp [SyncShard, syncShard, mkSynker]

/-- C8 (as amended): when the node mode is AUTO or SHARD and the beacon best
state assigns the user key to shard `shardID` (role SHARD), `stopSyncShard`
fails with the cannot-be-stopped error and leaves the state unchanged, whatever
the syncing set, the relay shards and the role of the key inside the shard. -/
theorem stopSyncShard_own_shard_refused (bc : BlockChain) (s : synker) (shardID : Nat)
    (hmode : bc.NodeMode = NodeMode.NODEMODE_AUTO ∨ bc.NodeMode = NodeMode.NODEMODE_SHARD)
    (hrole : bc.BeaconPubkeyRole = (Role.SHARD_ROLE, shardID)) :
    stopSyncShard bc s shardID = (some (SyncError.cannotBeStopped shardID), s) := by
  have h1 : bc.BeaconPubkeyRole.1 = Role.SHARD_ROLE := by rw [hrole]
  have h2 : shardID = bc.BeaconPubkeyRole.2 := by rw [hrole]
  unfold stopSyncShard
  rw [if_pos ⟨hmode, h1, h2⟩]

/-- Witness of C8: a shard validator of shard 2 in mode AUTO cannot stop shard 2. -/
theorem stopSyncShard_own_shard_refused_witness :
    stopSyncShard
        (mkChain NodeMode.NODEMODE_AUTO [] Role.SHARD_ROLE 2 Role.VALIDATOR_ROLE 100 10 5)
        (mkSynker [2] []) 2
      = (some (SyncError.cannotBeStopped 2), mkSynker [2] []) :=
  stopSyncShard_own_shard_refused
    (mkChain NodeMode.NODEMODE_AUTO [] Role.SHARD_ROLE 2 Role.VALIDATOR_ROLE 100 10 5)
    (mkSynker [2] []) 2 (Or.inl rfl) rfl

/-- Counterexample to C8 as stated: in node mode BEACON a key assigned to shard 2
with shard role PROPOSER stops the synchronisation of shard 2 without error. -/
theorem stopSyncShard_own_shard_stopped_in_beacon_mode :
    (mkChain NodeMode.NODEMODE_BEACON [] Role.SHARD_ROLE 2 Role.PROPOSER_ROLE 100 10 5).BeaconPubkeyRole
        = (Role.SHARD_ROLE, 2) ∧
    (mkChain NodeMode.NODEMODE_BEACON [] Role.SHARD_ROLE 2 Role.PROPOSER_ROLE 100 10 5).ShardPubkeyRole 2
        = Role.PROPOSER_ROLE ∧
    (stopSyncShard
        (mkChain NodeMode.NODEMODE_BEACON [] Role.SHARD_ROLE 2 Role.PROPOSER_ROLE 100 10 5)
        (mkSynker [2] []) 2).1 = none ∧
    (stopSyncShard
        (mkChain NodeMode.NODEMODE_BEACON [] Role.SHARD_ROLE 2 Role.PROPOSER_ROLE 100 10 5)
        (mkSynker [2] []) 2).2.Status.Shards = [] := by
  refine ⟨rfl, rfl, ?_, ?_⟩ <;> simp [stopSyncShard, mkChain, mkSynker, IndexOfByte]

/-- C9 (as amended): `stopSyncShard(id)` returns no error exactly when `id` is in
the syncing set, is not a relay shard, and it is not the case that the node mode
is AUTO or SHARD while the user's key is assigned to shard `id` (beacon-level
role SHARD with that shard id); the new set is then the old one without `id` and
nothing else changes. In every other case it returns an error and the state is
unchanged. -/
theorem stopSyncShard_ok_iff (bc : BlockChain) (s : synker) (shardID : Nat) :
    ((stopSyncShard bc s shardID).1 = none ↔
        shardID ∈ s.Status.Shards ∧ shardID ∉ bc.RelayShards ∧
          ¬ ((bc.NodeMode = NodeMode.NODEMODE_AUTO ∨ bc.NodeMode = NodeMode.NODEMODE_SHARD) ∧
              bc.BeaconPubkeyRole = (Role.SHARD_ROLE, shardID))) ∧
    ((stopSyncShard bc s shardID).1 = none →
        (stopSyncShard bc s shardID).2.States = s.States ∧
        (stopSyncShard bc s shardID).2.Status.IsLatest = s.Status.IsLatest ∧
        ∀ x, x ∈ (stopSyncShard bc s shardID).2.Status.Shards ↔
          x ∈ s.Status.Shards ∧ x ≠ shardID) ∧
    ((stopSyncShard bc s shardID).1 ≠ none → (stopSyncShard bc s shardID).2 = s) := by
  have hidx := IndexOfByte_neg_iff shardID bc.RelayShards
  have hguard : ((bc.NodeMode = NodeMode.NODEMODE_AUTO ∨ bc.NodeMode = NodeMode.NODEMODE_SHARD) ∧
        bc.BeaconPubkeyRole = (Role.SHARD_ROLE, shardID)) ↔
      ((bc.NodeMode = NodeMode.NODEMODE_AUTO ∨ bc.NodeMode = NodeMode.NODEMODE_SHARD) ∧
        bc.BeaconPubkeyRole.1 = Role.SHARD_ROLE ∧ shardID = bc.BeaconPubkeyRole.2) := by
    constructor
    · rintro ⟨hm, hr⟩
      rw [hr]
      exact ⟨hm, rfl, rfl⟩
    · rintro ⟨hm, h1, h2⟩
      exact ⟨hm, Prod.ext h1 h2.symm⟩
  rw [hguard]
  by_cases hown : (bc.NodeMode = NodeMode.NODEMODE_AUTO ∨ bc.NodeMode = NodeMode.NODEMODE_SHARD) ∧
      bc.BeaconPubkeyRole.1 = Role.SHARD_ROLE ∧ shardID = bc.BeaconPubkeyRole.2
  · unfold stopSyncShard
    rw [if_pos hown]
    exact ⟨⟨fun h => by simp at h, fun h => absurd hown h.2.2⟩, fun h => by simp at h,
      fun _ => rfl⟩
  · by_cases hmem : shardID ∈ s.Status.Shards
    · by_cases hrel : shardID ∈ bc.RelayShards
      · have hi : ¬ IndexOfByte shardID bc.RelayShards < 0 := fun h => (hidx.mp h) hrel
        simp [stopSyncShard, hown, hmem, hi, hrel]
      · have hi : IndexOfByte shardID bc.RelayShards < 0 := hidx.mpr hrel
        simp [stopSyncShard, hown, hmem, hi, hrel]
    · simp [stopSyncShard, hown, hmem]

/-- Counterexample to C9 as stated: in node mode BEACON the user's key is
assigned to shard 1 with shard role VALIDATOR, the syncing set is {0, 1} and no
shard is relayed. Shard 1 is the node's own shard, yet `stopSyncShard(1)` returns
no error and the syncing set becomes {0}. -/
theorem stopSyncShard_own_shard_ok_outside_guard :
    (mkChain NodeMode.NODEMODE_BEACON [] Role.SHARD_ROLE 1 Role.VALIDATOR_ROLE 100 10 5).BeaconPubkeyRole
        = (Role.SHARD_ROLE, 1) ∧
    (mkChain NodeMode.NODEMODE_BEACON [] Role.SHARD_ROLE 1 Role.VALIDATOR_ROLE 100 10 5).ShardPubkeyRole 1
        = Role.VALIDATOR_ROLE ∧
    (stopSyncShard
        (mkChain NodeMode.NODEMODE_BEACON [] Role.SHARD_ROLE 1 Role.VALIDATOR_ROLE 100 10 5)
        (mkSynker [0, 1] []) 1).1 = none ∧
    (stopSyncShard
        (mkChain NodeMode.NODEMODE_BEACON [] Role.SHARD_ROLE 1 Role.VALIDATOR_ROLE 100 10 5)
        (mkSynker [0, 1] []) 1).2.Status.Shards = [0] := by
  refine ⟨rfl, rfl, ?_, ?_⟩ <;> simp [stopSyncShard, mkChain, mkSynker, IndexOfByte]

/-! ## Theorems: the pool drain -/

theorem insertLoop_calls {σ Blk E : Type} (insert : σ → Blk → σ × Option E) (st : σ)
    (blks : List Blk) :
    (insertLoop insert st blks).2 = blks.take (attempted insert st blks) ∧
    (insertLoop insert st blks).1 = runInserts insert st (insertLoop insert st blks).2 := by
  induction blks generalizing st with
  | nil => simp [insertLoop, attempted, firstFailure, runInserts]
  | cons b bs ih =>
    cases hb : (insert st b).2 with
    | some e => simp [insertLoop, attempted, firstFailure, runInserts, hb]
    | none =>
      have h := ih (insert st b).1
      unfold attempted at h
      constructor
      · simp only [insertLoop, attempted, firstFailure, hb]
        cases hf : firstFailure insert (insert st b).1 bs with
        | some i => rw [hf] at h; simp [h.1]
        | none => rw [hf] at h; simp [h.1]
      · simp only [insertLoop, hb, runInserts, List.foldl_cons]
        exact h.2

theorem firstFailure_some {σ Blk E : Type} (insert : σ → Blk → σ × Option E) (st : σ)
    (blks : List Blk) (i : Nat) (h : firstFailure insert st blks = some i) :
    failsAt insert st blks i ∧ succeedsBefore insert st blks i := by
  induction blks generalizing st i with
  | nil => simp [firstFailure] at h
  | cons b bs ih =>
    cases hb : (insert st b).2 with
    | some e =>
      simp only [firstFailure, hb, Option.some.injEq] at h
      subst h
      refine ⟨⟨b, by simp, ?_⟩, ?_⟩
      · simp [runInserts, hb]
      · intro j hj; omega
    | none =>
      simp only [firstFailure, hb, Option.map_eq_some'] at h
      obtain ⟨i0, hi0, rfl⟩ := h
      obtain ⟨⟨b0, hb0, hfail⟩, hsucc⟩ := ih (insert st b).1 i0 hi0
      refine ⟨⟨b0, by simpa using hb0, ?_⟩, ?_⟩
      · simpa [runInserts] using hfail
      · intro j hj c hc
        cases j with
        | zero =>
          simp only [List.getElem?_cons_zero, Option.some.injEq] at hc
          subst hc
          simpa [runInserts] using hb
        | succ j0 =>
          have := hsucc j0 (by omega) c (by simpa using hc)
          simpa [runInserts] using this

theorem firstFailure_none {σ Blk E : Type} (insert : σ → Blk → σ × Option E) (st : σ)
    (blks : List Blk) (h : firstFailure insert st blks = none) :
    succeedsBefore insert st blks blks.length := by
  induction blks generalizing st with
  | nil => intro j hj; simp at hj
  | cons b bs ih =>
    cases hb : (insert st b).2 with
    | some e => simp [firstFailure, hb] at h
    | none =>
      simp only [firstFailure, hb, Option.map_eq_none'] at h
      have hsucc := ih (insert st b).1 h
      intro j hj c hc
      cases j with
      | zero =>
        simp only [List.getElem?_cons_zero, Option.some.injEq] at hc
        subst hc
        simpa [runInserts] using hb
      | succ j0 =>
        have := hsucc j0 (by simpa using hj) c (by simpa using hc)
        simpa [runInserts] using this

theorem insertLoop_first_failure {σ Blk E : Type} (insert : σ → Blk → σ × Option E) (st : σ)
    (blks : List Blk) :
    ∃ n, (insertLoop insert st blks).2 = blks.take n ∧
      (insertLoop insert st blks).1 = runInserts insert st (blks.take n) ∧
      ((n = blks.length ∧ succeedsBefore insert st blks blks.length) ∨
        (∃ i, n = i + 1 ∧ failsAt insert st blks i ∧ succeedsBefore insert st blks i)) := by
  have hc := insertLoop_calls insert st blks
  refine ⟨attempted insert st blks, hc.1, ?_, ?_⟩
  · rw [← hc.1]; exact hc.2
  · cases hf : firstFailure insert st blks with
    | none => exact Or.inl ⟨by simp [attempted, hf], firstFailure_none insert st blks hf⟩
    | some i => exact Or.inr ⟨i, by simp [attempted, hf], firstFailure_some insert st blks i hf⟩

/-- C10: in one drain tick, for the list `b1..bn` returned by `GetValidBlock`,
`InsertBeaconBlockFromPool` and `InsertShardBlockFromPool` call the insertion
on exactly `b1..bk` in that order, where `k` is the position of the first block
whose insertion returns an error, or `n` when none fails; the state left is the
one after those insertions. With valid blocks at heights 50, 51, 52 on canonical
height 49 and no failure the three are inserted in that order (height 52 is
reached). -/
theorem InsertBlockFromPool_stops_at_first_failure {σ Blk E : Type}
    (GetValidBlock : σ → List Blk) (GetShardValidBlock : Nat → σ → List Blk)
    (InsertBeaconBlock InsertShardBlock : σ → Blk → Bool → σ × Option E)
    (shardID : Nat) (st : σ) :
    (∃ n, (InsertBeaconBlockFromPool GetValidBlock InsertBeaconBlock st).2
          = (GetValidBlock st).take n ∧
        (InsertBeaconBlockFromPool GetValidBlock InsertBeaconBlock st).1
          = runInserts (fun s0 b => InsertBeaconBlock s0 b false) st ((GetValidBlock st).take n) ∧
        ((n = (GetValidBlock st).length ∧
            succeedsBefore (fun s0 b => InsertBeaconBlock s0 b false) st (GetValidBlock st)
              (GetValidBlock st).length) ∨
          (∃ i, n = i + 1 ∧
            failsAt (fun s0 b => InsertBeaconBlock s0 b false) st (GetValidBlock st) i ∧
            succeedsBefore (fun s0 b => InsertBeaconBlock s0 b false) st (GetValidBlock st) i))) ∧
    (∃ n, (InsertShardBlockFromPool GetShardValidBlock InsertShardBlock shardID st).2
          = (GetShardValidBlock shardID st).take n ∧
        (InsertShardBlockFromPool GetShardValidBlock InsertShardBlock shardID st).1
          = runInserts (fun s0 b => InsertShardBlock s0 b false) st
              ((GetShardValidBlock shardID st).take n) ∧
        ((n = (GetShardValidBlock shardID st).length ∧
            succeedsBefore (fun s0 b => InsertShardBlock s0 b false) st
              (GetShardValidBlock shardID st) (GetShardValidBlock shardID st).length) ∨
          (∃ i, n = i + 1 ∧
            failsAt (fun s0 b => InsertShardBlock s0 b false) st (GetShardValidBlock shardID st) i ∧
            succeedsBefore (fun s0 b => InsertShardBlock s0 b false) st
              (GetShardValidBlock shardID st) i))) ∧
    InsertShardBlockFromPool (fun _ _ => [50, 51, 52]) heightChainInsert 0 49
      = (52, [50, 51, 52]) ∧
    InsertBeaconBlockFromPool (fun _ => [50, 51, 52]) heightChainInsert 49
      = (52, [50, 51, 52]) ∧
    InsertShardBlockFromPool (fun _ _ => [50, 52, 51]) heightChainInsert 0 49
      = (50, [50, 52]) := by
  refine ⟨?_, ?_, ?_, ?_, ?_⟩
  · exact insertLoop_first_failure (fun s0 b => InsertBeaconBlock s0 b false) st (GetValidBlock st)
  · exact insertLoop_first_failure (fun s0 b => InsertShardBlock s0 b false) st
      (GetShardValidBlock shardID st)
  · decide
  · decide
  · decide

/-! ## Theorems: the peer scan -/

theorem lookup_some_mem {V : Type} (l : List (Nat × V)) (a : Nat) (v : V)
    (h : l.lookup a = some v) : (a, v) ∈ l := by
  induction l with
  | nil => simp at h
  | cons x t ih =>
    obtain ⟨k0, x0⟩ := x
    by_cases hk : a = k0
    · subst hk
      simp only [List.lookup_cons, beq_self_eq_true, Option.some.injEq] at h
      subst h
      exact List.mem_cons_self _ _
    · have hb : (a == k0) = false := by simpa using hk
      simp only [List.lookup_cons, hb] at h
      exact List.mem_cons_of_mem _ (ih h)

theorem stopSyncShard_States (bc : BlockChain) (s : synker) (shardID : Nat) :
    (stopSyncShard bc s shardID).2.States = s.States ∧
    (stopSyncShard bc s shardID).2.Status.IsLatest = s.Status.IsLatest := by
  unfold stopSyncShard
  split
  · exact ⟨rfl, rfl⟩
  · split
    · split <;> exact ⟨rfl, rfl⟩
    · exact ⟨rfl, rfl⟩

theorem stopSyncUnnecessaryShard_States (k : Consts) (bc : BlockChain) (s : synker) :
    (stopSyncUnnecessaryShard k bc s).States = s.States ∧
    (stopSyncUnnecessaryShard k bc s).Status.IsLatest = s.Status.IsLatest := by
  unfold stopSyncUnnecessaryShard
  generalize List.range k.MAX_SHARD_NUMBER = l
  induction l generalizing s with
  | nil => exact ⟨rfl, rfl⟩
  | cons a t ih =>
    simp only [List.foldl_cons]
    have h1 := ih (stopSyncShard bc s a).2
    have h2 := stopSyncShard_States bc s a
    exact ⟨h1.1.trans h2.1, h1.2.trans h2.2⟩

theorem syncShard_States (s : synker) (shardID : Nat) :
    (syncShard s shardID).2.States = s.States ∧
    (syncShard s shardID).2.Status.IsLatest = s.Status.IsLatest := by
  unfold syncShard
  split <;> exact ⟨rfl, rfl⟩

theorem cycleStart_peers (k : Consts) (bc : BlockChain) (s : synker) :
    (cycleStart k bc s).States.PeersState = s.States.PeersState ∧
    (cycleStart k bc s).Status.IsLatest = s.Status.IsLatest := by
  unfold cycleStart
  simp only []
  split
  · have h1 := stopSyncUnnecessaryShard_States k bc
      (syncShard (GetPoolsState bc s) (userRoles bc).userShardID).2
    have h2 := syncShard_States (GetPoolsState bc s) (userRoles bc).userShardID
    constructor
    · rw [h1.1, h2.1]; rfl
    · rw [h1.2, h2.2]; rfl
  · exact ⟨rfl, rfl⟩

theorem foldl_scanSyncingShard_frame (bc : BlockChain) (ps : peerState) (shards : List Nat)
    (rcs : reportedChainState) :
    (shards.foldl (scanSyncingShard bc ps) rcs).ClosestBeaconState = rcs.ClosestBeaconState ∧
    (shards.foldl (scanSyncingShard bc ps) rcs).ShardToBeaconBlks = rcs.ShardToBeaconBlks ∧
    (shards.foldl (scanSyncingShard bc ps) rcs).CrossShardBlks = rcs.CrossShardBlks := by
  induction shards generalizing rcs with
  | nil => exact ⟨rfl, rfl, rfl⟩
  | cons a t ih =>
    simp only [List.foldl_cons]
    have h := ih (scanSyncingShard bc ps rcs a)
    have h0 : (scanSyncingShard bc ps rcs a).ClosestBeaconState = rcs.ClosestBeaconState ∧
        (scanSyncingShard bc ps rcs a).ShardToBeaconBlks = rcs.ShardToBeaconBlks ∧
        (scanSyncingShard bc ps rcs a).CrossShardBlks = rcs.CrossShardBlks := by
      unfold scanSyncingShard
      split
      · split
        · split
          · exact ⟨rfl, rfl, rfl⟩
          · split <;> exact ⟨rfl, rfl, rfl⟩
        · exact ⟨rfl, rfl, rfl⟩
      · exact ⟨rfl, rfl, rfl⟩
    exact ⟨h.1.trans h0.1, h.2.1.trans h0.2.1, h.2.2.trans h0.2.2⟩

theorem foldl_scanBeaconViewShard_beacon (bc : BlockChain) (ps : peerState) (l : List Nat)
    (rcs : reportedChainState) :
    (l.foldl (scanBeaconViewShard bc ps) rcs).ClosestBeaconState = rcs.ClosestBeaconState := by
  induction l generalizing rcs with
  | nil => rfl
  | cons a t ih =>
    simp only [List.foldl_cons]
    rw [ih]
    unfold scanBeaconViewShard
    split
    · split
      · split
        · rfl
        · split <;> rfl
      · rfl
    · rfl

theorem foldl_recordS2B_beacon (peerID : PeerID) (pool : List (Nat × List Nat))
    (rcs : reportedChainState) :
    (pool.foldl (fun r e =>
      { r with ShardToBeaconBlks := recordBlks r.ShardToBeaconBlks e.1 peerID e.2 }) rcs).ClosestBeaconState
      = rcs.ClosestBeaconState ∧
    (pool.foldl (fun r e =>
      { r with ShardToBeaconBlks := recordBlks r.ShardToBeaconBlks e.1 peerID e.2 }) rcs).ClosestShardsState
      = rcs.ClosestShardsState := by
  induction pool generalizing rcs with
  | nil => exact ⟨rfl, rfl⟩
  | cons a t ih =>
    simp only [List.foldl_cons]
    have h := ih { rcs with ShardToBeaconBlks := recordBlks rcs.ShardToBeaconBlks a.1 peerID a.2 }
    exact ⟨h.1, h.2⟩

theorem foldl_recordCross_beacon (peerID : PeerID) (pool : List (Nat × List Nat))
    (rcs : reportedChainState) :
    (pool.foldl (fun r e =>
      { r with CrossShardBlks := recordBlks r.CrossShardBlks e.1 peerID e.2 }) rcs).ClosestBeaconState
      = rcs.ClosestBeaconState ∧
    (pool.foldl (fun r e =>
      { r with CrossShardBlks := recordBlks r.CrossShardBlks e.1 peerID e.2 }) rcs).ClosestShardsState
      = rcs.ClosestShardsState := by
  induction pool generalizing rcs with
  | nil => exact ⟨rfl, rfl⟩
  | cons a t ih =>
    simp only [List.foldl_cons]
    have h := ih { rcs with CrossShardBlks := recordBlks rcs.CrossShardBlks a.1 peerID a.2 }
    exact ⟨h.1, h.2⟩

theorem recordPoolState_beacon (k : Consts) (bc : BlockChain) (u : UserRoles) (peerID : PeerID)
    (ps : peerState) (rcs r : reportedChainState)
    (h : recordPoolState k bc u peerID ps rcs = some r) :
    r.ClosestBeaconState = rcs.ClosestBeaconState := by
  unfold recordPoolState at h
  split at h
  · split at h
    · simp only [Option.some.injEq] at h
      subst h
      rw [foldl_scanBeaconViewShard_beacon]
      split
      · exact (foldl_recordS2B_beacon peerID _ rcs).1
      · rfl
    · simp only [Option.some.injEq] at h; subst h; rfl
  · split at h
    · simp only [Option.some.injEq] at h
      subst h
      rw [foldl_scanBeaconViewShard_beacon]
      split
      · exact (foldl_recordS2B_beacon peerID _ rcs).1
      · rfl
    · simp only [Option.some.injEq] at h; subst h; rfl
  · split at h
    · split at h
      · simp only [Option.some.injEq] at h
        subst h
        exact (foldl_recordCross_beacon peerID _ rcs).1
      · simp at h
      · simp only [Option.some.injEq] at h; subst h; rfl
    · simp only [Option.some.injEq] at h; subst h; rfl
  · simp only [Option.some.injEq] at h; subst h; rfl

theorem recordPoolState_returns (k : Consts) (bc : BlockChain) (u : UserRoles) (peerID : PeerID)
    (ps : peerState) (rcs : reportedChainState) (hwf : crossShardPoolNonNil ps) :
    ∃ r, recordPoolState k bc u peerID ps rcs = some r := by
  unfold recordPoolState
  split
  · split <;> exact ⟨_, rfl⟩
  · split <;> exact ⟨_, rfl⟩
  · split
    · split
      · exact ⟨_, rfl⟩
      · rename_i hl
        exact absurd rfl (hwf _ (lookup_some_mem _ _ _ hl))
      · exact ⟨_, rfl⟩
    · exact ⟨_, rfl⟩
  · exact ⟨_, rfl⟩

theorem adoptBeacon_height (bc : BlockChain) (b : ChainState) (rcs : reportedChainState) :
    (adoptBeacon bc b rcs).ClosestBeaconState.Height
      = stepBeaconHeight bc.BeaconHeight rcs.ClosestBeaconState.Height b.Height := by
  unfold adoptBeacon stepBeaconHeight
  by_cases h1 : b.Height > bc.BeaconHeight
  · by_cases h2 : rcs.ClosestBeaconState.Height = bc.BeaconHeight
    · simp [h1, h2]
    · by_cases h3 : b.Height < rcs.ClosestBeaconState.Height <;> simp [h1, h2, h3]
  · simp [h1]

theorem scanPeer_beacon_height (k : Consts) (bc : BlockChain) (u : UserRoles)
    (shards : List Nat) (rcs r : reportedChainState) (e : PeerID × peerState)
    (h : scanPeer k bc u shards rcs e = some r) :
    ∃ b, e.2.Beacon = some b ∧
      r.ClosestBeaconState.Height
        = stepBeaconHeight bc.BeaconHeight rcs.ClosestBeaconState.Height b.Height := by
  unfold scanPeer at h
  simp only [] at h
  cases hb : e.2.Beacon with
  | none => rw [hb] at h; simp at h
  | some b =>
    rw [hb] at h
    simp only [] at h
    refine ⟨b, rfl, ?_⟩
    have hf := (foldl_scanSyncingShard_frame bc e.2 shards rcs).1
    split at h
    · rw [recordPoolState_beacon k bc u e.1 e.2 _ r h, adoptBeacon_height, hf]
    · rename_i hlt
      simp only [Option.some.injEq] at h
      subst h
      rw [hf]
      unfold stepBeaconHeight
      have : ¬ b.Height > bc.BeaconHeight := by omega
      simp [this]

theorem scanPeers_beacon_height (k : Consts) (bc : BlockChain) (u : UserRoles)
    (shards : List Nat) (peers : List (PeerID × peerState)) (rcs r : reportedChainState)
    (h : scanPeers k bc u shards rcs peers = some r) :
    r.ClosestBeaconState.Height
      = (beaconHeights peers).foldl (stepBeaconHeight bc.BeaconHeight)
          rcs.ClosestBeaconState.Height := by
  induction peers generalizing rcs with
  | nil =>
    simp only [scanPeers, Option.some.injEq] at h
    subst h
    rfl
  | cons e es ih =>
    unfold scanPeers at h
    cases hs : scanPeer k bc u shards rcs e with
    | none => rw [hs] at h; simp at h
    | some r1 =>
      rw [hs] at h
      simp only [] at h
      obtain ⟨b, hb, hstep⟩ := scanPeer_beacon_height k bc u shards rcs r1 e hs
      rw [ih r1 h, hstep]
      simp [beaconHeights, hb]

theorem scanPeers_returns (k : Consts) (bc : BlockChain) (u : UserRoles)
    (shards : List Nat) (peers : List (PeerID × peerState)) (rcs : reportedChainState)
    (hb : ∀ e ∈ peers, e.2.Beacon ≠ none)
    (hwf : ∀ e ∈ peers, crossShardPoolNonNil e.2) :
    ∃ r, scanPeers k bc u shards rcs peers = some r := by
  induction peers generalizing rcs with
  | nil => exact ⟨rcs, rfl⟩
  | cons e es ih =>
    have hsome : ∃ r1, scanPeer k bc u shards rcs e = some r1 := by
      unfold scanPeer
      simp only []
      cases hbe : e.2.Beacon with
      | none => exact absurd hbe (hb e (List.mem_cons_self _ _))
      | some b =>
        simp only []
        split
        · exact recordPoolState_returns k bc u e.1 e.2 _ (hwf e (List.mem_cons_self _ _))
        · exact ⟨_, rfl⟩
    obtain ⟨r1, hr1⟩ := hsome
    unfold scanPeers
    rw [hr1]
    exact ih r1 (fun x hx => hb x (List.mem_cons_of_mem _ hx))
      (fun x hx => hwf x (List.mem_cons_of_mem _ hx))

theorem foldl_stepBeaconHeight (L : Nat) (hs : List Nat) (c : Nat) (hc : L ≤ c) :
    (c = L → hs.filter (fun h => decide (L < h)) = [] →
        hs.foldl (stepBeaconHeight L) c = L) ∧
    (c = L → hs.filter (fun h => decide (L < h)) ≠ [] →
        hs.foldl (stepBeaconHeight L) c ∈ hs.filter (fun h => decide (L < h)) ∧
        ∀ h ∈ hs.filter (fun h => decide (L < h)), hs.foldl (stepBeaconHeight L) c ≤ h) ∧
    (L < c →
        (hs.foldl (stepBeaconHeight L) c = c ∨
          hs.foldl (stepBeaconHeight L) c ∈ hs.filter (fun h => decide (L < h))) ∧
        hs.foldl (stepBeaconHeight L) c ≤ c ∧
        ∀ h ∈ hs.filter (fun h => decide (L < h)), hs.foldl (stepBeaconHeight L) c ≤ h) := by
  induction hs generalizing c with
  | nil => simp
  | cons a t ih =>
    simp only [List.foldl_cons]
    by_cases ha : L < a
    · have hfil : (a :: t).filter (fun h => decide (L < h))
          = a :: t.filter (fun h => decide (L < h)) := by simp [List.filter_cons, ha]
      rw [hfil]
      by_cases hcL : c = L
      · have hstep : stepBeaconHeight L c a = a := by
          unfold stepBeaconHeight; simp [ha, hcL]
        rw [hstep]
        obtain ⟨_, _, h3⟩ := ih a (by omega)
        obtain ⟨h3a, h3b, h3c⟩ := h3 ha
        refine ⟨fun _ hnil => by simp at hnil, fun _ _ => ⟨?_, ?_⟩, fun hlt => by omega⟩
        · rcases h3a with h | h
          · rw [h]; exact List.mem_cons_self _ _
          · exact List.mem_cons_of_mem _ h
        · intro x hx
          rcases List.mem_cons.mp hx with h | h
          · rw [h]; exact h3b
          · exact h3c x h
      · have hlt : L < c := by omega
        have hstep : stepBeaconHeight L c a = min c a := by
          unfold stepBeaconHeight
          simp only [gt_iff_lt, ha, if_true, hcL, if_false]
          by_cases hac : a < c
          · simp [hac]; omega
          · simp [hac]; omega
        rw [hstep]
        obtain ⟨_, _, h3⟩ := ih (min c a) (by omega)
        obtain ⟨h3a, h3b, h3c⟩ := h3 (by omega)
        refine ⟨fun h => absurd h hcL, fun h => absurd h hcL, fun _ => ⟨?_, by omega, ?_⟩⟩
        · rcases h3a with h | h
          · by_cases hac : a < c
            · right; rw [h, min_eq_right (by omega)]; exact List.mem_cons_self _ _
            · left; rw [h, min_eq_left (by omega)]
          · right; exact List.mem_cons_of_mem _ h
        · intro x hx
          rcases List.mem_cons.mp hx with h | h
          · rw [h]; omega
          · exact h3c x h
    · have hfil : (a :: t).filter (fun h => decide (L < h))
          = t.filter (fun h => decide (L < h)) := by simp [List.filter_cons, ha]
      have hstep : stepBeaconHeight L c a = c := by
        unfold stepBeaconHeight
        have : ¬ a > L := ha
        simp [this]
      rw [hfil, hstep]
      exact ih c hc

/-- C1: for every local beacon height `L` and every peer table in which each
peer carries a beacon state (the empty table included), the peer scan of
`UpdateState` returns as soon as no peer carries a nil cross-shard pool entry,
and whenever it returns the height of `RCS.ClosestBeaconState` is `L` when no
peer reports a beacon height above `L`, and otherwise is the least of the
reported heights above `L`: it is one of them, it is at most each of them (so it
is the greatest only when they all coincide), and it is above `L`. It is never
below `L`. -/
theorem peerScan_beacon_target_is_least_above_local (k : Consts) (bc : BlockChain)
    (s : synker) (hb : ∀ e ∈ s.States.PeersState, e.2.Beacon ≠ none) :
    ((∀ e ∈ s.States.PeersState, crossShardPoolNonNil e.2) →
        ∃ rcs, peerScan k bc s = some rcs) ∧
    ∀ rcs, peerScan k bc s = some rcs →
      bc.BeaconHeight ≤ rcs.ClosestBeaconState.Height ∧
      (qualifyingBeaconHeights bc.BeaconHeight s.States.PeersState = [] →
        rcs.ClosestBeaconState.Height = bc.BeaconHeight) ∧
      (qualifyingBeaconHeights bc.BeaconHeight s.States.PeersState ≠ [] →
        rcs.ClosestBeaconState.Height
          ∈ qualifyingBeaconHeights bc.BeaconHeight s.States.PeersState ∧
        bc.BeaconHeight < rcs.ClosestBeaconState.Height ∧
        (∀ h ∈ qualifyingBeaconHeights bc.BeaconHeight s.States.PeersState,
          rcs.ClosestBeaconState.Height ≤ h) ∧
        (∀ h ∈ qualifyingBeaconHeights bc.BeaconHeight s.States.PeersState,
          h ≠ rcs.ClosestBeaconState.Height → rcs.ClosestBeaconState.Height < h)) := by
  have hp := (cycleStart_peers k bc s).1
  constructor
  · intro hwf
    unfold peerScan
    simp only []
    rw [hp]
    exact scanPeers_returns k bc _ _ _ _ hb hwf
  · intro rcs hscan
    unfold peerScan at hscan
    simp only [] at hscan
    rw [hp] at hscan
    have hH := scanPeers_beacon_height k bc _ _ _ _ rcs hscan
    have hinit : (initRCS bc (cycleStart k bc s).Status.Shards).ClosestBeaconState.Height
        = bc.BeaconHeight := rfl
    rw [hinit] at hH
    obtain ⟨h1, h2, _⟩ := foldl_stepBeaconHeight bc.BeaconHeight
      (beaconHeights s.States.PeersState) bc.BeaconHeight (le_refl _)
    unfold qualifyingBeaconHeights
    rw [hH]
    have hmemgt : ∀ x ∈ (beaconHeights s.States.PeersState).filter
        (fun h => decide (bc.BeaconHeight < h)), bc.BeaconHeight < x := by
      intro x hx
      simpa using (List.mem_filter.mp hx).2
    by_cases hq : (beaconHeights s.States.PeersState).filter
        (fun h => decide (bc.BeaconHeight < h)) = []
    · have := h1 rfl hq
      refine ⟨by omega, fun _ => this, fun hne => absurd hq hne⟩
    · obtain ⟨hm, hle⟩ := h2 rfl hq
      have hgt := hmemgt _ hm
      refine ⟨by omega, fun hnil => absurd hnil hq, fun _ => ⟨hm, hgt, hle, ?_⟩⟩
      intro x hx hne
      have := hle x hx
      omega

/-- Witness of C1: with local beacon height 100 and peers reporting 105, 103,
110 and 90 the scan returns the target 103. -/
theorem peerScan_beacon_target_is_least_above_local_witness :
    peerScan ⟨600, 1200, 8⟩
        (mkChain NodeMode.NODEMODE_AUTO [] Role.other 0 Role.other 100 10 5)
        (mkSynker [] [mkPeer 1 105 [], mkPeer 2 103 [], mkPeer 3 110 [], mkPeer 4 90 []])
      ≠ none ∧
    ∀ rcs, peerScan ⟨600, 1200, 8⟩
        (mkChain NodeMode.NODEMODE_AUTO [] Role.other 0 Role.other 100 10 5)
        (mkSynker [] [mkPeer 1 105 [], mkPeer 2 103 [], mkPeer 3 110 [], mkPeer 4 90 []])
      = some rcs → rcs.ClosestBeaconState.Height = 103 := by
  have h := peerScan_beacon_target_is_least_above_local ⟨600, 1200, 8⟩
    (mkChain NodeMode.NODEMODE_AUTO [] Role.other 0 Role.other 100 10 5)
    (mkSynker [] [mkPeer 1 105 [], mkPeer 2 103 [], mkPeer 3 110 [], mkPeer 4 90 []])
    (by simp [mkSynker, mkPeer])
  constructor
  · obtain ⟨rcs, hr⟩ := h.1 (by simp [mkSynker, mkPeer, crossShardPoolNonNil])
    rw [hr]; simp
  · intro rcs hr
    have h2 := (h.2 rcs hr).2.2
    have hq : qualifyingBeaconHeights
        (mkChain NodeMode.NODEMODE_AUTO [] Role.other 0 Role.other 100 10 5).BeaconHeight
        (mkSynker [] [mkPeer 1 105 [], mkPeer 2 103 [], mkPeer 3 110 [], mkPeer 4 90 []]).States.PeersState
        = [105, 103, 110] := by decide
    rw [hq] at h2
    obtain ⟨hm, _, hle, _⟩ := h2 (by simp)
    have := hle 103 (by simp)
    simp only [List.mem_cons, List.mem_singleton, List.not_mem_nil, or_false] at hm
    omega

/-- C2 (the code at the failing input): a beacon proposer in mode AUTO that
relays shard 0, with local shard height 10 and beacon view 5 of shard 0, meets
one peer at the local beacon height that reports shard height 7. Shard 0 is in
the syncing set, the scan of lines 214-226 ignores the report (7 is below the
local height 10), but the loop of lines 249-261 adopts it: the target of shard 0
after the peer scan is 7, below the local height. The clamp of line 351 then
subtracts below zero and the cycle ends with target 10 + 1200. -/
theorem peerScan_lowers_shard_target_below_local :
    (cycleStart ⟨600, 1200, 8⟩
        (mkChain NodeMode.NODEMODE_AUTO [0] Role.PROPOSER_ROLE 0 Role.other 100 10 5)
        (mkSynker [0] [mkPeer 1 100 [(0, 7)]])).Status.Shards = [0] ∧
    (mkChain NodeMode.NODEMODE_AUTO [0] Role.PROPOSER_ROLE 0 Role.other 100 10 5).ShardHeight 0
      = 10 ∧
    (peerScan ⟨600, 1200, 8⟩
        (mkChain NodeMode.NODEMODE_AUTO [0] Role.PROPOSER_ROLE 0 Role.other 100 10 5)
        (mkSynker [0] [mkPeer 1 100 [(0, 7)]])).map
      (fun r => (r.ClosestShardsState 0).Height) = some 7 ∧
    (UpdateState ⟨600, 1200, 8⟩
        (mkChain NodeMode.NODEMODE_AUTO [0] Role.PROPOSER_ROLE 0 Role.other 100 10 5)
        (mkSynker [0] [mkPeer 1 100 [(0, 7)]])).map
      (fun r => (r.RCS.ClosestShardsState 0).Height) = some 1210 := by
  refine ⟨?_, ?_, ?_, ?_⟩ <;> decide

/-! ## Theorems: a cycle on an empty peer table -/

theorem u64sub_self (a : Nat) : u64sub a a = 0 := by
  unfold u64sub U64
  omega

theorem flatten_map_nil {α β : Type} (l : List α) (f : α → List β) (h : ∀ x, f x = []) :
    (l.map f).flatten = [] := by
  induction l with
  | nil => rfl
  | cons a t ih => simp [h a, ih]

theorem poolRequests_no_peers (k : Consts) (bc : BlockChain) (u : UserRoles) (s : synker)
    (rcs : reportedChainState) (hp : s.States.PeersState = [])
    (h1 : rcs.ShardToBeaconBlks = []) (h2 : rcs.CrossShardBlks = []) :
    poolRequests k bc u s rcs = [] := by
  have hflat : ((List.range k.MAX_SHARD_NUMBER).map (fun shardID =>
      if bc.GetBestHeightOfShard shardID < (rcs.ClosestShardsState shardID).Height then
        carveShardToBeacon k shardID (rcs.ClosestShardsState shardID).Height
          (u64add (bc.GetBestHeightOfShard shardID) 1) ([] : List (PeerID × peerState))
      else [])).flatten = [] := by
    apply flatten_map_nil
    intro x
    split <;> rfl
  unfold poolRequests
  rw [hp, h1, h2]
  split
  · split
    · split
      · rw [hflat]; rfl
      · rfl
    · split
      · rw [hflat]; rfl
      · rfl
    · split
      · split <;> rfl
      · rfl
    · rfl
  · rfl

theorem shardRequests_no_peers (k : Consts) (bc : BlockChain) (shards : List Nat)
    (rcs : reportedChainState)
    (h : ∀ sid ∈ shards, (rcs.ClosestShardsState sid).Height = bc.ShardHeight sid) :
    shardRequests k bc [] rcs shards = (rcs, []) := by
  induction shards generalizing rcs with
  | nil => rfl
  | cons a t ih =>
    have hc : clampShard k bc rcs a = rcs := by
      unfold clampShard
      rw [h a (List.mem_cons_self _ _), u64sub_self]
      simp
    unfold shardRequests
    simp only [hc]
    rw [ih rcs (fun sid hs => h sid (List.mem_cons_of_mem _ hs))]
    rfl

theorem UpdateState_no_peers (k : Consts) (bc : BlockChain) (s : synker)
    (hp : s.States.PeersState = []) :
    UpdateState k bc s = some
      { state := { cycleStart k bc s with
                    States := { (cycleStart k bc s).States with PeersState := [] } }
        RCS := initRCS bc (cycleStart k bc s).Status.Shards
        calls := [] } := by
  have hp1 : (cycleStart k bc s).States.PeersState = [] := by
    rw [(cycleStart_peers k bc s).1, hp]
  have hscan : peerScan k bc s = some (initRCS bc (cycleStart k bc s).Status.Shards) := by
    unfold peerScan
    simp only []
    rw [hp1]
    rfl
  have hready : ∀ rcs, setReadiness bc (userRoles bc) rcs (cycleStart k bc s)
      = cycleStart k bc s := by
    intro rcs
    unfold setReadiness
    rw [hp1]
    simp
  have hclamp : clampBeacon k bc (initRCS bc (cycleStart k bc s).Status.Shards)
      = initRCS bc (cycleStart k bc s).Status.Shards := by
    unfold clampBeacon
    have : (initRCS bc (cycleStart k bc s).Status.Shards).ClosestBeaconState.Height
        = bc.BeaconHeight := rfl
    rw [this, u64sub_self]
    simp
  have hpool := poolRequests_no_peers k bc (userRoles bc) (cycleStart k bc s)
    (initRCS bc (cycleStart k bc s).Status.Shards) hp1 rfl rfl
  have hshard := shardRequests_no_peers k bc (cycleStart k bc s).Status.Shards
    (initRCS bc (cycleStart k bc s).Status.Shards) (by
      intro sid hs
      simp [initRCS, hs, ChainState.ofHeight])
  unfold UpdateState
  simp only [hscan, hready, hclamp, hpool, hp1, hshard, carveBeacon, List.append_nil]

/-- C4: on an empty peer table `UpdateState` returns, makes no call at all (so
no `SyncBlkBeacon`, `SyncBlkShard`, `SyncBlkShardToBeacon` or
`SyncBlkCrossShard` call), ends with the beacon target at the local beacon
height and the target of every shard of the syncing set at the local height of
that shard, and leaves `Status.IsLatest` (the beacon flag and every shard flag)
as it was. -/
theorem UpdateState_empty_table_moves_nothing (k : Consts) (bc : BlockChain) (s : synker)
    (hp : s.States.PeersState = []) :
    ∃ r, UpdateState k bc s = some r ∧
      r.calls = [] ∧
      r.RCS.ClosestBeaconState.Height = bc.BeaconHeight ∧
      (∀ shardID ∈ r.state.Status.Shards,
        (r.RCS.ClosestShardsState shardID).Height = bc.ShardHeight shardID) ∧
      r.state.Status.IsLatest.Beacon = s.Status.IsLatest.Beacon ∧
      (∀ shardID, r.state.Status.IsLatest.Shards shardID = s.Status.IsLatest.Shards shardID) ∧
      (∀ shard shardID, IsLatest r.state shard shardID = IsLatest s shard shardID) := by
  have hI := (cycleStart_peers k bc s).2
  refine ⟨_, UpdateState_no_peers k bc s hp, rfl, rfl, ?_, ?_, ?_, ?_⟩
  · intro shardID hs
    have hs2 : shardID ∈ (cycleStart k bc s).Status.Shards := hs
    simp [initRCS, hs2, ChainState.ofHeight]
  · show (cycleStart k bc s).Status.IsLatest.Beacon = _
    rw [hI]
  · intro shardID
    show (cycleStart k bc s).Status.IsLatest.Shards shardID = _
    rw [hI]
  · intro shard shardID
    unfold IsLatest
    show (if shard then _ else (cycleStart k bc s).Status.IsLatest.Beacon) = _
    simp only []
    rw [hI]

/-- Witness of C4: a beacon proposer with an empty peer table. -/
theorem UpdateState_empty_table_moves_nothing_witness :
    ∃ r, UpdateState ⟨600, 1200, 8⟩
        (mkChain NodeMode.NODEMODE_AUTO [0] Role.PROPOSER_ROLE 0 Role.other 100 10 5)
        (mkSynker [0] []) = some r ∧ r.calls = [] ∧
      r.RCS.ClosestBeaconState.Height = 100 :=
  let ⟨r, h1, h2, h3, _⟩ := UpdateState_empty_table_moves_nothing ⟨600, 1200, 8⟩
    (mkChain NodeMode.NODEMODE_AUTO [0] Role.PROPOSER_ROLE 0 Role.other 100 10 5)
    (mkSynker [0] []) rfl
  ⟨r, h1, h2, h3⟩

theorem UpdateState_clears_peers (k : Consts) (bc : BlockChain) (s : synker) (r : CycleResult)
    (h : UpdateState k bc s = some r) : r.state.States.PeersState = [] := by
  unfold UpdateState at h
  simp only [] at h
  split at h
  · simp at h
  · simp only [Option.some.injEq] at h
    subst h
    rfl

theorem UpdateState_returns (k : Consts) (bc : BlockChain) (s : synker)
    (hb : ∀ e ∈ s.States.PeersState, e.2.Beacon ≠ none)
    (hwf : ∀ e ∈ s.States.PeersState, crossShardPoolNonNil e.2) :
    ∃ r, UpdateState k bc s = some r := by
  have hscan : ∃ rcs, peerScan k bc s = some rcs := by
    unfold peerScan
    simp only []
    rw [(cycleStart_peers k bc s).1]
    exact scanPeers_returns k bc _ _ _ _ hb hwf
  obtain ⟨rcs, hr⟩ := hscan
  unfold UpdateState
  simp only [hr]
  exact ⟨_, rfl⟩

/-- C5: a run of `UpdateState` returns as soon as every peer of the table
carries a beacon state and no nil cross-shard pool entry; whenever a run returns
the peer table is empty, and a second run started from the state it leaves (no
peer-state update in between; whatever the chain and pools are by then) returns
and makes no call at all, so it issues no request and in particular none that the
first run issued. -/
theorem UpdateState_twice_no_duplicate_request (k : Consts) (bc : BlockChain) (s : synker) :
    ((∀ e ∈ s.States.PeersState, e.2.Beacon ≠ none) →
      (∀ e ∈ s.States.PeersState, crossShardPoolNonNil e.2) →
        ∃ r, UpdateState k bc s = some r) ∧
    ∀ r, UpdateState k bc s = some r →
      r.state.States.PeersState = [] ∧
      ∀ bc2 : BlockChain, ∃ r2, UpdateState k bc2 r.state = some r2 ∧
        r2.calls = [] ∧ (∀ c ∈ r2.calls, c ∉ r.calls) ∧
        r2.state.States.PeersState = [] := by
  refine ⟨UpdateState_returns k bc s, ?_⟩
  intro r hr
  have hp := UpdateState_clears_peers k bc s r hr
  refine ⟨hp, fun bc2 => ⟨_, UpdateState_no_peers k bc2 r.state hp, rfl, ?_, rfl⟩⟩
  intro c hc
  simp at hc

/-! ## Theorems: the requests of a cycle -/

theorem SetChainState_frame (s : synker) (shard : Bool) (shardID : Nat) (ready : Bool) :
    (SetChainState s shard shardID ready).States = s.States ∧
    (SetChainState s shard shardID ready).Status.Shards = s.Status.Shards := by
  unfold SetChainState
  split <;> exact ⟨rfl, rfl⟩

theorem setReadiness_frame (bc : BlockChain) (u : UserRoles) (rcs : reportedChainState)
    (s : synker) :
    (setReadiness bc u rcs s).States = s.States ∧
    (setReadiness bc u rcs s).Status.Shards = s.Status.Shards := by
  unfold setReadiness
  simp only []
  split_ifs <;> simp [SetChainState_frame]

theorem UpdateState_unfold (k : Consts) (bc : BlockChain) (s : synker) (r : CycleResult)
    (h : UpdateState k bc s = some r) :
    ∃ rcs0, peerScan k bc s = some rcs0 ∧
      r.calls =
        carveBeacon k (clampBeacon k bc rcs0).ClosestBeaconState.Height
            (u64add bc.BeaconHeight 1) s.States.PeersState
          ++ poolRequests k bc (userRoles bc)
              (setReadiness bc (userRoles bc) rcs0 (cycleStart k bc s)) (clampBeacon k bc rcs0)
          ++ (shardRequests k bc s.States.PeersState (clampBeacon k bc rcs0)
              (cycleStart k bc s).Status.Shards).2 ∧
      r.RCS = (shardRequests k bc s.States.PeersState (clampBeacon k bc rcs0)
              (cycleStart k bc s).Status.Shards).1 := by
  unfold UpdateState at h
  simp only [] at h
  split at h
  · simp at h
  · rename_i rcs0 hscan
    simp only [Option.some.injEq] at h
    subst h
    have hf := setReadiness_frame bc (userRoles bc) rcs0 (cycleStart k bc s)
    have hp := (cycleStart_peers k bc s).1
    refine ⟨rcs0, hscan, ?_, ?_⟩
    · simp only [hf.1, hf.2, hp]
    · simp only [hf.1, hf.2, hp]

theorem specificHeightCalls_mem (mk : Nat → PeerID → List Nat → Call)
    (m : List (Nat × List (PeerID × List Nat))) (c : Call)
    (h : c ∈ specificHeightCalls mk m) : ∃ a b d, c = mk a b d := by
  unfold specificHeightCalls at h
  simp only [List.mem_flatten, List.mem_map] at h
  obtain ⟨l, ⟨e, _, rfl⟩, hc⟩ := h
  simp only [List.mem_map] at hc
  obtain ⟨pe, _, rfl⟩ := hc
  exact ⟨_, _, _, rfl⟩

theorem carveShardToBeacon_kind (k : Consts) (shardID target cur : Nat)
    (peers : List (PeerID × peerState)) (c : Call)
    (h : c ∈ carveShardToBeacon k shardID target cur peers) :
    c.isBeacon = false ∧ c.isShard = false := by
  induction peers generalizing cur with
  | nil => simp [carveShardToBeacon] at h
  | cons e es ih =>
    unfold carveShardToBeacon at h
    split at h
    · split at h
      · rcases List.mem_cons.mp h with h1 | h1
        · subst h1; exact ⟨rfl, rfl⟩
        · exact ih _ h1
      · rcases List.mem_cons.mp h with h1 | h1
        · subst h1; exact ⟨rfl, rfl⟩
        · exact ih _ h1
    · exact ih _ h

theorem poolRequests_kind (k : Consts) (bc : BlockChain) (u : UserRoles) (s : synker)
    (rcs : reportedChainState) (c : Call) (h : c ∈ poolRequests k bc u s rcs) :
    c.isBeacon = false ∧ c.isShard = false := by
  have hS2B : ∀ c0, c0 ∈ specificHeightCalls
        (fun shardID peerID blks =>
          Call.SyncBlkShardToBeacon shardID false true true [] blks 0 0 peerID)
        rcs.ShardToBeaconBlks
      ++ ((List.range k.MAX_SHARD_NUMBER).map (fun shardID =>
        if bc.GetBestHeightOfShard shardID < (rcs.ClosestShardsState shardID).Height then
          carveShardToBeacon k shardID (rcs.ClosestShardsState shardID).Height
            (u64add (bc.GetBestHeightOfShard shardID) 1) s.States.PeersState
        else [])).flatten → c0.isBeacon = false ∧ c0.isShard = false := by
    intro c0 h0
    rcases List.mem_append.mp h0 with h1 | h1
    · obtain ⟨a, b, d, rfl⟩ := specificHeightCalls_mem _ _ _ h1
      exact ⟨rfl, rfl⟩
    · simp only [List.mem_flatten, List.mem_map] at h1
      obtain ⟨l, ⟨sid, _, rfl⟩, hc⟩ := h1
      split at hc
      · exact carveShardToBeacon_kind _ _ _ _ _ _ hc
      · simp at hc
  unfold poolRequests at h
  split at h
  · split at h
    · split at h
      · exact hS2B c h
      · simp at h
    · split at h
      · exact hS2B c h
      · simp at h
    · split at h
      · split at h
        · obtain ⟨a, b, d, rfl⟩ := specificHeightCalls_mem _ _ _ h
          exact ⟨rfl, rfl⟩
        · simp at h
      · simp at h
    · simp at h
  · simp at h

theorem carveShard_kind (k : Consts) (shardID target cur : Nat)
    (peers : List (PeerID × peerState)) (c : Call)
    (h : c ∈ carveShard k shardID target cur peers) : c.isBeacon = false := by
  induction peers generalizing cur with
  | nil => simp [carveShard] at h
  | cons e es ih =>
    unfold carveShard at h
    split at h
    · split at h
      · split at h
        · simp only [List.mem_singleton] at h
          subst h; rfl
        · rcases List.mem_cons.mp h with h1 | h1
          · subst h1; rfl
          · exact ih _ h1
      · exact ih _ h
    · exact ih _ h

theorem clampShard_beacon (k : Consts) (bc : BlockChain) (rcs : reportedChainState)
    (shardID : Nat) :
    (clampShard k bc rcs shardID).ClosestBeaconState = rcs.ClosestBeaconState := by
  unfold clampShard
  split <;> rfl

theorem shardRequests_beacon (k : Consts) (bc : BlockChain) (peers : List (PeerID × peerState))
    (rcs : reportedChainState) (shards : List Nat) :
    (shardRequests k bc peers rcs shards).1.ClosestBeaconState = rcs.ClosestBeaconState ∧
    ∀ c ∈ (shardRequests k bc peers rcs shards).2, c.isBeacon = false := by
  induction shards generalizing rcs with
  | nil => simp [shardRequests]
  | cons a t ih =>
    unfold shardRequests
    simp only []
    have h := ih (clampShard k bc rcs a)
    refine ⟨h.1.trans (clampShard_beacon k bc rcs a), ?_⟩
    intro c hc
    rcases List.mem_append.mp hc with h1 | h1
    · exact carveShard_kind _ _ _ _ _ _ h1
    · exact h.2 c h1

theorem carveBeacon_caps (k : Consts) (bc : BlockChain) (target : Nat)
    (peers : List (PeerID × peerState)) (cur : Nat)
    (hP : 1 ≤ k.defaultMaxBlkReqPerPeer)
    (hB : bc.BeaconHeight + k.defaultMaxBlkReqPerTime + k.defaultMaxBlkReqPerPeer < U64)
    (ht : target ≤ bc.BeaconHeight + k.defaultMaxBlkReqPerTime)
    (h1 : bc.BeaconHeight + 1 ≤ cur)
    (h2 : cur ≤ bc.BeaconHeight + k.defaultMaxBlkReqPerTime + 1) :
    ∀ c ∈ carveBeacon k target cur peers, callWithinCaps k bc c := by
  induction peers generalizing cur with
  | nil => intro c hc; simp [carveBeacon] at hc
  | cons e es ih =>
    intro c hc
    unfold carveBeacon at hc
    unfold U64 at hB
    split at hc
    · rename_i hcond
      simp only [List.mem_singleton] at hc
      subst hc
      simp only [callWithinCaps]
      simp only [u64add, u64sub, U64] at hcond
      omega
    · rename_i hcond
      simp only [u64add, u64sub, U64] at hcond
      rcases List.mem_cons.mp hc with hc1 | hc1
      · subst hc1
        simp only [callWithinCaps, u64add, u64sub, U64]
        omega
      · refine ih (u64add cur (k.defaultMaxBlkReqPerPeer - 1)) ?_ ?_ c hc1
        · simp only [u64add, U64]; omega
        · simp only [u64add, U64]; omega

theorem carveShard_caps (k : Consts) (bc : BlockChain) (shardID target : Nat)
    (peers : List (PeerID × peerState)) (cur : Nat)
    (hP : 1 ≤ k.defaultMaxBlkReqPerPeer)
    (hB : bc.ShardHeight shardID + k.defaultMaxBlkReqPerTime + k.defaultMaxBlkReqPerPeer < U64)
    (ht : target ≤ bc.ShardHeight shardID + k.defaultMaxBlkReqPerTime)
    (h1 : bc.ShardHeight shardID + 1 ≤ cur)
    (h2 : cur ≤ bc.ShardHeight shardID + k.defaultMaxBlkReqPerTime + 1) :
    ∀ c ∈ carveShard k shardID target cur peers, callWithinCaps k bc c := by
  induction peers generalizing cur with
  | nil => intro c hc; simp [carveShard] at hc
  | cons e es ih =>
    intro c hc
    unfold carveShard at hc
    unfold U64 at hB
    split at hc
    · split at hc
      · split at hc
        · rename_i hcond
          simp only [List.mem_singleton] at hc
          subst hc
          simp only [callWithinCaps]
          simp only [u64add, u64sub, U64] at hcond
          omega
        · rename_i hcond
          simp only [u64add, u64sub, U64] at hcond
          rcases List.mem_cons.mp hc with hc1 | hc1
          · subst hc1
            simp only [callWithinCaps, u64add, u64sub, U64]
            omega
          · refine ih (u64add cur (k.defaultMaxBlkReqPerPeer - 1)) ?_ ?_ c hc1
            · simp only [u64add, U64]; omega
            · simp only [u64add, U64]; omega
      · exact ih cur h1 h2 c hc
    · exact ih cur h1 h2 c hc

theorem setShard_bounded (rcs : reportedChainState) (shardID : Nat) (st : ChainState)
    (h : shardTargetsU64 rcs) (hst : st.Height < U64) : shardTargetsU64 (setShard rcs shardID st) := by
  intro x
  unfold setShard
  by_cases hx : x = shardID
  · subst hx; simpa using hst
  · simpa [Function.update, hx] using h x

theorem scanSyncingShard_bounded (bc : BlockChain) (ps : peerState) (rcs : reportedChainState)
    (shardID : Nat) (hps : ∀ x ∈ ps.Shard, x.2.Height < U64) (h : shardTargetsU64 rcs) :
    shardTargetsU64 (scanSyncingShard bc ps rcs shardID) := by
  unfold scanSyncingShard
  split
  · rename_i st hl
    have hst : st.Height < U64 := hps _ (lookup_some_mem _ _ _ hl)
    split
    · split
      · exact setShard_bounded _ _ _ h hst
      · split
        · exact setShard_bounded _ _ _ h hst
        · exact h
    · exact h
  · exact h

theorem scanBeaconViewShard_bounded (bc : BlockChain) (ps : peerState)
    (rcs : reportedChainState) (shardID : Nat) (hps : ∀ x ∈ ps.Shard, x.2.Height < U64)
    (h : shardTargetsU64 rcs) : shardTargetsU64 (scanBeaconViewShard bc ps rcs shardID) := by
  unfold scanBeaconViewShard
  split
  · rename_i st hl
    have hst : st.Height < U64 := hps _ (lookup_some_mem _ _ _ hl)
    split
    · split
      · exact setShard_bounded _ _ _ h hst
      · split
        · exact setShard_bounded _ _ _ h hst
        · exact h
    · exact h
  · exact h

theorem foldl_bounded (f : reportedChainState → Nat → reportedChainState)
    (hf : ∀ r x, shardTargetsU64 r → shardTargetsU64 (f r x)) (l : List Nat)
    (rcs : reportedChainState) (h : shardTargetsU64 rcs) : shardTargetsU64 (l.foldl f rcs) := by
  induction l generalizing rcs with
  | nil => exact h
  | cons a t ih => exact ih _ (hf rcs a h)

theorem adoptBeacon_shards (bc : BlockChain) (b : ChainState) (rcs : reportedChainState) :
    (adoptBeacon bc b rcs).ClosestShardsState = rcs.ClosestShardsState := by
  unfold adoptBeacon
  simp only []
  split_ifs <;> rfl

theorem recordPoolState_bounded (k : Consts) (bc : BlockChain) (u : UserRoles)
    (peerID : PeerID) (ps : peerState) (rcs r : reportedChainState)
    (hps : ∀ x ∈ ps.Shard, x.2.Height < U64) (hb : shardTargetsU64 rcs)
    (h : recordPoolState k bc u peerID ps rcs = some r) : shardTargetsU64 r := by
  have hview : ∀ r1, shardTargetsU64 r1 →
      shardTargetsU64 ((List.range k.MAX_SHARD_NUMBER).foldl (scanBeaconViewShard bc ps) r1) :=
    fun r1 h1 => foldl_bounded _ (fun r0 x h0 => scanBeaconViewShard_bounded bc ps r0 x hps h0) _ r1 h1
  have hs2b : ∀ pool : List (Nat × List Nat), shardTargetsU64 (pool.foldl (fun r e =>
      { r with ShardToBeaconBlks := recordBlks r.ShardToBeaconBlks e.1 peerID e.2 }) rcs) := by
    intro pool x
    rw [(foldl_recordS2B_beacon peerID pool rcs).2]
    exact hb x
  have hcross : ∀ pool : List (Nat × List Nat), shardTargetsU64 (pool.foldl (fun r e =>
      { r with CrossShardBlks := recordBlks r.CrossShardBlks e.1 peerID e.2 }) rcs) := by
    intro pool x
    rw [(foldl_recordCross_beacon peerID pool rcs).2]
    exact hb x
  unfold recordPoolState at h
  split at h
  · split at h
    · simp only [Option.some.injEq] at h
      subst h
      apply hview
      split
      · exact hs2b _
      · exact hb
    · simp only [Option.some.injEq] at h; subst h; exact hb
  · split at h
    · simp only [Option.some.injEq] at h
      subst h
      apply hview
      split
      · exact hs2b _
      · exact hb
    · simp only [Option.some.injEq] at h; subst h; exact hb
  · split at h
    · split at h
      · simp only [Option.some.injEq] at h
        subst h
        exact hcross _
      · simp at h
      · simp only [Option.some.injEq] at h; subst h; exact hb
    · simp only [Option.some.injEq] at h; subst h; exact hb
  · simp only [Option.some.injEq] at h; subst h; exact hb

theorem scanPeers_bounded (k : Consts) (bc : BlockChain) (u : UserRoles) (shards : List Nat)
    (peers : List (PeerID × peerState)) (rcs r : reportedChainState)
    (hps : ∀ e ∈ peers, reportsU64 e.2) (hb : shardTargetsU64 rcs)
    (h : scanPeers k bc u shards rcs peers = some r) : shardTargetsU64 r := by
  induction peers generalizing rcs with
  | nil =>
    simp only [scanPeers, Option.some.injEq] at h
    subst h
    exact hb
  | cons e es ih =>
    unfold scanPeers at h
    cases hs : scanPeer k bc u shards rcs e with
    | none => rw [hs] at h; simp at h
    | some r1 =>
      rw [hs] at h
      simp only [] at h
      have he := (hps e (List.mem_cons_self _ _)).2
      have h1 : shardTargetsU64 (shards.foldl (scanSyncingShard bc e.2) rcs) :=
        foldl_bounded _ (fun r0 x h0 => scanSyncingShard_bounded bc e.2 r0 x he h0) _ rcs hb
      have hr1 : shardTargetsU64 r1 := by
        unfold scanPeer at hs
        simp only [] at hs
        cases hbe : e.2.Beacon with
        | none => rw [hbe] at hs; simp at hs
        | some b =>
          rw [hbe] at hs
          simp only [] at hs
          split at hs
          · refine recordPoolState_bounded k bc u e.1 e.2 _ r1 he ?_ hs
            intro x
            rw [adoptBeacon_shards]
            exact h1 x
          · simp only [Option.some.injEq] at hs
            subst hs
            exact h1
      exact ih r1 (fun x hx => hps x (List.mem_cons_of_mem _ hx)) hr1 h

theorem beaconHeights_mem (peers : List (PeerID × peerState)) (h : Nat)
    (hm : h ∈ beaconHeights peers) : ∃ e ∈ peers, ∃ b, e.2.Beacon = some b ∧ b.Height = h := by
  unfold beaconHeights at hm
  simp only [List.mem_filterMap, Option.map_eq_some'] at hm
  obtain ⟨e, he, b, hb, hh⟩ := hm
  exact ⟨e, he, b, hb, hh⟩

theorem peerScan_beacon_bounds (k : Consts) (bc : BlockChain) (s : synker)
    (rcs : reportedChainState) (h : peerScan k bc s = some rcs) :
    bc.BeaconHeight ≤ rcs.ClosestBeaconState.Height ∧
    (qualifyingBeaconHeights bc.BeaconHeight s.States.PeersState = [] →
      rcs.ClosestBeaconState.Height = bc.BeaconHeight) ∧
    (qualifyingBeaconHeights bc.BeaconHeight s.States.PeersState ≠ [] →
      rcs.ClosestBeaconState.Height ∈ qualifyingBeaconHeights bc.BeaconHeight s.States.PeersState) ∧
    (∀ x ∈ qualifyingBeaconHeights bc.BeaconHeight s.States.PeersState,
      rcs.ClosestBeaconState.Height ≤ x) := by
  unfold peerScan at h
  simp only [] at h
  rw [(cycleStart_peers k bc s).1] at h
  have hH := scanPeers_beacon_height k bc _ _ _ _ rcs h
  have hinit : (initRCS bc (cycleStart k bc s).Status.Shards).ClosestBeaconState.Height
      = bc.BeaconHeight := rfl
  rw [hinit] at hH
  obtain ⟨h1, h2, _⟩ := foldl_stepBeaconHeight bc.BeaconHeight
    (beaconHeights s.States.PeersState) bc.BeaconHeight (le_refl _)
  unfold qualifyingBeaconHeights
  rw [hH]
  by_cases hq : (beaconHeights s.States.PeersState).filter
      (fun h => decide (bc.BeaconHeight < h)) = []
  · have := h1 rfl hq
    rw [this, hq]
    exact ⟨le_refl _, fun _ => rfl, fun hne => absurd rfl hne, fun x hx => by simp at hx⟩
  · obtain ⟨hm, hle⟩ := h2 rfl hq
    have hgt : bc.BeaconHeight < List.foldl (stepBeaconHeight bc.BeaconHeight) bc.BeaconHeight
        (beaconHeights s.States.PeersState) := by simpa using (List.mem_filter.mp hm).2
    exact ⟨by omega, fun hnil => absurd hnil hq, fun _ => hm, hle⟩

theorem peerScan_shards_bounded (k : Consts) (bc : BlockChain) (s : synker)
    (rcs : reportedChainState) (h : peerScan k bc s = some rcs)
    (hps : ∀ e ∈ s.States.PeersState, reportsU64 e.2)
    (hS : ∀ shardID ∈ (cycleStart k bc s).Status.Shards, bc.ShardHeight shardID < U64) :
    shardTargetsU64 rcs := by
  unfold peerScan at h
  simp only [] at h
  rw [(cycleStart_peers k bc s).1] at h
  refine scanPeers_bounded k bc _ _ _ _ rcs hps ?_ h
  intro x
  unfold initRCS
  simp only []
  split
  · rename_i hx
    exact hS x hx
  · simp [ChainState.zero, ChainState.ofHeight, U64]

theorem callWithinCaps_of_other (k : Consts) (bc : BlockChain) (c : Call)
    (h1 : c.isBeacon = false) (h2 : c.isShard = false) : callWithinCaps k bc c := by
  cases c <;> simp_all [Call.isBeacon, Call.isShard, callWithinCaps]

theorem clampBeacon_shards (k : Consts) (bc : BlockChain) (rcs : reportedChainState) :
    (clampBeacon k bc rcs).ClosestShardsState = rcs.ClosestShardsState := by
  unfold clampBeacon
  split <;> rfl

theorem clampBeacon_le (k : Consts) (bc : BlockChain) (rcs : reportedChainState)
    (hB : bc.BeaconHeight + k.defaultMaxBlkReqPerTime < U64)
    (h2 : rcs.ClosestBeaconState.Height < U64) :
    (clampBeacon k bc rcs).ClosestBeaconState.Height
      ≤ bc.BeaconHeight + k.defaultMaxBlkReqPerTime := by
  unfold clampBeacon
  unfold U64 at hB h2
  split
  · simp only [u64add, U64]
    omega
  · rename_i hc
    simp only [u64sub, U64] at hc
    omega

theorem clampShard_le (k : Consts) (bc : BlockChain) (rcs : reportedChainState) (shardID : Nat)
    (hB : bc.ShardHeight shardID + k.defaultMaxBlkReqPerTime < U64)
    (hb : shardTargetsU64 rcs) :
    shardTargetsU64 (clampShard k bc rcs shardID) ∧
    ((clampShard k bc rcs shardID).ClosestShardsState shardID).Height
      ≤ bc.ShardHeight shardID + k.defaultMaxBlkReqPerTime := by
  have ht := hb shardID
  unfold clampShard
  unfold U64 at hB ht
  split
  · constructor
    · apply setShard_bounded _ _ _ hb
      simp only [ChainState.ofHeight, u64add, U64]
      omega
    · simp only [setShard, Function.update_same, ChainState.ofHeight, u64add, U64]
      omega
  · rename_i hc
    simp only [u64sub, U64] at hc
    exact ⟨hb, by omega⟩

theorem shardRequests_caps (k : Consts) (bc : BlockChain) (peers : List (PeerID × peerState))
    (shards : List Nat) (rcs : reportedChainState)
    (hP : 1 ≤ k.defaultMaxBlkReqPerPeer)
    (hS : ∀ shardID ∈ shards,
      bc.ShardHeight shardID + k.defaultMaxBlkReqPerTime + k.defaultMaxBlkReqPerPeer < U64)
    (hb : shardTargetsU64 rcs) :
    ∀ c ∈ (shardRequests k bc peers rcs shards).2, callWithinCaps k bc c := by
  induction shards generalizing rcs with
  | nil => intro c hc; simp [shardRequests] at hc
  | cons a t ih =>
    intro c hc
    unfold shardRequests at hc
    simp only [] at hc
    have ha := hS a (List.mem_cons_self _ _)
    have hcl := clampShard_le k bc rcs a (by omega) hb
    rcases List.mem_append.mp hc with h1 | h1
    · refine carveShard_caps k bc a _ peers _ hP ha hcl.2 ?_ ?_ c h1
      · unfold U64 at ha; simp only [u64add, U64]; omega
      · unfold U64 at ha; simp only [u64add, U64]; omega
    · exact ih (clampShard k bc rcs a) (fun x hx => hS x (List.mem_cons_of_mem _ hx)) hcl.1 c h1

/-- C6 (as amended): let `P = defaultMaxBlkReqPerPeer >= 1` and
`T = defaultMaxBlkReqPerTime`, let the peers report `uint64` heights, and let
`L + T + P` not overflow a `uint64`, for the local beacon height `L` and for the
local height `L` of every shard of the syncing set. Then `UpdateState` returns
(on a table without nil beacon state or nil cross-shard pool entry), and every
height range `(from, to)` it passes to `SyncBlkBeacon`, or to `SyncBlkShard` for
a shard, has `from >= L + 1`, `to <= L + T` and at most `P` heights, whatever
heights the peers report. -/
theorem UpdateState_ranges_within_caps (k : Consts) (bc : BlockChain) (s : synker)
    (hP : 1 ≤ k.defaultMaxBlkReqPerPeer)
    (hB : bc.BeaconHeight + k.defaultMaxBlkReqPerTime + k.defaultMaxBlkReqPerPeer < U64)
    (hS : ∀ shardID ∈ (cycleStart k bc s).Status.Shards,
      bc.ShardHeight shardID + k.defaultMaxBlkReqPerTime + k.defaultMaxBlkReqPerPeer < U64)
    (hps : ∀ e ∈ s.States.PeersState, reportsU64 e.2) :
    ((∀ e ∈ s.States.PeersState, e.2.Beacon ≠ none) →
      (∀ e ∈ s.States.PeersState, crossShardPoolNonNil e.2) →
        ∃ r, UpdateState k bc s = some r) ∧
    ∀ r, UpdateState k bc s = some r → ∀ c ∈ r.calls, callWithinCaps k bc c := by
  refine ⟨UpdateState_returns k bc s, ?_⟩
  intro r hr c hc
  obtain ⟨rcs0, hscan, hcalls, _⟩ := UpdateState_unfold k bc s r hr
  rw [hcalls] at hc
  obtain ⟨_, hnil, hmem, _⟩ := peerScan_beacon_bounds k bc s rcs0 hscan
  have hlt : rcs0.ClosestBeaconState.Height < U64 := by
    by_cases hq : qualifyingBeaconHeights bc.BeaconHeight s.States.PeersState = []
    · rw [hnil hq]; omega
    · have hm := hmem hq
      unfold qualifyingBeaconHeights at hm
      obtain ⟨e, he, b, hb, hh⟩ := beaconHeights_mem _ _ (List.mem_filter.mp hm).1
      rw [← hh]
      exact (hps e he).1 b hb
  have hsb : shardTargetsU64 (clampBeacon k bc rcs0) := by
    intro x
    rw [clampBeacon_shards]
    exact peerScan_shards_bounded k bc s rcs0 hscan hps (fun x hx => by have := hS x hx; omega) x
  rcases List.mem_append.mp hc with h1 | h1
  · rcases List.mem_append.mp h1 with h2 | h2
    · refine carveBeacon_caps k bc _ _ _ hP hB (clampBeacon_le k bc rcs0 (by omega) hlt)
        ?_ ?_ c h2
      · unfold U64 at hB; simp only [u64add, U64]; omega
      · unfold U64 at hB; simp only [u64add, U64]; omega
    · obtain ⟨hk1, hk2⟩ := poolRequests_kind _ _ _ _ _ _ h2
      exact callWithinCaps_of_other k bc c hk1 hk2
  · exact shardRequests_caps k bc _ _ _ hP hS hsb c h1

/-- Witness of C6: a shard proposer of shard 0 at beacon height 100 and shard
height 10, with two peers far ahead on both chains. -/
theorem UpdateState_ranges_within_caps_witness :
    ∃ r, UpdateState ⟨600, 1200, 8⟩
        (mkChain NodeMode.NODEMODE_AUTO [] Role.SHARD_ROLE 0 Role.PROPOSER_ROLE 100 10 5)
        (mkSynker [0] [mkPeer 1 5000 [(0, 3000)], mkPeer 2 4000 [(0, 2500)]]) = some r ∧
      r.calls ≠ [] ∧
      ∀ c ∈ r.calls, callWithinCaps ⟨600, 1200, 8⟩
        (mkChain NodeMode.NODEMODE_AUTO [] Role.SHARD_ROLE 0 Role.PROPOSER_ROLE 100 10 5) c := by
  have h := UpdateState_ranges_within_caps ⟨600, 1200, 8⟩
    (mkChain NodeMode.NODEMODE_AUTO [] Role.SHARD_ROLE 0 Role.PROPOSER_ROLE 100 10 5)
    (mkSynker [0] [mkPeer 1 5000 [(0, 3000)], mkPeer 2 4000 [(0, 2500)]])
    (by decide) (by decide) (by decide)
    (by
      intro e he
      simp only [mkSynker, List.mem_cons, List.mem_singleton, List.not_mem_nil, or_false] at he
      rcases he with rfl | rfl <;>
        simp [mkPeer, reportsU64, ChainState.ofHeight, U64])
  obtain ⟨r, hr⟩ := h.1 (by simp [mkSynker, mkPeer]) (by simp [mkSynker, mkPeer, crossShardPoolNonNil])
  refine ⟨r, hr, ?_, h.2 r hr⟩
  have hcalls : (UpdateState ⟨600, 1200, 8⟩
        (mkChain NodeMode.NODEMODE_AUTO [] Role.SHARD_ROLE 0 Role.PROPOSER_ROLE 100 10 5)
        (mkSynker [0] [mkPeer 1 5000 [(0, 3000)], mkPeer 2 4000 [(0, 2500)]])).map
      (fun r0 => r0.calls.length) = some 4 := by decide
  rw [hr] at hcalls
  simp only [Option.map_some', Option.some.injEq] at hcalls
  intro hnil
  rw [hnil] at hcalls
  simp at hcalls

/-- Counterexample to C6 as stated: with `defaultMaxBlkReqPerPeer = 3`,
`defaultMaxBlkReqPerTime = 4` and local beacon height `L = 2 ^ 64 - 5` the sum
`L + defaultMaxBlkReqPerTime` does not overflow, three peers report beacon height
`2 ^ 64 - 1`, and the third range passed to `SyncBlkBeacon` is `(0, 2)`: the
cursor `currentBcnReqHeight + defaultMaxBlkReqPerPeer - 1` has wrapped, so the
range starts below `L + 1`. -/
theorem UpdateState_range_below_local_after_wrap :
    (mkChain NodeMode.NODEMODE_AUTO [] Role.other 0 Role.other 18446744073709551611 10 5).BeaconHeight
        + (⟨3, 4, 8⟩ : Consts).defaultMaxBlkReqPerTime < U64 ∧
    (UpdateState ⟨3, 4, 8⟩
        (mkChain NodeMode.NODEMODE_AUTO [] Role.other 0 Role.other 18446744073709551611 10 5)
        (mkSynker [] [mkPeer 1 18446744073709551615 [], mkPeer 2 18446744073709551615 [],
          mkPeer 3 18446744073709551615 []])).map (fun r => r.calls)
      = some [Call.SyncBlkBeacon false false [] 18446744073709551612 18446744073709551614 1,
          Call.SyncBlkBeacon false false [] 18446744073709551614 0 2,
          Call.SyncBlkBeacon false false [] 0 2 3] ∧
    ¬ callWithinCaps ⟨3, 4, 8⟩
        (mkChain NodeMode.NODEMODE_AUTO [] Role.other 0 Role.other 18446744073709551611 10 5)
        (Call.SyncBlkBeacon false false [] 0 2 3) := by
  refine ⟨by decide, by decide, ?_⟩
  simp [callWithinCaps, mkChain]

theorem filter_isBeacon_nil (l : List Call) (h : ∀ c ∈ l, c.isBeacon = false) :
    l.filter Call.isBeacon = [] := by
  induction l with
  | nil => rfl
  | cons a t ih =>
    have ha := h a (List.mem_cons_self _ _)
    simp [List.filter_cons, ha, ih (fun c hc => h c (List.mem_cons_of_mem _ hc))]

/-- C3 (as amended): with local beacon height 100, exactly three peers that
report beacon heights 105, 103 and 110 in any visiting order,
`3 <= defaultMaxBlkReqPerPeer <= 2 ^ 64 - 101` and `defaultMaxBlkReqPerTime >= 3`,
`UpdateState` returns (when no peer carries a nil cross-shard pool entry), the
peer scan resolves the beacon target to 103, the target is still 103 at the end
of the cycle, and the `SyncBlkBeacon` calls of the cycle are exactly one,
`SyncBlkBeacon(false, false, nil, 101, 103, p)`, to the first peer visited. -/
theorem UpdateState_three_peers_one_beacon_request (k : Consts) (bc : BlockChain) (s : synker)
    (hL : bc.BeaconHeight = 100)
    (hperm : (s.States.PeersState.map (fun e => e.2.Beacon.map (fun b => b.Height))).Perm
      [some 105, some 103, some 110])
    (hP : 3 ≤ k.defaultMaxBlkReqPerPeer)
    (hP2 : k.defaultMaxBlkReqPerPeer + 101 ≤ U64)
    (hT : 3 ≤ k.defaultMaxBlkReqPerTime) :
    ((∀ e ∈ s.States.PeersState, crossShardPoolNonNil e.2) →
        ∃ r, UpdateState k bc s = some r) ∧
    ∀ r, UpdateState k bc s = some r →
      (∃ rcs, peerScan k bc s = some rcs ∧ rcs.ClosestBeaconState.Height = 103) ∧
      r.RCS.ClosestBeaconState.Height = 103 ∧
      ∃ e ∈ s.States.PeersState,
        r.calls.filter Call.isBeacon = [Call.SyncBlkBeacon false false [] 101 103 e.1] := by
  have hbeacon : ∀ e ∈ s.States.PeersState, e.2.Beacon ≠ none := by
    intro e he hnone
    have hm : e.2.Beacon.map (fun b => b.Height)
        ∈ s.States.PeersState.map (fun e => e.2.Beacon.map (fun b => b.Height)) :=
      List.mem_map_of_mem _ he
    have := hperm.mem_iff.mp hm
    rw [hnone] at this
    simp at this
  have hheights : (beaconHeights s.States.PeersState).Perm [105, 103, 110] := by
    have := hperm.filterMap id
    simpa [beaconHeights, List.filterMap_map] using this
  have hq : ∀ x, x ∈ qualifyingBeaconHeights 100 s.States.PeersState ↔
      x = 105 ∨ x = 103 ∨ x = 110 := by
    intro x
    unfold qualifyingBeaconHeights
    rw [List.mem_filter, hheights.mem_iff]
    simp only [List.mem_cons, List.mem_singleton, List.not_mem_nil, or_false, decide_eq_true_eq]
    omega
  refine ⟨UpdateState_returns k bc s hbeacon, ?_⟩
  intro r hr
  obtain ⟨rcs0, hscan, hcalls, hrcs⟩ := UpdateState_unfold k bc s r hr
  obtain ⟨_, _, hmem, hle⟩ := peerScan_beacon_bounds k bc s rcs0 hscan
  rw [hL] at hmem hle
  have h103 : (103 : Nat) ∈ qualifyingBeaconHeights 100 s.States.PeersState :=
    (hq 103).mpr (Or.inr (Or.inl rfl))
  have hH : rcs0.ClosestBeaconState.Height = 103 := by
    have h1 := (hq _).mp (hmem (List.ne_nil_of_mem h103))
    have h2 := hle 103 h103
    omega
  have hclamp : clampBeacon k bc rcs0 = rcs0 := by
    unfold clampBeacon
    rw [hH, hL]
    have : ¬ u64sub 103 100 > k.defaultMaxBlkReqPerTime := by
      simp only [u64sub, U64]; omega
    rw [if_neg this]
  have hlen : s.States.PeersState.length = 3 := by
    have := hperm.length_eq
    simpa using this
  obtain ⟨e1, rest, hpeers⟩ : ∃ e1 rest, s.States.PeersState = e1 :: rest := by
    cases hps : s.States.PeersState with
    | nil => rw [hps] at hlen; simp at hlen
    | cons a t => exact ⟨a, t, rfl⟩
  have hcarve : carveBeacon k 103 (u64add 100 1) s.States.PeersState
      = [Call.SyncBlkBeacon false false [] 101 103 e1.1] := by
    rw [hpeers]
    have h101 : u64add 100 1 = 101 := by decide
    rw [h101]
    unfold carveBeacon
    have : u64sub (u64add 101 k.defaultMaxBlkReqPerPeer) 1 ≥ 103 := by
      unfold U64 at hP2
      simp only [u64add, u64sub, U64]
      omega
    rw [if_pos this]
  refine ⟨⟨rcs0, hscan, hH⟩, ?_, e1, by rw [hpeers]; exact List.mem_cons_self _ _, ?_⟩
  · rw [hrcs, (shardRequests_beacon k bc _ _ _).1, hclamp, hH]
  · rw [hcalls, hclamp, hH, hL, hcarve, List.filter_append, List.filter_append,
      filter_isBeacon_nil _ (fun c hc => (poolRequests_kind _ _ _ _ _ _ hc).1),
      filter_isBeacon_nil _ (shardRequests_beacon k bc _ _ _).2]
    rfl

/-- Witness of C3: the scenario with the peers visited in the order 105, 103,
110 and the constants 600 and 1200. -/
theorem UpdateState_three_peers_one_beacon_request_witness :
    ∃ r, UpdateState ⟨600, 1200, 8⟩
        (mkChain NodeMode.NODEMODE_AUTO [] Role.other 0 Role.other 100 10 5)
        (mkSynker [] [mkPeer 1 105 [], mkPeer 2 103 [], mkPeer 3 110 []]) = some r ∧
      r.RCS.ClosestBeaconState.Height = 103 ∧
      r.calls.filter Call.isBeacon = [Call.SyncBlkBeacon false false [] 101 103 1] := by
  have h := UpdateState_three_peers_one_beacon_request ⟨600, 1200, 8⟩
    (mkChain NodeMode.NODEMODE_AUTO [] Role.other 0 Role.other 100 10 5)
    (mkSynker [] [mkPeer 1 105 [], mkPeer 2 103 [], mkPeer 3 110 []])
    rfl (List.Perm.refl _) (by decide) (by decide) (by decide)
  obtain ⟨r, hr⟩ := h.1 (by simp [mkSynker, mkPeer, crossShardPoolNonNil])
  obtain ⟨_, h2, e, _, h3⟩ := h.2 r hr
  refine ⟨r, hr, h2, ?_⟩
  have hcalls : (UpdateState ⟨600, 1200, 8⟩
        (mkChain NodeMode.NODEMODE_AUTO [] Role.other 0 Role.other 100 10 5)
        (mkSynker [] [mkPeer 1 105 [], mkPeer 2 103 [], mkPeer 3 110 []])).map
      (fun r0 => r0.calls.filter Call.isBeacon)
      = some [Call.SyncBlkBeacon false false [] 101 103 1] := by decide
  rw [hr] at hcalls
  simpa using hcalls

/-- Counterexample to C3 as stated: with `defaultMaxBlkReqPerPeer = 2 ^ 64 - 1`
(which is `>= 3`) and `defaultMaxBlkReqPerTime = 3` the sum
`currentBcnReqHeight + defaultMaxBlkReqPerPeer - 1` wraps to 99, the test against
the target 103 fails, and the cycle makes three `SyncBlkBeacon` calls, none of
them for the range 101 to 103. -/
theorem UpdateState_three_peers_wrapped_span :
    (UpdateState ⟨18446744073709551615, 3, 8⟩
        (mkChain NodeMode.NODEMODE_AUTO [] Role.other 0 Role.other 100 10 5)
        (mkSynker [] [mkPeer 1 105 [], mkPeer 2 103 [], mkPeer 3 110 []])).map
      (fun r => (r.RCS.ClosestBeaconState.Height, r.calls.filter Call.isBeacon))
      = some (103, [Call.SyncBlkBeacon false false [] 101 99 1,
          Call.SyncBlkBeacon false false [] 99 97 2,
          Call.SyncBlkBeacon false false [] 97 95 3]) := by
  decide

/-! ## Theorems: what the peer scan never lowers -/

theorem scanSyncingShard_atLeastLocal (bc : BlockChain) (ps : peerState) (shards : List Nat)
    (rcs : reportedChainState) (shardID : Nat) (h : shardTargetsAtLeastLocal bc shards rcs) :
    shardTargetsAtLeastLocal bc shards (scanSyncingShard bc ps rcs shardID) := by
  have hset : ∀ st : ChainState, st.Height > bc.ShardHeight shardID →
      shardTargetsAtLeastLocal bc shards (setShard rcs shardID st) := by
    intro st hst x hx
    unfold setShard
    by_cases hxs : x = shardID
    · subst hxs
      simp only [Function.update_same]
      omega
    · simpa [Function.update, hxs] using h x hx
  unfold scanSyncingShard
  split
  · split
    · rename_i hcond
      split
      · exact hset _ hcond.2
      · split
        · exact hset _ hcond.2
        · exact h
    · exact h
  · exact h

theorem recordPoolState_shards_outside_branch (k : Consts) (bc : BlockChain) (u : UserRoles)
    (peerID : PeerID) (ps : peerState) (rcs r : reportedChainState)
    (hbr : ¬ beaconCommitteeBranch bc u)
    (h : recordPoolState k bc u peerID ps rcs = some r) :
    r.ClosestShardsState = rcs.ClosestShardsState := by
  unfold beaconCommitteeBranch at hbr
  unfold recordPoolState at h
  split at h
  · rename_i hrole
    split at h
    · rename_i hmode
      exact absurd ⟨Or.inl hrole, hmode⟩ hbr
    · simp only [Option.some.injEq] at h; subst h; rfl
  · rename_i hrole
    split at h
    · rename_i hmode
      exact absurd ⟨Or.inr hrole, hmode⟩ hbr
    · simp only [Option.some.injEq] at h; subst h; rfl
  · split at h
    · split at h
      · simp only [Option.some.injEq] at h
        subst h
        exact (foldl_recordCross_beacon peerID _ rcs).2
      · simp at h
      · simp only [Option.some.injEq] at h; subst h; rfl
    · simp only [Option.some.injEq] at h; subst h; rfl
  · simp only [Option.some.injEq] at h; subst h; rfl

theorem scanPeers_atLeastLocal (k : Consts) (bc : BlockChain) (u : UserRoles)
    (shards : List Nat) (peers : List (PeerID × peerState)) (rcs r : reportedChainState)
    (hbr : ¬ beaconCommitteeBranch bc u)
    (hinv : shardTargetsAtLeastLocal bc shards rcs)
    (h : scanPeers k bc u shards rcs peers = some r) :
    shardTargetsAtLeastLocal bc shards r := by
  induction peers generalizing rcs with
  | nil =>
    simp only [scanPeers, Option.some.injEq] at h
    subst h
    exact hinv
  | cons e es ih =>
    unfold scanPeers at h
    cases hs : scanPeer k bc u shards rcs e with
    | none => rw [hs] at h; simp at h
    | some r1 =>
      rw [hs] at h
      simp only [] at h
      have h1 : ∀ (l : List Nat) (r0 : reportedChainState),
          shardTargetsAtLeastLocal bc shards r0 →
          shardTargetsAtLeastLocal bc shards (l.foldl (scanSyncingShard bc e.2) r0) := by
        intro l
        induction l with
        | nil => intro r0 h0; exact h0
        | cons a t iht =>
          intro r0 h0
          exact iht _ (scanSyncingShard_atLeastLocal bc e.2 shards r0 a h0)
      have hr1 : shardTargetsAtLeastLocal bc shards r1 := by
        unfold scanPeer at hs
        simp only [] at hs
        cases hbe : e.2.Beacon with
        | none => rw [hbe] at hs; simp at hs
        | some b =>
          rw [hbe] at hs
          simp only [] at hs
          split at hs
          · intro x hx
            rw [recordPoolState_shards_outside_branch k bc u e.1 e.2 _ r1 hbr hs,
              adoptBeacon_shards]
            exact h1 shards rcs hinv x hx
          · simp only [Option.some.injEq] at hs
            subst hs
            exact h1 shards rcs hinv
      exact ih r1 hr1 h

/-- The extent of the lowering done by lines 249-261: the beacon target after the peer scan is never below the local beacon height,
and outside the branch of a beacon proposer or validator in mode AUTO or BEACON
no target of a shard of the syncing set is below the local height of that
shard. -/
theorem peerScan_targets_not_lowered_outside_beacon_branch (k : Consts) (bc : BlockChain)
    (s : synker) (rcs : reportedChainState) (h : peerScan k bc s = some rcs) :
    bc.BeaconHeight ≤ rcs.ClosestBeaconState.Height ∧
    (¬ beaconCommitteeBranch bc (userRoles bc) →
      shardTargetsAtLeastLocal bc (cycleStart k bc s).Status.Shards rcs) := by
  refine ⟨(peerScan_beacon_bounds k bc s rcs h).1, ?_⟩
  intro hbr
  unfold peerScan at h
  simp only [] at h
  refine scanPeers_atLeastLocal k bc _ _ _ _ rcs hbr ?_ h
  intro x hx
  simp [initRCS, hx, ChainState.ofHeight]

/-! ## Theorems: the readiness flags -/

/-- C14: `IsLatest` reads the cached flags: `IsLatest(false, _)` is the beacon
flag, `IsLatest(true, s)` is the flag recorded for shard `s` and false when none
was recorded. It returns a value only (the state is not an output). After
`SetChainState(shard, s, r)` the matching `IsLatest` call returns `r`, the value
`IsLatest` returns for every other chain is unchanged, and the syncing set and
`States` are unchanged. -/
theorem IsLatest_reads_cached_flags (s : synker) (shardID : Nat) :
    IsLatest s false shardID = s.Status.IsLatest.Beacon ∧
    IsLatest s true shardID = (s.Status.IsLatest.Shards shardID).getD false ∧
    (s.Status.IsLatest.Shards shardID = none → IsLatest s true shardID = false) ∧
    (∀ r, IsLatest (SetChainState s true shardID r) true shardID = r) ∧
    (∀ r other, IsLatest (SetChainState s false shardID r) false other = r) ∧
    (∀ r other, other ≠ shardID →
      IsLatest (SetChainState s true shardID r) true other = IsLatest s true other) ∧
    (∀ r other, IsLatest (SetChainState s true shardID r) false other = IsLatest s false other) ∧
    (∀ r other, IsLatest (SetChainState s false shardID r) true other = IsLatest s true other) ∧
    (∀ shard r, (SetChainState s shard shardID r).States = s.States ∧
      (SetChainState s shard shardID r).Status.Shards = s.Status.Shards) := by
  refine ⟨rfl, ?_, ?_, ?_, ?_, ?_, ?_, ?_, ?_⟩
  · unfold IsLatest
    simp only [if_true]
    cases s.Status.IsLatest.Shards shardID <;> rfl
  · intro h
    unfold IsLatest
    simp [h]
  · intro r
    simp [IsLatest, SetChainState]
  · intro r other
    simp [IsLatest, SetChainState]
  · intro r other hne
    simp [IsLatest, SetChainState, Function.update, hne]
  · intro r other
    simp [IsLatest, SetChainState]
  · intro r other
    simp [IsLatest, SetChainState]
  · intro shard r
    exact SetChainState_frame s shard shardID r

theorem UpdateState_flags (k : Consts) (bc : BlockChain) (s : synker) (r : CycleResult)
    (h : UpdateState k bc s = some r) :
    ∃ rcs0, peerScan k bc s = some rcs0 ∧
      r.state.Status.IsLatest
        = (setReadiness bc (userRoles bc) rcs0 (cycleStart k bc s)).Status.IsLatest := by
  unfold UpdateState at h
  simp only [] at h
  split at h
  · simp at h
  · rename_i rcs0 hscan
    simp only [Option.some.injEq] at h
    subst h
    exact ⟨rcs0, hscan, rfl⟩

theorem setReadiness_beacon_flag (bc : BlockChain) (u : UserRoles) (rcs : reportedChainState)
    (s : synker) (hne : s.States.PeersState ≠ []) :
    (u.userRole ≠ Role.SHARD_ROLE →
      ((setReadiness bc u rcs s).Status.IsLatest.Beacon = true ↔
        rcs.ClosestBeaconState.Height = bc.BeaconHeight)) ∧
    (u.userRole = Role.SHARD_ROLE →
      ((setReadiness bc u rcs s).Status.IsLatest.Beacon = true ↔
        u64sub rcs.ClosestBeaconState.Height 1 ≤ bc.BeaconHeight ∧
        (rcs.ClosestShardsState u.userShardID).Height = bc.ShardHeight u.userShardID ∧
        (rcs.ClosestShardsState u.userShardID).Height
          ≥ bc.GetBestHeightOfShard u.userShardID)) := by
  have hlen : s.States.PeersState.length > 0 := List.length_pos.mpr hne
  constructor
  · intro hrole
    unfold setReadiness
    simp only [hlen, if_true, hrole, ne_eq, not_false_eq_true, true_and, false_and, if_false]
    split <;> simp_all [SetChainState]
  · intro hrole
    unfold setReadiness
    simp only [hlen, if_true, hrole, ne_eq, not_true_eq_false, false_and, if_false, true_and]
    split
    · rename_i h1
      split
      · rename_i h2
        simp only [SetChainState, Bool.false_eq_true, if_false, if_true, true_iff]
        exact ⟨h1, h2.1, h2.2⟩
      · rename_i h2
        simp only [SetChainState, Bool.false_eq_true, if_false, if_true, false_iff, not_and]
        intro _ h3 h4
        exact h2 ⟨h3, h4⟩
    · rename_i h1
      simp only [SetChainState, Bool.false_eq_true, if_false, false_iff, not_and]
      intro h2
      exact absurd h2 h1

/-- C11 (as amended): on a non-empty peer table `UpdateState` returns (when no
peer carries a nil beacon state or a nil cross-shard pool entry) and, after the
readiness-flag step, for every beacon-level role other than SHARD the beacon
flag `IsLatest(false, 0)` is true exactly when no peer reported a beacon height
strictly greater than the local one. For role SHARD the flag is instead true
exactly when the beacon target is at most one block ahead
(`RCS.ClosestBeaconState.Height - 1 <= BeaconHeight` in `uint64`) and the target
of the user's shard equals the local height of that shard and is at least the
height the beacon chain records for it. -/
theorem UpdateState_beacon_flag_by_role (k : Consts) (bc : BlockChain) (s : synker)
    (hne : s.States.PeersState ≠ []) :
    ((∀ e ∈ s.States.PeersState, e.2.Beacon ≠ none) →
      (∀ e ∈ s.States.PeersState, crossShardPoolNonNil e.2) →
        ∃ r, UpdateState k bc s = some r) ∧
    ∀ r, UpdateState k bc s = some r →
      ((userRoles bc).userRole ≠ Role.SHARD_ROLE →
        (IsLatest r.state false 0 = true ↔
          qualifyingBeaconHeights bc.BeaconHeight s.States.PeersState = [])) ∧
      ((userRoles bc).userRole = Role.SHARD_ROLE →
        ∃ rcs, peerScan k bc s = some rcs ∧
          (IsLatest r.state false 0 = true ↔
            u64sub rcs.ClosestBeaconState.Height 1 ≤ bc.BeaconHeight ∧
            (rcs.ClosestShardsState (userRoles bc).userShardID).Height
              = bc.ShardHeight (userRoles bc).userShardID ∧
            (rcs.ClosestShardsState (userRoles bc).userShardID).Height
              ≥ bc.GetBestHeightOfShard (userRoles bc).userShardID)) := by
  refine ⟨UpdateState_returns k bc s, ?_⟩
  intro r hr
  obtain ⟨rcs0, hscan, hflags⟩ := UpdateState_flags k bc s r hr
  have hne2 : (cycleStart k bc s).States.PeersState ≠ [] := by
    rw [(cycleStart_peers k bc s).1]; exact hne
  have hset := setReadiness_beacon_flag bc (userRoles bc) rcs0 (cycleStart k bc s) hne2
  have hIs : IsLatest r.state false 0
      = (setReadiness bc (userRoles bc) rcs0 (cycleStart k bc s)).Status.IsLatest.Beacon := by
    unfold IsLatest
    simp only [Bool.false_eq_true, if_false]
    rw [hflags]
  obtain ⟨hge, hnil, hmem, _⟩ := peerScan_beacon_bounds k bc s rcs0 hscan
  constructor
  · intro hrole
    rw [hIs, (hset.1 hrole)]
    constructor
    · intro hH
      by_contra hq
      have hm := hmem hq
      unfold qualifyingBeaconHeights at hm
      have hgt : bc.BeaconHeight < rcs0.ClosestBeaconState.Height := by
        simpa using (List.mem_filter.mp hm).2
      omega
    · exact hnil
  · intro hrole
    refine ⟨rcs0, hscan, ?_⟩
    rw [hIs]
    exact hset.2 hrole

/-- Witness of C11: a node without shard role meets one peer ahead on the beacon
chain; the beacon flag is false after the cycle. -/
theorem UpdateState_beacon_flag_by_role_witness :
    ∃ r, UpdateState ⟨600, 1200, 8⟩
        (mkChain NodeMode.NODEMODE_AUTO [] Role.other 0 Role.other 100 10 5)
        (mkSynker [] [mkPeer 1 105 []]) = some r ∧
      IsLatest r.state false 0 = false := by
  have h := UpdateState_beacon_flag_by_role ⟨600, 1200, 8⟩
    (mkChain NodeMode.NODEMODE_AUTO [] Role.other 0 Role.other 100 10 5)
    (mkSynker [] [mkPeer 1 105 []]) (by simp [mkSynker])
  obtain ⟨r, hr⟩ := h.1 (by simp [mkSynker, mkPeer]) (by simp [mkSynker, mkPeer, crossShardPoolNonNil])
  refine ⟨r, hr, ?_⟩
  have h2 := ((h.2 r hr).1 (by decide)).not
  have hq : ¬ qualifyingBeaconHeights
      (mkChain NodeMode.NODEMODE_AUTO [] Role.other 0 Role.other 100 10 5).BeaconHeight
      (mkSynker [] [mkPeer 1 105 []]).States.PeersState = [] := by decide
  simpa using h2.mpr hq

/-- Counterexample to C11 as stated: a node with beacon-level role SHARD (shard 0,
local beacon height 100, shard 0 at its local height) meets one peer that
reports beacon height 101, strictly above the local one; after the cycle the
beacon flag `IsLatest(false, 0)` is true. -/
theorem UpdateState_shard_role_beacon_flag_with_higher_peer :
    qualifyingBeaconHeights 100 (mkSynker [0] [mkPeer 1 101 []]).States.PeersState = [101] ∧
    (UpdateState ⟨600, 1200, 8⟩
        (mkChain NodeMode.NODEMODE_AUTO [] Role.SHARD_ROLE 0 Role.other 100 10 5)
        (mkSynker [0] [mkPeer 1 101 []])).map (fun r => IsLatest r.state false 0)
      = some true := by
  constructor <;> decide

/-- C13 (the code at the failing input): a peer table in which the second of three
peers carries a nil `Beacon` makes `UpdateState` panic at
`peerState.Beacon.Height` (no result), although the first and third peer are
well formed; so does, for a shard proposer, a peer whose cross-shard pool entry
for the user's shard is a nil pointer. Without the malformed peer both cycles
return. -/
theorem UpdateState_panics_on_malformed_peer :
    UpdateState ⟨600, 1200, 8⟩
        (mkChain NodeMode.NODEMODE_AUTO [] Role.other 0 Role.other 100 10 5)
        (mkSynker [] [mkPeer 1 105 [],
          (2, { Shard := [], Beacon := none, ShardToBeaconPool := none,
                CrossShardPool := [], Peer := 2 }),
          mkPeer 3 110 []]) = none ∧
    (UpdateState ⟨600, 1200, 8⟩
        (mkChain NodeMode.NODEMODE_AUTO [] Role.other 0 Role.other 100 10 5)
        (mkSynker [] [mkPeer 1 105 [], mkPeer 3 110 []])).isSome = true ∧
    UpdateState ⟨600, 1200, 8⟩
        (mkChain NodeMode.NODEMODE_AUTO [] Role.SHARD_ROLE 0 Role.PROPOSER_ROLE 100 10 5)
        (mkSynker [0] [mkPeer 1 105 [],
          (2, { Shard := [], Beacon := some (ChainState.ofHeight 104),
                ShardToBeaconPool := none, CrossShardPool := [(0, none)], Peer := 2 })])
      = none ∧
    (UpdateState ⟨600, 1200, 8⟩
        (mkChain NodeMode.NODEMODE_AUTO [] Role.SHARD_ROLE 0 Role.PROPOSER_ROLE 100 10 5)
        (mkSynker [0] [mkPeer 1 105 []])).isSome = true := by
  refine ⟨?_, ?_, ?_, ?_⟩
  · rfl
  · rfl
  · rfl
  · rfl

/-! ## Theorems: the shard-to-beacon lists collected by the peer scan -/

theorem lookup_mapSet {V : Type} (m : List (Nat × V)) (key : Nat) (v : V) (k0 : Nat) :
    (mapSet m key v).lookup k0 = if k0 = key then some v else m.lookup k0 := by
  induction m with
  | nil =>
    by_cases h : k0 = key
    · simp [mapSet, h]
    · have hb : (k0 == key) = false := by simpa using h
      simp [mapSet, h, List.lookup, hb]
  | cons x t ih =>
    obtain ⟨k1, x1⟩ := x
    unfold mapSet
    by_cases h1 : k1 = key
    · subst h1
      by_cases h : k0 = k1
      · simp [h]
      · have hb : (k0 == k1) = false := by simpa using h
        simp [h, List.lookup, hb]
    · simp only [h1, if_false]
      by_cases h : k0 = key
      · subst h
        have hb : (k0 == k1) = false := by
          simp only [beq_eq_false_iff_ne, ne_eq]
          exact fun hh => h1 hh.symm
        simp [List.lookup, hb, ih]
      · by_cases h2 : k0 = k1
        · subst h2
          simp [List.lookup, h]
        · have hb : (k0 == k1) = false := by simpa using h2
          simp [List.lookup, hb, ih, h]

theorem blksEntry_recordBlks (m : List (Nat × List (PeerID × List Nat))) (shardID : Nat)
    (peerID : PeerID) (blks : List Nat) (s0 : Nat) (p0 : PeerID) :
    blksEntry (recordBlks m shardID peerID blks) s0 p0
      = if s0 = shardID ∧ p0 = peerID then some blks else blksEntry m s0 p0 := by
  unfold blksEntry recordBlks
  rw [lookup_mapSet]
  by_cases hs : s0 = shardID
  · subst hs
    simp only [if_true, Option.some_bind, true_and]
    rw [lookup_mapSet]
    by_cases hp : p0 = peerID
    · simp [hp]
    · simp only [hp, if_false]
      cases List.lookup s0 m <;> simp
  · simp [hs]

theorem lookup_none_of_not_mem_keys {V : Type} (m : List (Nat × V)) (k0 : Nat)
    (h : k0 ∉ m.map Prod.fst) : m.lookup k0 = none := by
  induction m with
  | nil => rfl
  | cons x t ih =>
    obtain ⟨k1, x1⟩ := x
    simp only [List.map_cons, List.mem_cons, not_or] at h
    have hb : (k0 == k1) = false := by simpa using h.1
    simp only [List.lookup, hb]
    exact ih h.2

theorem lookup_of_mem_nodup {V : Type} (m : List (Nat × V)) (k0 : Nat) (v : V)
    (hn : keysNodup m) (h : (k0, v) ∈ m) : m.lookup k0 = some v := by
  induction m with
  | nil => simp at h
  | cons x t ih =>
    obtain ⟨k1, x1⟩ := x
    unfold keysNodup at hn
    simp only [List.map_cons, List.nodup_cons] at hn
    rcases List.mem_cons.mp h with h1 | h1
    · simp only [Prod.mk.injEq] at h1
      obtain ⟨rfl, rfl⟩ := h1
      simp [List.lookup]
    · have hne : k0 ≠ k1 := by
        intro heq
        subst heq
        exact hn.1 (List.mem_map_of_mem Prod.fst h1)
      have hb : (k0 == k1) = false := by simpa using hne
      simp only [List.lookup, hb]
      exact ih hn.2 h1

theorem foldl_recordS2B_entry (peerID : PeerID) (pool : List (Nat × List Nat))
    (rcs : reportedChainState) (hn : keysNodup pool) (s0 : Nat) (p0 : PeerID) :
    blksEntry (pool.foldl (fun r e =>
      { r with ShardToBeaconBlks := recordBlks r.ShardToBeaconBlks e.1 peerID e.2 })
      rcs).ShardToBeaconBlks s0 p0
      = if p0 = peerID then firstSome (pool.lookup s0) (blksEntry rcs.ShardToBeaconBlks s0 p0)
        else blksEntry rcs.ShardToBeaconBlks s0 p0 := by
  induction pool generalizing rcs with
  | nil =>
    simp only [List.foldl_nil, List.lookup, firstSome]
    split <;> rfl
  | cons a t ih =>
    obtain ⟨k1, b1⟩ := a
    unfold keysNodup at hn
    simp only [List.map_cons, List.nodup_cons] at hn
    simp only [List.foldl_cons]
    rw [ih _ hn.2]
    simp only [blksEntry_recordBlks]
    by_cases hp : p0 = peerID
    · subst hp
      simp only [if_true, and_true]
      by_cases hs : s0 = k1
      · subst hs
        rw [lookup_none_of_not_mem_keys t s0 hn.1]
        simp [firstSome, List.lookup]
      · have hb : (s0 == k1) = false := by simpa using hs
        simp only [hs, if_false, List.lookup, hb]
    · simp [hp]

theorem foldl_recordS2B_cross (peerID : PeerID) (pool : List (Nat × List Nat))
    (rcs : reportedChainState) :
    (pool.foldl (fun r e =>
      { r with ShardToBeaconBlks := recordBlks r.ShardToBeaconBlks e.1 peerID e.2 })
      rcs).CrossShardBlks = rcs.CrossShardBlks := by
  induction pool generalizing rcs with
  | nil => rfl
  | cons a t ih =>
    simp only [List.foldl_cons]
    rw [ih]

theorem foldl_recordCross_S2B (peerID : PeerID) (pool : List (Nat × List Nat))
    (rcs : reportedChainState) :
    (pool.foldl (fun r e =>
      { r with CrossShardBlks := recordBlks r.CrossShardBlks e.1 peerID e.2 })
      rcs).ShardToBeaconBlks = rcs.ShardToBeaconBlks := by
  induction pool generalizing rcs with
  | nil => rfl
  | cons a t ih =>
    simp only [List.foldl_cons]
    rw [ih]

theorem foldl_scanBeaconViewShard_S2B (bc : BlockChain) (ps : peerState) (l : List Nat)
    (rcs : reportedChainState) :
    (l.foldl (scanBeaconViewShard bc ps) rcs).ShardToBeaconBlks = rcs.ShardToBeaconBlks ∧
    (l.foldl (scanBeaconViewShard bc ps) rcs).CrossShardBlks = rcs.CrossShardBlks := by
  induction l generalizing rcs with
  | nil => exact ⟨rfl, rfl⟩
  | cons a t ih =>
    simp only [List.foldl_cons]
    have h := ih (scanBeaconViewShard bc ps rcs a)
    have h0 : (scanBeaconViewShard bc ps rcs a).ShardToBeaconBlks = rcs.ShardToBeaconBlks ∧
        (scanBeaconViewShard bc ps rcs a).CrossShardBlks = rcs.CrossShardBlks := by
      unfold scanBeaconViewShard
      split
      · split
        · split
          · exact ⟨rfl, rfl⟩
          · split <;> exact ⟨rfl, rfl⟩
        · exact ⟨rfl, rfl⟩
      · exact ⟨rfl, rfl⟩
    exact ⟨h.1.trans h0.1, h.2.trans h0.2⟩

theorem adoptBeacon_S2B (bc : BlockChain) (b : ChainState) (rcs : reportedChainState) :
    (adoptBeacon bc b rcs).ShardToBeaconBlks = rcs.ShardToBeaconBlks ∧
    (adoptBeacon bc b rcs).CrossShardBlks = rcs.CrossShardBlks := by
  unfold adoptBeacon
  simp only []
  split_ifs <;> exact ⟨rfl, rfl⟩

theorem recordPoolState_S2B (k : Consts) (bc : BlockChain) (u : UserRoles) (peerID : PeerID)
    (ps : peerState) (rcs r : reportedChainState)
    (hn : ∀ pool, ps.ShardToBeaconPool = some pool → keysNodup pool)
    (h : recordPoolState k bc u peerID ps rcs = some r) :
    (¬ beaconCommitteeBranch bc u → r.ShardToBeaconBlks = rcs.ShardToBeaconBlks) ∧
    (beaconCommitteeBranch bc u → ∀ s0 p0, blksEntry r.ShardToBeaconBlks s0 p0
      = if p0 = peerID then
          firstSome (reportedShardToBeacon ps s0) (blksEntry rcs.ShardToBeaconBlks s0 p0)
        else blksEntry rcs.ShardToBeaconBlks s0 p0) := by
  have hin : ∀ r1 : reportedChainState,
      r1 = (List.range k.MAX_SHARD_NUMBER).foldl (scanBeaconViewShard bc ps)
        (match ps.ShardToBeaconPool with
          | some pool =>
            pool.foldl (fun r e =>
              { r with ShardToBeaconBlks := recordBlks r.ShardToBeaconBlks e.1 peerID e.2 }) rcs
          | none => rcs) →
      ∀ s0 p0, blksEntry r1.ShardToBeaconBlks s0 p0
        = if p0 = peerID then
            firstSome (reportedShardToBeacon ps s0) (blksEntry rcs.ShardToBeaconBlks s0 p0)
          else blksEntry rcs.ShardToBeaconBlks s0 p0 := by
    intro r1 hr1 s0 p0
    rw [hr1, (foldl_scanBeaconViewShard_S2B bc ps _ _).1]
    cases hpool : ps.ShardToBeaconPool with
    | none =>
      simp only [reportedShardToBeacon, hpool, Option.none_bind, firstSome]
      split <;> rfl
    | some pool =>
      simp only [reportedShardToBeacon, hpool, Option.some_bind]
      exact foldl_recordS2B_entry peerID pool rcs (hn pool hpool) s0 p0
  unfold beaconCommitteeBranch
  unfold recordPoolState at h
  split at h
  · rename_i hrole
    split at h
    · rename_i hmode
      simp only [Option.some.injEq] at h
      exact ⟨fun hbr => absurd ⟨Or.inl hrole, hmode⟩ hbr, fun _ => hin r h.symm⟩
    · rename_i hmode
      simp only [Option.some.injEq] at h
      subst h
      exact ⟨fun _ => rfl, fun hbr => absurd hbr.2 hmode⟩
  · rename_i hrole
    split at h
    · rename_i hmode
      simp only [Option.some.injEq] at h
      exact ⟨fun hbr => absurd ⟨Or.inr hrole, hmode⟩ hbr, fun _ => hin r h.symm⟩
    · rename_i hmode
      simp only [Option.some.injEq] at h
      subst h
      exact ⟨fun _ => rfl, fun hbr => absurd hbr.2 hmode⟩
  · rename_i hrole
    have hno : ¬ ((u.userRole = Role.PROPOSER_ROLE ∨ u.userRole = Role.VALIDATOR_ROLE) ∧
        (bc.NodeMode = NodeMode.NODEMODE_AUTO ∨ bc.NodeMode = NodeMode.NODEMODE_BEACON)) := by
      rw [hrole]; simp
    refine ⟨fun _ => ?_, fun hbr => absurd hbr hno⟩
    split at h
    · split at h
      · simp only [Option.some.injEq] at h
        subst h
        exact foldl_recordCross_S2B peerID _ rcs
      · simp at h
      · simp only [Option.some.injEq] at h; subst h; rfl
    · simp only [Option.some.injEq] at h; subst h; rfl
  · rename_i hrole
    have hno : ¬ ((u.userRole = Role.PROPOSER_ROLE ∨ u.userRole = Role.VALIDATOR_ROLE) ∧
        (bc.NodeMode = NodeMode.NODEMODE_AUTO ∨ bc.NodeMode = NodeMode.NODEMODE_BEACON)) := by
      rw [hrole]; simp
    simp only [Option.some.injEq] at h
    subst h
    exact ⟨fun _ => rfl, fun hbr => absurd hbr hno⟩

theorem scanPeer_S2B (k : Consts) (bc : BlockChain) (u : UserRoles) (shards : List Nat)
    (rcs r : reportedChainState) (e : PeerID × peerState)
    (hn : ∀ pool, e.2.ShardToBeaconPool = some pool → keysNodup pool)
    (h : scanPeer k bc u shards rcs e = some r) :
    (¬ beaconCommitteeBranch bc u → r.ShardToBeaconBlks = rcs.ShardToBeaconBlks) ∧
    (beaconCommitteeBranch bc u → ∀ s0 p0, blksEntry r.ShardToBeaconBlks s0 p0
      = if p0 = e.1 ∧ beaconAtLeast bc.BeaconHeight e.2 = true then
          firstSome (reportedShardToBeacon e.2 s0) (blksEntry rcs.ShardToBeaconBlks s0 p0)
        else blksEntry rcs.ShardToBeaconBlks s0 p0) := by
  have hf := (foldl_scanSyncingShard_frame bc e.2 shards rcs).2.1
  unfold scanPeer at h
  simp only [] at h
  cases hb : e.2.Beacon with
  | none => rw [hb] at h; simp at h
  | some b =>
    rw [hb] at h
    simp only [] at h
    split at h
    · rename_i hge
      have hat : beaconAtLeast bc.BeaconHeight e.2 = true := by
        unfold beaconAtLeast
        rw [hb]
        simpa using hge
      have hrec := recordPoolState_S2B k bc u e.1 e.2 _ r hn h
      rw [(adoptBeacon_S2B bc b _).1, hf] at hrec
      refine ⟨hrec.1, fun hbr s0 p0 => ?_⟩
      rw [hrec.2 hbr s0 p0]
      simp [hat]
    · rename_i hlt
      have hat : beaconAtLeast bc.BeaconHeight e.2 = false := by
        unfold beaconAtLeast
        rw [hb]
        simpa using hlt
      simp only [Option.some.injEq] at h
      subst h
      refine ⟨fun _ => hf, fun _ s0 p0 => ?_⟩
      rw [hf]
      simp [hat]

theorem scanPeers_S2B (k : Consts) (bc : BlockChain) (u : UserRoles) (shards : List Nat)
    (peers : List (PeerID × peerState)) (rcs r : reportedChainState)
    (hids : keysNodup peers)
    (hn : ∀ e ∈ peers, ∀ pool, e.2.ShardToBeaconPool = some pool → keysNodup pool)
    (h : scanPeers k bc u shards rcs peers = some r) :
    (¬ beaconCommitteeBranch bc u → r.ShardToBeaconBlks = rcs.ShardToBeaconBlks) ∧
    (beaconCommitteeBranch bc u → ∀ s0 p0, blksEntry r.ShardToBeaconBlks s0 p0
      = firstSome (expectedShardToBeacon bc.BeaconHeight peers s0 p0)
          (blksEntry rcs.ShardToBeaconBlks s0 p0)) := by
  induction peers generalizing rcs with
  | nil =>
    simp only [scanPeers, Option.some.injEq] at h
    subst h
    exact ⟨fun _ => rfl, fun _ s0 p0 => rfl⟩
  | cons e es ih =>
    unfold scanPeers at h
    cases hs : scanPeer k bc u shards rcs e with
    | none => rw [hs] at h; simp at h
    | some r1 =>
      rw [hs] at h
      simp only [] at h
      have hids2 := hids
      unfold keysNodup at hids2
      simp only [List.map_cons, List.nodup_cons] at hids2
      have h1 := scanPeer_S2B k bc u shards rcs r1 e (hn e (List.mem_cons_self _ _)) hs
      have h2 := ih r1 hids2.2 (fun x hx => hn x (List.mem_cons_of_mem _ hx)) h
      refine ⟨fun hbr => (h2.1 hbr).trans (h1.1 hbr), fun hbr s0 p0 => ?_⟩
      rw [h2.2 hbr s0 p0, h1.2 hbr s0 p0]
      obtain ⟨id, ps⟩ := e
      unfold expectedShardToBeacon
      by_cases hp : p0 = id
      · subst hp
        rw [lookup_none_of_not_mem_keys es p0 hids2.1]
        simp only [Option.none_bind, firstSome, List.lookup, beq_self_eq_true,
          Option.some_bind, true_and]
        cases hat : beaconAtLeast bc.BeaconHeight ps <;> simp
      · have hb : (p0 == id) = false := by simpa using hp
        simp only [List.lookup, hb, hp, false_and, if_false]

/-- C12 (as amended): let the peer ids of the table and the shard ids of each
reported pool be distinct (they are map keys). The peer scan returns when no peer
carries a nil beacon state or nil cross-shard pool entry, and whenever it
returns: for a beacon-level PROPOSER or VALIDATOR in node mode AUTO or BEACON,
`RCS.ShardToBeaconBlks[s][p]` is peer `p`'s reported list for shard `s` for every
peer `p` of the table whose beacon height is at least the local one, it has no
entry for a peer whose beacon height is below the local one, for a shard a peer
does not report, or for an id that is not in the table; for every other role or
node mode `RCS.ShardToBeaconBlks` is empty. -/
theorem peerScan_collects_shardToBeacon (k : Consts) (bc : BlockChain) (s : synker)
    (hids : keysNodup s.States.PeersState)
    (hpools : ∀ e ∈ s.States.PeersState, ∀ pool,
      e.2.ShardToBeaconPool = some pool → keysNodup pool) :
    ((∀ e ∈ s.States.PeersState, e.2.Beacon ≠ none) →
      (∀ e ∈ s.States.PeersState, crossShardPoolNonNil e.2) →
        ∃ rcs, peerScan k bc s = some rcs) ∧
    ∀ rcs, peerScan k bc s = some rcs →
      (beaconCommitteeBranch bc (userRoles bc) →
        (∀ e ∈ s.States.PeersState, ∀ shardID,
          blksEntry rcs.ShardToBeaconBlks shardID e.1
            = if beaconAtLeast bc.BeaconHeight e.2 = true then
                reportedShardToBeacon e.2 shardID
              else none) ∧
        (∀ peerID shardID, peerID ∉ s.States.PeersState.map Prod.fst →
          blksEntry rcs.ShardToBeaconBlks shardID peerID = none)) ∧
      (¬ beaconCommitteeBranch bc (userRoles bc) → rcs.ShardToBeaconBlks = []) := by
  constructor
  · intro hb hwf
    unfold peerScan
    simp only []
    rw [(cycleStart_peers k bc s).1]
    exact scanPeers_returns k bc _ _ _ _ hb hwf
  · intro rcs hscan
    unfold peerScan at hscan
    simp only [] at hscan
    rw [(cycleStart_peers k bc s).1] at hscan
    obtain ⟨h1, h2⟩ := scanPeers_S2B k bc _ _ _ _ rcs hids hpools hscan
    refine ⟨fun hbr => ⟨?_, ?_⟩, fun hbr => h1 hbr⟩
    · intro e he shardID
      rw [h2 hbr shardID e.1]
      have hl : s.States.PeersState.lookup e.1 = some e.2 :=
        lookup_of_mem_nodup _ _ _ hids he
      simp only [expectedShardToBeacon, hl, Option.some_bind, initRCS, blksEntry,
        List.lookup, Option.none_bind, firstSome]
      split <;> simp_all
    · intro peerID shardID hnot
      rw [h2 hbr shardID peerID]
      simp [expectedShardToBeacon, lookup_none_of_not_mem_keys _ _ hnot, initRCS, blksEntry,
        List.lookup, firstSome]

/-- Witness of C12: a beacon proposer in mode AUTO at beacon height 100 meets a
peer at height 105 that reports the pending heights 5 and 6 for shard 0, and a
peer at height 90 that reports height 7; the first list is collected, the second
is not. -/
theorem peerScan_collects_shardToBeacon_witness :
    ∃ rcs, peerScan ⟨600, 1200, 8⟩
        (mkChain NodeMode.NODEMODE_AUTO [] Role.PROPOSER_ROLE 0 Role.other 100 10 5)
        (mkSynker [] [mkPoolPeer 1 105 [(0, [5, 6])], mkPoolPeer 2 90 [(0, [7])]]) = some rcs ∧
      blksEntry rcs.ShardToBeaconBlks 0 1 = some [5, 6] ∧
      blksEntry rcs.ShardToBeaconBlks 0 2 = none := by
  have h := peerScan_collects_shardToBeacon ⟨600, 1200, 8⟩
    (mkChain NodeMode.NODEMODE_AUTO [] Role.PROPOSER_ROLE 0 Role.other 100 10 5)
    (mkSynker [] [mkPoolPeer 1 105 [(0, [5, 6])], mkPoolPeer 2 90 [(0, [7])]])
    (by decide)
    (by
      intro e he pool hp
      simp only [mkSynker, List.mem_cons, List.mem_singleton, List.not_mem_nil, or_false] at he
      rcases he with rfl | rfl
      · simp only [mkPoolPeer, Option.some.injEq] at hp
        subst hp; decide
      · simp only [mkPoolPeer, Option.some.injEq] at hp
        subst hp; decide)
  obtain ⟨rcs, hr⟩ := h.1 (by simp [mkSynker, mkPoolPeer])
    (by simp [mkSynker, mkPoolPeer, crossShardPoolNonNil])
  have hbr : beaconCommitteeBranch
      (mkChain NodeMode.NODEMODE_AUTO [] Role.PROPOSER_ROLE 0 Role.other 100 10 5)
      (userRoles (mkChain NodeMode.NODEMODE_AUTO [] Role.PROPOSER_ROLE 0 Role.other 100 10 5)) :=
    ⟨Or.inl rfl, Or.inl rfl⟩
  have h2 := ((h.2 rcs hr).1 hbr).1
  refine ⟨rcs, hr, ?_, ?_⟩
  · have := h2 (mkPoolPeer 1 105 [(0, [5, 6])]) (by simp [mkSynker]) 0
    simpa [mkPoolPeer, beaconAtLeast, ChainState.ofHeight, mkChain, reportedShardToBeacon,
      List.lookup] using this
  · have := h2 (mkPoolPeer 2 90 [(0, [7])]) (by simp [mkSynker]) 0
    simpa [mkPoolPeer, beaconAtLeast, ChainState.ofHeight, mkChain, reportedShardToBeacon,
      List.lookup] using this

/-- Counterexample to C12 as stated: for a beacon proposer in node mode SHARD the
list a peer reports for shard 0 is not collected (`RCS.ShardToBeaconBlks` stays
empty); and for a beacon proposer in node mode AUTO at beacon height 100 the list
reported by a peer at beacon height 90 is not collected either. -/
theorem peerScan_skips_reported_shardToBeacon :
    (peerScan ⟨600, 1200, 8⟩
        (mkChain NodeMode.NODEMODE_SHARD [] Role.PROPOSER_ROLE 0 Role.other 100 10 5)
        (mkSynker [] [mkPoolPeer 1 105 [(0, [5, 6])]])).map
      (fun rcs => rcs.ShardToBeaconBlks) = some [] ∧
    reportedShardToBeacon (mkPoolPeer 1 105 [(0, [5, 6])]).2 0 = some [5, 6] ∧
    (peerScan ⟨600, 1200, 8⟩
        (mkChain NodeMode.NODEMODE_AUTO [] Role.PROPOSER_ROLE 0 Role.other 100 10 5)
        (mkSynker [] [mkPoolPeer 2 90 [(0, [7])]])).map
      (fun rcs => blksEntry rcs.ShardToBeaconBlks 0 2) = some none ∧
    reportedShardToBeacon (mkPoolPeer 2 90 [(0, [7])]).2 0 = some [7] := by
  refine ⟨?_, ?_, ?_, ?_⟩ <;> decide

/-! ## Theorems: requests by height and the pool views -/

theorem mem_heightsOf (fromH toH h : Nat) : h ∈ heightsOf fromH toH ↔ fromH ≤ h ∧ h ≤ toH := by
  unfold heightsOf
  rw [List.mem_range']
  constructor
  · rintro ⟨i, hi, rfl⟩
    omega
  · intro ⟨h1, h2⟩
    exact ⟨h - fromH, by omega, by omega⟩

theorem runsOf_cover (l : List Nat) :
    ∀ b ∈ runsOf l, b.1 ≤ b.2 ∧ ∀ h, b.1 ≤ h → h ≤ b.2 → h ∈ l := by
  induction l with
  | nil => intro b hb; simp [runsOf] at hb
  | cons x t ih =>
    intro b hb
    unfold runsOf at hb
    split at hb
    · simp only [List.mem_singleton] at hb
      subst hb
      refine ⟨le_refl _, fun h h1 h2 => ?_⟩
      have : h = x := by simp only at h1 h2; omega
      rw [this]; exact List.mem_cons_self _ _
    · rename_i f e rest heq
      have hfe := ih (f, e) (by rw [heq]; exact List.mem_cons_self _ _)
      split at hb
      · rename_i hx
        rcases List.mem_cons.mp hb with h1 | h1
        · subst h1
          refine ⟨by simp only; omega, fun h h1 h2 => ?_⟩
          simp only at h1 h2
          by_cases hh : h = x
          · rw [hh]; exact List.mem_cons_self _ _
          · exact List.mem_cons_of_mem _ (hfe.2 h (by simp only; omega) h2)
        · have := ih b (by rw [heq]; exact List.mem_cons_of_mem _ h1)
          exact ⟨this.1, fun h h1 h2 => List.mem_cons_of_mem _ (this.2 h h1 h2)⟩
      · rcases List.mem_cons.mp hb with h1 | h1
        · subst h1
          refine ⟨le_refl _, fun h h1 h2 => ?_⟩
          have : h = x := by simp only at h1 h2; omega
          rw [this]; exact List.mem_cons_self _ _
        · have := ih b (by rw [heq]; exact h1)
          exact ⟨this.1, fun h h1 h2 => List.mem_cons_of_mem _ (this.2 h h1 h2)⟩

theorem mem_batchHeights (batches : List (Nat × Nat)) (h : Nat) :
    h ∈ batchHeights batches ↔ ∃ b ∈ batches, b.1 ≤ h ∧ h ≤ b.2 := by
  unfold batchHeights
  simp only [List.mem_flatten, List.mem_map]
  constructor
  · rintro ⟨l, ⟨b, hb, rfl⟩, hl⟩
    exact ⟨b, hb, (mem_heightsOf _ _ _).mp hl⟩
  · rintro ⟨b, hb, hh⟩
    exact ⟨_, ⟨b, hb, rfl⟩, (mem_heightsOf _ _ _).mpr hh⟩

theorem getBlkNeedToGetByHeight_heights (pfx : Bytes) (fromH toH : Nat) (cacheItems : SyncCache)
    (poolItems : List Nat) (peerID : PeerID) (h : Nat)
    (hm : h ∈ batchHeights (getBlkNeedToGetByHeight pfx fromH toH cacheItems poolItems peerID)) :
    fromH ≤ h ∧ h ≤ toH ∧ h ∉ poolItems ∧ cacheItems.has (heightKey pfx h) = false := by
  obtain ⟨b, hb, h1, h2⟩ := (mem_batchHeights _ _).mp hm
  unfold getBlkNeedToGetByHeight at hb
  have hmem := (runsOf_cover _ b hb).2 h h1 h2
  rw [List.mem_filter] at hmem
  obtain ⟨hr, hn⟩ := hmem
  have hr2 := (mem_heightsOf _ _ _).mp hr
  unfold heightNeeded at hn
  simp only [Bool.and_eq_true, decide_eq_true_eq, Bool.not_eq_true'] at hn
  exact ⟨hr2.1, hr2.2, hn.1, hn.2⟩

theorem syncByHeight_spec (sp : SyncParams) (pfx : Bytes) (now : Nat) (cache : SyncCache)
    (poolItems : List Nat) (fromH toH : Nat) (peerID : PeerID) (r : SyncCache × List (Nat × Nat))
    (h : syncByHeight sp pfx now cache poolItems fromH toH peerID = some r) :
    r.2 = getBlkNeedToGetByHeight pfx fromH toH (cache.Items now) poolItems peerID ∧
    r.1 = registerKeys sp now cache ((batchHeights r.2).map (heightKey pfx)) := by
  unfold syncByHeight at h
  simp only [] at h
  split at h
  · simp only [Option.some.injEq] at h
    subst h
    exact ⟨rfl, rfl⟩
  · simp at h

theorem syncByHeight_returns (sp : SyncParams) (pfx : Bytes) (now : Nat) (cache : SyncCache)
    (poolItems : List Nat) (fromH toH : Nat) (peerID : PeerID) (hto : toH + 1 < U64) :
    ∃ r, syncByHeight sp pfx now cache poolItems fromH toH peerID = some r := by
  unfold syncByHeight
  simp only []
  have hall : (getBlkNeedToGetByHeight pfx fromH toH (cache.Items now) poolItems peerID).all
      batchLoopEnds = true := by
    rw [List.all_eq_true]
    intro b hb
    have hcov := runsOf_cover _ b hb
    have hmem := hcov.2 b.2 hcov.1 (le_refl _)
    rw [List.mem_filter] at hmem
    have := ((mem_heightsOf _ _ _).mp hmem.1).2
    unfold batchLoopEnds
    simp only [Bool.or_eq_true, decide_eq_true_eq]
    right
    omega
  rw [hall]
  exact ⟨_, rfl⟩

theorem syncByHeight_avoidsPool (sp : SyncParams) (pfx : Bytes) (now : Nat) (cache : SyncCache)
    (poolItems : List Nat) (fromH toH : Nat) (peerID : PeerID) (r : SyncCache × List (Nat × Nat))
    (mk : Nat × Nat → Push) (hmk : ∀ b, Push.heights (mk b) = heightsOf b.1 b.2)
    (h : syncByHeight sp pfx now cache poolItems fromH toH peerID = some r) :
    avoidsPool sp pfx now cache poolItems (r.1, r.2.map mk) := by
  obtain ⟨h1, h2⟩ := syncByHeight_spec sp pfx now cache poolItems fromH toH peerID r h
  have hh : ∀ x ∈ batchHeights r.2, x ∉ poolItems := by
    intro x hx
    rw [h1] at hx
    exact (getBlkNeedToGetByHeight_heights _ _ _ _ _ _ x hx).2.2.1
  refine ⟨?_, batchHeights r.2, h2, hh⟩
  intro p hp x hx
  simp only [List.mem_map] at hp
  obtain ⟨b, hb, rfl⟩ := hp
  rw [hmk b] at hx
  exact hh x ((mem_batchHeights _ _).mpr ⟨b, hb, (mem_heightsOf _ _ _).mp hx⟩)

theorem syncBySpecificHeight_avoidsPool (sp : SyncParams) (pfx : Bytes) (now : Nat)
    (cache : SyncCache) (poolItems : List Nat) (blkHeights : List Nat) (peerID : PeerID)
    (mk : List Nat → Push) (hmk : ∀ l, Push.heights (mk l) = l) :
    avoidsPool sp pfx now cache poolItems
      ((syncBySpecificHeight sp pfx now cache poolItems blkHeights peerID).1,
        if (syncBySpecificHeight sp pfx now cache poolItems blkHeights peerID).2.length > 0 then
          [mk (syncBySpecificHeight sp pfx now cache poolItems blkHeights peerID).2]
        else []) := by
  have hh : ∀ x ∈ (syncBySpecificHeight sp pfx now cache poolItems blkHeights peerID).2,
      x ∉ poolItems := by
    intro x hx
    simp only [syncBySpecificHeight, getBlkNeedToGetBySpecificHeight, List.mem_filter,
      heightNeeded, Bool.and_eq_true, decide_eq_true_eq] at hx
    exact hx.2.1
  refine ⟨?_, _, rfl, hh⟩
  intro p hp x hx
  split at hp
  · simp only [List.mem_singleton] at hp
    subst hp
    rw [hmk] at hx
    exact hh x hx
  · simp at hp

/-- C16: for every by-height request over a range `[from, to]` made by
`SyncBlkBeacon`, `SyncBlkShard` or `SyncBlkShardToBeacon` (with `byHash = false`),
and for the by-specific-height request of `SyncBlkShardToBeacon`: the call returns
(for a range when `to + 1` is a `uint64`), no height of the pool view returned
by the matching `Get*PoolStateByHeight` is in a pushed message, and the cache
after the call is the cache before it with registrations of heights none of
which is in that pool view. -/
theorem SyncBlk_by_height_skips_pool_heights (sp : SyncParams) (s : synker)
    (cache : SyncCache) (now : Nat) (shardID : Nat) (getFromPool : Bool)
    (blksHash : List Hash) (blkHeights : List Nat) (fromH toH : Nat) (peerID : PeerID) :
    ((toH + 1 < U64 →
        ∃ r, SyncBlkBeacon sp s cache now false getFromPool blksHash fromH toH peerID = some r) ∧
      ∀ r, SyncBlkBeacon sp s cache now false getFromPool blksHash fromH toH peerID = some r →
        avoidsPool sp (sp.getBlkPrefixSyncKey false BlkType.beaconBlk 0 0) now cache
          (GetBeaconPoolStateByHeight s) r) ∧
    ((toH + 1 < U64 →
        ∃ r, SyncBlkShard sp s cache now shardID false getFromPool blksHash fromH toH peerID
          = some r) ∧
      ∀ r, SyncBlkShard sp s cache now shardID false getFromPool blksHash fromH toH peerID
          = some r →
        avoidsPool sp (sp.getBlkPrefixSyncKey false BlkType.shardBlk shardID 0) now cache
          (GetShardPoolStateByHeight s shardID) r) ∧
    ((toH + 1 < U64 →
        ∃ r, SyncBlkShardToBeacon sp s cache now shardID false false getFromPool blksHash
          blkHeights fromH toH peerID = some r) ∧
      ∀ r, SyncBlkShardToBeacon sp s cache now shardID false false getFromPool blksHash
          blkHeights fromH toH peerID = some r →
        avoidsPool sp (sp.getBlkPrefixSyncKey false BlkType.shardToBeaconBlk shardID 0) now
          cache (GetShardToBeaconPoolStateByHeight s shardID) r) ∧
    (∃ r, SyncBlkShardToBeacon sp s cache now shardID false true getFromPool blksHash
        blkHeights fromH toH peerID = some r ∧
      avoidsPool sp (sp.getBlkPrefixSyncKey false BlkType.shardToBeaconBlk shardID 0) now
        cache (GetShardToBeaconPoolStateByHeight s shardID) r) := by
  refine ⟨⟨?_, ?_⟩, ⟨?_, ?_⟩, ⟨?_, ?_⟩, ?_⟩
  · intro hto
    obtain ⟨r, hr⟩ := syncByHeight_returns sp (sp.getBlkPrefixSyncKey false BlkType.beaconBlk 0 0)
      now cache (GetBeaconPoolStateByHeight s) fromH toH peerID hto
    simp only [SyncBlkBeacon, Bool.false_eq_true, if_false, hr]
    exact ⟨_, rfl⟩
  · intro r hr
    simp only [SyncBlkBeacon, Bool.false_eq_true, if_false] at hr
    split at hr
    · simp at hr
    · rename_i r0 h0
      simp only [Option.some.injEq] at hr
      subst hr
      exact syncByHeight_avoidsPool sp _ now cache _ fromH toH peerID r0 _ (fun b => rfl) h0
  · intro hto
    obtain ⟨r, hr⟩ := syncByHeight_returns sp
      (sp.getBlkPrefixSyncKey false BlkType.shardBlk shardID 0)
      now cache (GetShardPoolStateByHeight s shardID) fromH toH peerID hto
    simp only [SyncBlkShard, Bool.false_eq_true, if_false, hr]
    exact ⟨_, rfl⟩
  · intro r hr
    simp only [SyncBlkShard, Bool.false_eq_true, if_false] at hr
    split at hr
    · simp at hr
    · rename_i r0 h0
      simp only [Option.some.injEq] at hr
      subst hr
      exact syncByHeight_avoidsPool sp _ now cache _ fromH toH peerID r0 _ (fun b => rfl) h0
  · intro hto
    obtain ⟨r, hr⟩ := syncByHeight_returns sp
      (sp.getBlkPrefixSyncKey false BlkType.shardToBeaconBlk shardID 0)
      now cache (GetShardToBeaconPoolStateByHeight s shardID) fromH toH peerID hto
    simp only [SyncBlkShardToBeacon, Bool.false_eq_true, if_false, hr]
    exact ⟨_, rfl⟩
  · intro r hr
    simp only [SyncBlkShardToBeacon, Bool.false_eq_true, if_false] at hr
    split at hr
    · simp at hr
    · rename_i r0 h0
      simp only [Option.some.injEq] at hr
      subst hr
      exact syncByHeight_avoidsPool sp _ now cache _ fromH toH peerID r0 _ (fun b => rfl) h0
  · refine ⟨_, by simp only [SyncBlkShardToBeacon, Bool.false_eq_true, if_false, if_true]; rfl, ?_⟩
    exact syncBySpecificHeight_avoidsPool sp _ now cache _ blkHeights peerID
      (fun l => Push.GetBlockShardToBeaconBySpecificHeight shardID l getFromPool peerID)
      (fun l => rfl)

/-! ## Theorems: the expiry of in-flight keys -/

theorem has_eq_true_iff (items : SyncCache) (key : Bytes) :
    items.has key = true ↔ ∃ e ∈ items, e.1 = key := by
  unfold SyncCache.has
  simp [List.any_eq_true]

theorem has_Items_iff (c : SyncCache) (now : Nat) (key : Bytes) :
    (c.Items now).has key = true ↔ ∃ e ∈ c, e.1 = key ∧ now < e.2 := by
  rw [has_eq_true_iff]
  unfold SyncCache.Items SyncCache.live
  constructor
  · rintro ⟨e, he, hk⟩
    rw [List.mem_filter] at he
    exact ⟨e, he.1, hk, by simpa using he.2⟩
  · rintro ⟨e, he, hk, hl⟩
    exact ⟨e, List.mem_filter.mpr ⟨he, by simpa using hl⟩, hk⟩

theorem inFlight_live (c : SyncCache) (key : Bytes) (E now : Nat)
    (h : inFlightUntil c key E) (hnow : now < E) : (c.Items now).has key = true :=
  (has_Items_iff c now key).mpr ⟨(key, E), h.1, rfl, hnow⟩

theorem inFlight_expired (c : SyncCache) (key : Bytes) (E now : Nat)
    (h : inFlightUntil c key E) (hnow : E ≤ now) :
    (c.Items now).has key = false ∧ (c.DeleteExpired now).has key = false := by
  have hno : ¬ (c.Items now).has key = true := by
    rw [has_Items_iff]
    rintro ⟨e, he, hk, hl⟩
    have := h.2 e he hk
    omega
  have h1 : (c.Items now).has key = false := by
    cases hb : (c.Items now).has key
    · rfl
    · exact absurd hb hno
  exact ⟨h1, h1⟩

theorem Add_registers (c : SyncCache) (key : Bytes) (T ttl : Nat)
    (hfree : (c.Items T).has key = false) : inFlightUntil (c.Add key T ttl) key (T + ttl) := by
  unfold SyncCache.Add
  rw [hfree]
  simp only [Bool.false_eq_true, if_false]
  refine ⟨List.mem_cons_self _ _, ?_⟩
  intro e he hk
  rcases List.mem_cons.mp he with h1 | h1
  · rw [h1]
  · rw [List.mem_filter] at h1
    have := h1.2
    simp only [ne_eq, decide_not, Bool.not_eq_true', decide_eq_false_iff_not] at this
    exact absurd hk this

theorem Add_keeps_inFlight (c : SyncCache) (key : Bytes) (E now ttl : Nat) (key0 : Bytes)
    (h : inFlightUntil c key E) (hnow : now < E) :
    inFlightUntil (c.Add key0 now ttl) key E := by
  unfold SyncCache.Add
  split
  · exact h
  · rename_i hfree
    have hne : key0 ≠ key := by
      intro heq
      subst heq
      exact hfree (inFlight_live c key0 E now h hnow)
    refine ⟨List.mem_cons_of_mem _ (List.mem_filter.mpr ⟨h.1, ?_⟩), ?_⟩
    · simp only [ne_eq, decide_not, Bool.not_eq_true', decide_eq_false_iff_not]
      exact fun hh => hne hh.symm
    · intro e he hk
      rcases List.mem_cons.mp he with h1 | h1
      · rw [h1] at hk
        exact absurd hk hne
      · exact h.2 e (List.mem_filter.mp h1).1 hk

theorem registerKeys_keeps_inFlight (sp : SyncParams) (now : Nat) (keys : List Bytes)
    (c : SyncCache) (key : Bytes) (E : Nat) (h : inFlightUntil c key E) (hnow : now < E) :
    inFlightUntil (registerKeys sp now c keys) key E := by
  unfold registerKeys
  induction keys generalizing c with
  | nil => exact h
  | cons a t ih =>
    simp only [List.foldl_cons]
    exact ih _ (Add_keeps_inFlight c key E now _ a h hnow)

theorem DeleteExpired_keeps_inFlight (c : SyncCache) (key : Bytes) (E now : Nat)
    (h : inFlightUntil c key E) (hnow : now < E) :
    inFlightUntil (c.DeleteExpired now) key E := by
  unfold SyncCache.DeleteExpired
  refine ⟨List.mem_filter.mpr ⟨h.1, by simpa [SyncCache.live] using hnow⟩, ?_⟩
  intro e he hk
  exact h.2 e (List.mem_filter.mp he).1 hk

theorem syncByHash_fresh (sp : SyncParams) (pfx : Bytes) (now : Nat) (cache : SyncCache)
    (blksHash : List Hash) (peerID : PeerID) :
    ∀ key ∈ (syncByHash sp pfx now cache blksHash peerID).2.map (hashKey pfx),
      (cache.Items now).has key = false := by
  intro key hk
  simp only [syncByHash, getBlkNeedToGetByHash, List.mem_map, List.mem_filter,
    Bool.not_eq_true'] at hk
  obtain ⟨h, ⟨_, hf⟩, rfl⟩ := hk
  exact hf

theorem syncBySpecificHeight_fresh (sp : SyncParams) (pfx : Bytes) (now : Nat)
    (cache : SyncCache) (poolItems blkHeights : List Nat) (peerID : PeerID) :
    ∀ key ∈ (syncBySpecificHeight sp pfx now cache poolItems blkHeights peerID).2.map
        (heightKey pfx),
      (cache.Items now).has key = false := by
  intro key hk
  simp only [syncBySpecificHeight, getBlkNeedToGetBySpecificHeight, List.mem_map,
    List.mem_filter, heightNeeded, Bool.and_eq_true, decide_eq_true_eq,
    Bool.not_eq_true'] at hk
  obtain ⟨h, ⟨_, _, hf⟩, rfl⟩ := hk
  exact hf

theorem syncByHeight_fresh (sp : SyncParams) (pfx : Bytes) (now : Nat) (cache : SyncCache)
    (poolItems : List Nat) (fromH toH : Nat) (peerID : PeerID) (r : SyncCache × List (Nat × Nat))
    (h : syncByHeight sp pfx now cache poolItems fromH toH peerID = some r) :
    ∀ b ∈ r.2, ∀ key ∈ (heightsOf b.1 b.2).map (heightKey pfx),
      (cache.Items now).has key = false := by
  obtain ⟨h1, _⟩ := syncByHeight_spec sp pfx now cache poolItems fromH toH peerID r h
  intro b hb key hk
  simp only [List.mem_map] at hk
  obtain ⟨x, hx, rfl⟩ := hk
  have hm : x ∈ batchHeights r.2 :=
    (mem_batchHeights _ _).mpr ⟨b, hb, (mem_heightsOf _ _ _).mp hx⟩
  rw [h1] at hm
  exact (getBlkNeedToGetByHeight_heights _ _ _ _ _ _ x hm).2.2.2

theorem fresh_of_single (sp : SyncParams) (cache c1 : SyncCache) (now : Nat) (n : Nat)
    (p : Push) (keys : List Bytes) (hc : c1 = registerKeys sp now cache keys)
    (hp : ∀ key ∈ Push.keys sp p, (cache.Items now).has key = false) :
    requestsOnlyFresh sp cache now (c1, if n > 0 then [p] else []) := by
  refine ⟨?_, keys, hc⟩
  intro q hq key hk
  split at hq
  · simp only [List.mem_singleton] at hq
    subst hq
    exact hp key hk
  · simp at hq

theorem fresh_of_batches (sp : SyncParams) (pfx : Bytes) (now : Nat) (cache : SyncCache)
    (poolItems : List Nat) (fromH toH : Nat) (peerID : PeerID) (r : SyncCache × List (Nat × Nat))
    (mk : Nat × Nat → Push)
    (hmk : ∀ b, Push.keys sp (mk b) = (heightsOf b.1 b.2).map (heightKey pfx))
    (h : syncByHeight sp pfx now cache poolItems fromH toH peerID = some r) :
    requestsOnlyFresh sp cache now (r.1, r.2.map mk) := by
  refine ⟨?_, _, (syncByHeight_spec sp pfx now cache poolItems fromH toH peerID r h).2⟩
  intro p hp key hk
  simp only [List.mem_map] at hp
  obtain ⟨b, hb, rfl⟩ := hp
  rw [hmk b] at hk
  exact syncByHeight_fresh sp pfx now cache poolItems fromH toH peerID r h b hb key hk

theorem execCall_fresh (sp : SyncParams) (s : synker) (now : Nat) (cache : SyncCache)
    (call : Call) (r : SyncCache × List Push) (h : execCall sp s now cache call = some r) :
    requestsOnlyFresh sp cache now r := by
  cases call with
  | SyncBlkBeacon byHash getFromPool blksHash fromH toH peerID =>
    simp only [execCall, SyncBlkBeacon] at h
    split at h
    · simp only [Option.some.injEq] at h
      subst h
      exact fresh_of_single sp cache _ now _ _ _ rfl (syncByHash_fresh sp _ now cache _ _)
    · split at h
      · simp at h
      · rename_i r0 h0
        simp only [Option.some.injEq] at h
        subst h
        exact fresh_of_batches sp _ now cache _ fromH toH peerID r0 _ (fun b => rfl) h0
  | SyncBlkShard shardID byHash getFromPool blksHash fromH toH peerID =>
    simp only [execCall, SyncBlkShard] at h
    split at h
    · simp only [Option.some.injEq] at h
      subst h
      exact fresh_of_single sp cache _ now _ _ _ rfl (syncByHash_fresh sp _ now cache _ _)
    · split at h
      · simp at h
      · rename_i r0 h0
        simp only [Option.some.injEq] at h
        subst h
        exact fresh_of_batches sp _ now cache _ fromH toH peerID r0 _ (fun b => rfl) h0
  | SyncBlkShardToBeacon shardID byHash bySpecificHeights getFromPool blksHash blkHeights
      fromH toH peerID =>
    simp only [execCall, SyncBlkShardToBeacon] at h
    split at h
    · simp only [Option.some.injEq] at h
      subst h
      exact fresh_of_single sp cache _ now _ _ _ rfl (syncByHash_fresh sp _ now cache _ _)
    · split at h
      · simp only [Option.some.injEq] at h
        subst h
        exact fresh_of_single sp cache _ now _ _ _ rfl
          (syncBySpecificHeight_fresh sp _ now cache _ _ _)
      · split at h
        · simp at h
        · rename_i r0 h0
          simp only [Option.some.injEq] at h
          subst h
          exact fresh_of_batches sp _ now cache _ fromH toH peerID r0 _ (fun b => rfl) h0
  | SyncBlkCrossShard getFromPool byHash blksHash blksHeight fromShard toShard peerID =>
    simp only [execCall, SyncBlkCrossShard] at h
    split at h
    · simp only [Option.some.injEq] at h
      subst h
      exact fresh_of_single sp cache _ now _ _ _ rfl (syncByHash_fresh sp _ now cache _ _)
    · split at h
      · simp only [Option.some.injEq] at h
        subst h
        exact ⟨fun p hp => by simp at hp, [], rfl⟩
      · simp only [Option.some.injEq] at h
        subst h
        exact fresh_of_single sp cache _ now _ _ _ rfl
          (syncBySpecificHeight_fresh sp _ now cache _ _ _)

theorem runCalls_inFlight (sp : SyncParams) (s : synker) (now : Nat) (calls : List Call)
    (cache : SyncCache) (key : Bytes) (E : Nat) (r : SyncCache × List Push)
    (hin : inFlightUntil cache key E) (hnow : now < E)
    (h : runCalls sp s now cache calls = some r) :
    inFlightUntil r.1 key E ∧ ∀ p ∈ r.2, key ∉ Push.keys sp p := by
  induction calls generalizing cache r with
  | nil =>
    simp only [runCalls, Option.some.injEq] at h
    subst h
    exact ⟨hin, fun p hp => by simp at hp⟩
  | cons call rest ih =>
    unfold runCalls at h
    split at h
    · simp at h
    · rename_i r1 h1
      split at h
      · simp at h
      · rename_i r2 h2
        simp only [Option.some.injEq] at h
        subst h
        obtain ⟨hfresh, keys, hkeys⟩ := execCall_fresh sp s now cache call r1 h1
        have hin1 : inFlightUntil r1.1 key E := by
          rw [hkeys]
          exact registerKeys_keeps_inFlight sp now keys cache key E hin hnow
        obtain ⟨hin2, hp2⟩ := ih r1.1 r2 hin1 h2
        refine ⟨hin2, fun p hp hk => ?_⟩
        rcases List.mem_append.mp hp with hp1 | hp1
        · have := hfresh p hp1 key hk
          rw [inFlight_live cache key E now hin hnow] at this
          exact absurd this (by simp)
        · exact hp2 p hp1 hk

theorem UpdateStateWithCache_inFlight (k : Consts) (sp : SyncParams) (bc : BlockChain)
    (s : synker) (cache : SyncCache) (now : Nat) (key : Bytes) (E : Nat)
    (out : CycleResult × SyncCache × List Push)
    (hin : inFlightUntil cache key E) (hnow : now < E)
    (h : UpdateStateWithCache k sp bc s cache now = some out) :
    inFlightUntil out.2.1 key E ∧ ∀ p ∈ out.2.2, key ∉ Push.keys sp p := by
  unfold UpdateStateWithCache at h
  split at h
  · simp at h
  · rename_i r hr
    split at h
    · simp at h
    · rename_i o ho
      simp only [Option.some.injEq] at h
      subst h
      exact runCalls_inFlight sp r.state now r.calls _ key E o
        (DeleteExpired_keeps_inFlight cache key E now hin hnow) hnow ho

theorem Items_DeleteExpired (c : SyncCache) (now : Nat) :
    (c.DeleteExpired now).Items now = c.Items now := by
  unfold SyncCache.DeleteExpired SyncCache.Items
  rw [List.filter_filter]
  simp

theorem SyncBlkBeacon_single_height (sp : SyncParams) (s : synker) (cache : SyncCache)
    (now h : Nat) (peerID : PeerID)
    (hfree : (cache.Items now).has (heightKey (sp.getBlkPrefixSyncKey false BlkType.beaconBlk 0 0) h)
      = false)
    (hpool : h ∉ GetBeaconPoolStateByHeight s) (hh : h + 1 < U64) :
    SyncBlkBeacon sp s cache now false false [] h h peerID
      = some (cache.Add (heightKey (sp.getBlkPrefixSyncKey false BlkType.beaconBlk 0 0) h) now
          sp.defaultMaxBlockSyncTime, [Push.GetBlockBeaconByHeight h h peerID]) := by
  have hheights : heightsOf h h = [h] := by
    unfold heightsOf
    have : h + 1 - h = 1 := by omega
    rw [this]
    rfl
  have hneed : heightNeeded (sp.getBlkPrefixSyncKey false BlkType.beaconBlk 0 0)
      (cache.Items now) (GetBeaconPoolStateByHeight s) h = true := by
    unfold heightNeeded
    simp [hpool, hfree]
  have hb : getBlkNeedToGetByHeight (sp.getBlkPrefixSyncKey false BlkType.beaconBlk 0 0) h h
      (cache.Items now) (GetBeaconPoolStateByHeight s) peerID = [(h, h)] := by
    unfold getBlkNeedToGetByHeight
    rw [hheights]
    simp [List.filter, hneed, runsOf]
  have hends : batchLoopEnds (h, h) = true := by
    unfold batchLoopEnds
    simp [hh]
  simp only [SyncBlkBeacon, Bool.false_eq_true, if_false, syncByHeight, hb, List.all_cons,
    hends, List.all_nil, Bool.and_self, if_true, batchHeights, List.map_cons, List.map_nil,
    hheights, List.flatten, List.append_nil, registerKeys, List.foldl_cons, List.foldl_nil]

/-- C15: let a request key be registered in `CurrentlySyncBlks` at time `T` (it was
not in flight then) with time-to-live `defaultMaxBlockSyncTime`, and let
`E = T + defaultMaxBlockSyncTime`. The key is in flight until `E`; it is among
`Items()` at every time before `E`, and a cycle run at a time before `E`
(`DeleteExpired`, then the `SyncBlk*` calls of `UpdateState`) pushes no message
that requests it and leaves it in flight until `E`. At every time `>= E` the key
is absent from `Items()` and gone after `DeleteExpired()`, and a by-height beacon
request for its height (not in the pool view) is pushed again and registers it
anew. -/
theorem inFlight_key_expiry_law (sp : SyncParams) (cache : SyncCache) (key : Bytes) (T : Nat)
    (hfree : (cache.Items T).has key = false) :
    inFlightUntil (cache.Add key T sp.defaultMaxBlockSyncTime) key
      (T + sp.defaultMaxBlockSyncTime) ∧
    (∀ c now, inFlightUntil c key (T + sp.defaultMaxBlockSyncTime) →
      now < T + sp.defaultMaxBlockSyncTime → (c.Items now).has key = true) ∧
    (∀ k bc s c now out, inFlightUntil c key (T + sp.defaultMaxBlockSyncTime) →
      now < T + sp.defaultMaxBlockSyncTime →
      UpdateStateWithCache k sp bc s c now = some out →
        (∀ p ∈ out.2.2, key ∉ Push.keys sp p) ∧
        inFlightUntil out.2.1 key (T + sp.defaultMaxBlockSyncTime)) ∧
    (∀ c now, inFlightUntil c key (T + sp.defaultMaxBlockSyncTime) →
      T + sp.defaultMaxBlockSyncTime ≤ now →
        (c.Items now).has key = false ∧ (c.DeleteExpired now).has key = false) ∧
    (∀ s c now h peerID,
      key = heightKey (sp.getBlkPrefixSyncKey false BlkType.beaconBlk 0 0) h →
      inFlightUntil c key (T + sp.defaultMaxBlockSyncTime) →
      T + sp.defaultMaxBlockSyncTime ≤ now →
      h ∉ GetBeaconPoolStateByHeight s → h + 1 < U64 →
        ∃ c1, SyncBlkBeacon sp s (c.DeleteExpired now) now false false [] h h peerID
            = some (c1, [Push.GetBlockBeaconByHeight h h peerID]) ∧
          inFlightUntil c1 key (now + sp.defaultMaxBlockSyncTime)) := by
  refine ⟨Add_registers cache key T _ hfree, ?_, ?_, ?_, ?_⟩
  · intro c now hin hnow
    exact inFlight_live c key _ now hin hnow
  · intro k bc s c now out hin hnow hout
    have := UpdateStateWithCache_inFlight k sp bc s c now key _ out hin hnow hout
    exact ⟨this.2, this.1⟩
  · intro c now hin hnow
    exact inFlight_expired c key _ now hin hnow
  · intro s c now h peerID hkey hin hnow hpool hh
    have hfree2 : ((c.DeleteExpired now).Items now).has key = false := by
      rw [Items_DeleteExpired]
      exact (inFlight_expired c key _ now hin hnow).1
    subst hkey
    exact ⟨_, SyncBlkBeacon_single_height sp s _ now h peerID hfree2 hpool hh,
      Add_registers _ _ now _ hfree2⟩

/-- Witness of C15: the key of beacon height 101 registered on an empty cache at
time 1000 with time-to-live 30 is among the items at time 1029 and absent at
time 1030. -/
theorem inFlight_key_expiry_law_witness :
    (SyncCache.Items
        (SyncCache.Add [] (heightKey (examplePrefix false BlkType.beaconBlk 0 0) 101) 1000 30)
        1029).has (heightKey (examplePrefix false BlkType.beaconBlk 0 0) 101) = true ∧
    (SyncCache.Items
        (SyncCache.Add [] (heightKey (examplePrefix false BlkType.beaconBlk 0 0) 101) 1000 30)
        1030).has (heightKey (examplePrefix false BlkType.beaconBlk 0 0) 101) = false := by
  have h := inFlight_key_expiry_law ⟨examplePrefix, 30⟩ []
    (heightKey (examplePrefix false BlkType.beaconBlk 0 0) 101) 1000 rfl
  exact ⟨h.2.1 _ 1029 h.1 (by decide), (h.2.2.2.1 _ 1030 h.1 (by decide)).1⟩

/-! ## Theorems: the redeem-request builder -/

end blockchain

namespace common

/-! ## Theorems: hashes -/

theorem list_of_length_32 {α : Type} (l : List α) (h : l.length = 32) :
    ∃ a0 a1 a2 a3 a4 a5 a6 a7 a8 a9 a10 a11 a12 a13 a14 a15 a16 a17 a18 a19 a20 a21 a22 a23 a24 a25 a26 a27 a28 a29 a30 a31 : α,
      l = [a0, a1, a2, a3, a4, a5, a6, a7, a8, a9, a10, a11, a12, a13, a14, a15, a16, a17, a18, a19, a20, a21, a22, a23, a24, a25, a26, a27, a28, a29, a30, a31] := by
  rcases l with _ | ⟨a0, l⟩
  · simp at h
  rcases l with _ | ⟨a1, l⟩
  · simp at h
  rcases l with _ | ⟨a2, l⟩
  · simp at h
  rcases l with _ | ⟨a3, l⟩
  · simp at h
  rcases l with _ | ⟨a4, l⟩
  · simp at h
  rcases l with _ | ⟨a5, l⟩
  · simp at h
  rcases l with _ | ⟨a6, l⟩
  · simp at h
  rcases l with _ | ⟨a7, l⟩
  · simp at h
  rcases l with _ | ⟨a8, l⟩
  · simp at h
  rcases l with _ | ⟨a9, l⟩
  · simp at h
  rcases l with _ | ⟨a10, l⟩
  · simp at h
  rcases l with _ | ⟨a11, l⟩
  · simp at h
  rcases l with _ | ⟨a12, l⟩
  · simp at h
  rcases l with _ | ⟨a13, l⟩
  · simp at h
  rcases l with _ | ⟨a14, l⟩
  · simp at h
  rcases l with _ | ⟨a15, l⟩
  · simp at h
  rcases l with _ | ⟨a16, l⟩
  · simp at h
  rcases l with _ | ⟨a17, l⟩
  · simp at h
  rcases l with _ | ⟨a18, l⟩
  · simp at h
  rcases l with _ | ⟨a19, l⟩
  · simp at h
  rcases l with _ | ⟨a20, l⟩
  · simp at h
  rcases l with _ | ⟨a21, l⟩
  · simp at h
  rcases l with _ | ⟨a22, l⟩
  · simp at h
  rcases l with _ | ⟨a23, l⟩
  · simp at h
  rcases l with _ | ⟨a24, l⟩
  · simp at h
  rcases l with _ | ⟨a25, l⟩
  · simp at h
  rcases l with _ | ⟨a26, l⟩
  · simp at h
  rcases l with _ | ⟨a27, l⟩
  · simp at h
  rcases l with _ | ⟨a28, l⟩
  · simp at h
  rcases l with _ | ⟨a29, l⟩
  · simp at h
  rcases l with _ | ⟨a30, l⟩
  · simp at h
  rcases l with _ | ⟨a31, l⟩
  · simp at h
  rcases l with _ | ⟨x, l⟩
  · exact ⟨a0, a1, a2, a3, a4, a5, a6, a7, a8, a9, a10, a11, a12, a13, a14, a15, a16, a17, a18, a19, a20, a21, a22, a23, a24, a25, a26, a27, a28, a29, a30, a31, rfl⟩
  · simp only [List.length_cons] at h
    omega
theorem swapEnds_fold_val (l : List Nat) (hash : Hash) :
    (l.foldl (fun h i => (h.set i (h.get (HashSize - 1 - i))).set (HashSize - 1 - i) (h.get i))
      hash).val
      = l.foldl (fun a i => (a.set i (a.getD (HashSize - 1 - i) 0)).set (HashSize - 1 - i)
          (a.getD i 0)) hash.val := by
  induction l generalizing hash with
  | nil => rfl
  | cons i t ih =>
    simp only [List.foldl_cons]
    rw [ih]
    rfl

theorem swap_list_32 (a0 a1 a2 a3 a4 a5 a6 a7 a8 a9 a10 a11 a12 a13 a14 a15 a16 a17 a18 a19 a20 a21 a22 a23 a24 a25 a26 a27 a28 a29 a30 a31 : Fin 256) :
    (List.range (HashSize / 2)).foldl
        (fun a i => (a.set i (a.getD (HashSize - 1 - i) 0)).set (HashSize - 1 - i) (a.getD i 0))
        [a0, a1, a2, a3, a4, a5, a6, a7, a8, a9, a10, a11, a12, a13, a14, a15, a16, a17, a18, a19, a20, a21, a22, a23, a24, a25, a26, a27, a28, a29, a30, a31]
      = [a31, a30, a29, a28, a27, a26, a25, a24, a23, a22, a21, a20, a19, a18, a17, a16, a15, a14, a13, a12, a11, a10, a9, a8, a7, a6, a5, a4, a3, a2, a1, a0] := by
  simp [HashSize, List.range, List.range.loop, List.set, List.getD]

theorem swapEnds_val (hash : Hash) : (Hash.swapEnds hash).val = hash.val.reverse := by
  unfold Hash.swapEnds
  rw [swapEnds_fold_val]
  obtain ⟨l, hl⟩ := hash
  obtain ⟨a0, a1, a2, a3, a4, a5, a6, a7, a8, a9, a10, a11, a12, a13, a14, a15, a16, a17, a18, a19, a20, a21, a22, a23, a24, a25, a26, a27, a28, a29, a30, a31, rfl⟩ := list_of_length_32 l hl
  rw [swap_list_32]
  simp

theorem reverseCopy_fold_val (l : List Nat) (dst reversedHash : Hash) :
    (l.foldl (fun d i => (d.set i (reversedHash.get (HashSize - 1 - i))).set (HashSize - 1 - i)
      (reversedHash.get i)) dst).val
      = l.foldl (fun d i => (d.set i (reversedHash.val.getD (HashSize - 1 - i) 0)).set
          (HashSize - 1 - i) (reversedHash.val.getD i 0)) dst.val := by
  induction l generalizing dst with
  | nil => rfl
  | cons i t ih =>
    simp only [List.foldl_cons]
    rw [ih]
    rfl

theorem reverseCopy_list_32 (a0 a1 a2 a3 a4 a5 a6 a7 a8 a9 a10 a11 a12 a13 a14 a15 a16 a17 a18 a19 a20 a21 a22 a23 a24 a25 a26 a27 a28 a29 a30 a31 b0 b1 b2 b3 b4 b5 b6 b7 b8 b9 b10 b11 b12 b13 b14 b15 b16 b17 b18 b19 b20 b21 b22 b23 b24 b25 b26 b27 b28 b29 b30 b31 : Fin 256) :
    (List.range (HashSize / 2)).foldl
        (fun d i => (d.set i (([a0, a1, a2, a3, a4, a5, a6, a7, a8, a9, a10, a11, a12, a13, a14, a15, a16, a17, a18, a19, a20, a21, a22, a23, a24, a25, a26, a27, a28, a29, a30, a31] : Bytes).getD (HashSize - 1 - i) 0)).set
          (HashSize - 1 - i) (([a0, a1, a2, a3, a4, a5, a6, a7, a8, a9, a10, a11, a12, a13, a14, a15, a16, a17, a18, a19, a20, a21, a22, a23, a24, a25, a26, a27, a28, a29, a30, a31] : Bytes).getD i 0))
        [b0, b1, b2, b3, b4, b5, b6, b7, b8, b9, b10, b11, b12, b13, b14, b15, b16, b17, b18, b19, b20, b21, b22, b23, b24, b25, b26, b27, b28, b29, b30, b31]
      = [a31, a30, a29, a28, a27, a26, a25, a24, a23, a22, a21, a20, a19, a18, a17, a16, a15, a14, a13, a12, a11, a10, a9, a8, a7, a6, a5, a4, a3, a2, a1, a0] := by
  simp [HashSize, List.range, List.range.loop, List.set, List.getD]

theorem reverseCopy_val (dst reversedHash : Hash) :
    (Hash.reverseCopy dst reversedHash).val = reversedHash.val.reverse := by
  unfold Hash.reverseCopy
  rw [reverseCopy_fold_val]
  obtain ⟨l, hl⟩ := reversedHash
  obtain ⟨d, hd⟩ := dst
  obtain ⟨a0, a1, a2, a3, a4, a5, a6, a7, a8, a9, a10, a11, a12, a13, a14, a15, a16, a17, a18, a19, a20, a21, a22, a23, a24, a25, a26, a27, a28, a29, a30, a31, rfl⟩ := list_of_length_32 l hl
  obtain ⟨b0, b1, b2, b3, b4, b5, b6, b7, b8, b9, b10, b11, b12, b13, b14, b15, b16, b17, b18, b19, b20, b21, b22, b23, b24, b25, b26, b27, b28, b29, b30, b31, rfl⟩ := list_of_length_32 d hd
  rw [reverseCopy_list_32]
  simp

theorem writeAt_fold_val (l : List (Nat × Fin 256)) (hash : Hash) :
    (l.foldl (fun h e => h.set e.1 e.2) hash).val
      = l.foldl (fun a e => a.set e.1 e.2) hash.val := by
  induction l generalizing hash with
  | nil => rfl
  | cons i t ih =>
    simp only [List.foldl_cons]
    rw [ih]
    rfl

theorem writeAt_zero_val (l : Bytes) (hl : l.length = 32) : (Hash.writeAt 0 l).val = l := by
  unfold Hash.writeAt
  rw [writeAt_fold_val]
  obtain ⟨a0, a1, a2, a3, a4, a5, a6, a7, a8, a9, a10, a11, a12, a13, a14, a15, a16, a17, a18, a19, a20, a21, a22, a23, a24, a25, a26, a27, a28, a29, a30, a31, rfl⟩ := list_of_length_32 l hl
  simp [Hash.zero, HashSize, List.enumFrom, List.replicate, List.set]

theorem fromHexChar_hextable :
    ∀ n, n < 16 → fromHexChar (hextable.getD n 0) = some n := by
  decide

theorem byte_of_nibbles (v : Fin 256) : Fin.ofNat (v.val / 16 * 16 + v.val % 16) = v := by
  apply Fin.ext
  simp only [Fin.ofNat, Fin.val_mk]
  have := v.isLt
  omega

theorem hexDecode_hexEncodeToString (l : Bytes) :
    hexDecode (hexEncodeToString l) = Except.ok l := by
  induction l with
  | nil => rfl
  | cons v t ih =>
    have h1 := fromHexChar_hextable (v.val / 16) (by have := v.isLt; omega)
    have h2 := fromHexChar_hextable (v.val % 16) (by omega)
    simp only [hexEncodeToString, hexDecode, h1, h2, ih, byte_of_nibbles]

theorem hexEncodeToString_length (l : Bytes) :
    (hexEncodeToString l).length = 2 * l.length := by
  induction l with
  | nil => rfl
  | cons v t ih => simp only [hexEncodeToString, List.length_cons, ih]; omega

theorem Decode_of_hex (dst : Hash) (src l : Bytes) (hl : l.length = 32)
    (hlen : src.length = 64) (hdec : hexDecode src = Except.ok l) :
    Hash.Decode dst src = (none, ⟨l.reverse, by rw [List.length_reverse, hl]; rfl⟩) := by
  have h1 : ¬ src.length > MaxHashStringSize := by rw [hlen]; decide
  have h2 : src.length % 2 = 0 := by rw [hlen]
  have hoff : HashSize - src.length / 2 = 0 := by rw [hlen]; rfl
  have hv : (Hash.reverseCopy dst (Hash.writeAt 0 l)).val = l.reverse := by
    rw [reverseCopy_val, writeAt_zero_val l hl]
  unfold Hash.Decode
  rw [if_neg h1]
  simp only [h2, if_true]
  rw [hdec]
  simp only [hoff]
  rw [Prod.mk.injEq]
  exact ⟨rfl, Subtype.ext hv⟩

/-- C19: for every 32-byte hash `h`, `h.String()` is the 64-character
hexadecimal encoding of the bytes of `h` in reversed order, `Decode(dst,
h.String())` returns no error and sets `dst` to `h` whatever `dst` held, and
`NewHashFromStr(h.String())` returns `h` for every receiver. -/
theorem Decode_String_roundtrip (h : Hash) :
    (Hash.String h).length = 64 ∧
    Hash.String h = hexEncodeToString h.val.reverse ∧
    (∀ dst, Hash.Decode dst (Hash.String h) = (none, h)) ∧
    (∀ self, Hash.NewHashFromStr self (Hash.String h) = Except.ok h) := by
  have hstr : Hash.String h = hexEncodeToString h.val.reverse := by
    unfold Hash.String
    rw [swapEnds_val]
  have hrl : h.val.reverse.length = 32 := by
    rw [List.length_reverse, h.property]; rfl
  have hlen : (Hash.String h).length = 64 := by
    rw [hstr, hexEncodeToString_length, hrl]
  have hdec : ∀ dst, Hash.Decode dst (Hash.String h) = (none, h) := by
    intro dst
    rw [Decode_of_hex dst (Hash.String h) h.val.reverse hrl hlen
      (by rw [hstr]; exact hexDecode_hexEncodeToString _)]
    rw [Prod.mk.injEq]
    exact ⟨rfl, Subtype.ext (List.reverse_reverse h.val)⟩
  refine ⟨hlen, hstr, hdec, ?_⟩
  intro self
  unfold Hash.NewHashFromStr
  rw [hdec self]

/-- C20 (the code at the failing input): for a slice `b` of length 32
`BytesToHash(b)` has exactly the bytes of `b`; for every other length, longer
slices included, `SetBytes` returns its length error without copying and
`BytesToHash(b)` is the zero hash. For the 33 bytes 1, 2, 2, ..., 2 the result is
32 zero bytes, not the last 32 bytes of `b`. -/
theorem BytesToHash_longer_slice_gives_zero_hash :
    (∀ self b, b.length = 32 → (Hash.BytesToHash self b).val = b) ∧
    (∀ self b, b.length ≠ 32 → Hash.BytesToHash self b = Hash.zero) ∧
    (Hash.BytesToHash Hash.zero (1 :: List.replicate 32 2)).val = List.replicate 32 0 ∧
    (Hash.BytesToHash Hash.zero (1 :: List.replicate 32 2)).val
      ≠ (1 :: List.replicate 32 (2 : Fin 256)).drop 1 := by
  refine ⟨?_, ?_, ?_, ?_⟩
  · intro self b hb
    have : ¬ b.length ≠ HashSize := by simpa [HashSize] using hb
    simp [Hash.BytesToHash, Hash.SetBytes, this]
  · intro self b hb
    have : b.length ≠ HashSize := by simpa [HashSize] using hb
    simp [Hash.BytesToHash, Hash.SetBytes, this]
  · decide
  · decide

/-- C21 (the code at the failing input): `Compare` returns 0 for every pair of
hashes, equal or not. For the hash `Hash.one` and the zero hash, which differ
(in either order), it returns 0 and neither 1 nor -1. -/
theorem Compare_returns_zero_for_distinct_hashes :
    (∀ a b : Hash, Hash.Compare a b = 0) ∧
    Hash.one ≠ Hash.zero ∧
    Hash.Compare Hash.one Hash.zero = 0 ∧
    Hash.Compare Hash.zero Hash.one = 0 := by
  refine ⟨fun _ _ => rfl, by decide, rfl, rfl⟩

end common

namespace blockchain

open common

/-! ## Theorems: batch identifiers -/

theorem NewHash_of_length (self : Hash) (b : Bytes) (hb : b.length = 32) :
    ∃ h : Hash, Hash.NewHash self b = Except.ok h ∧ h.val = b := by
  have hn : ¬ b.length ≠ HashSize := by simpa [HashSize] using hb
  refine ⟨⟨b, by simpa [HashSize] using hb⟩, ?_, rfl⟩
  simp [Hash.NewHash, Hash.SetBytes, hn]

theorem NewHash_of_other_length (self : Hash) (b : Bytes) (hb : b.length ≠ 32) :
    Hash.NewHash self b = Except.error (HashError.invalidHashLength b.length) := by
  have hn : b.length ≠ HashSize := by simpa [HashSize] using hb
  simp [Hash.NewHash, Hash.SetBytes, hn]

/-- C30: `getBatchID(beaconHeight, txHashStr)` returns a value exactly when the
decimal digits of `beaconHeight` followed by `txHashStr` are 32 bytes, and the
value is then the hexadecimal string of those 32 bytes in reversed order; for
every other total length `NewHash` fails and the call panics on the nil hash.
With height 12 and thirty bytes `7` the result is sixty characters `0`, `7`
followed by `3231`; with height 12 and an empty string the call panics. -/
theorem getBatchID_defined_iff_32_bytes :
    (∀ beaconHeight txHashStr, (fmtUint64 beaconHeight ++ txHashStr).length = 32 →
      getBatchID beaconHeight txHashStr
        = some (common.hexEncodeToString (fmtUint64 beaconHeight ++ txHashStr).reverse)) ∧
    (∀ beaconHeight txHashStr, (fmtUint64 beaconHeight ++ txHashStr).length ≠ 32 →
      getBatchID beaconHeight txHashStr = none) ∧
    (∀ beaconHeight txHashStr, (getBatchID beaconHeight txHashStr).isSome = true ↔
      (fmtUint64 beaconHeight ++ txHashStr).length = 32) ∧
    getBatchID 12 (List.replicate 30 7)
      = some ((List.replicate 30 [48, 55]).flatten ++ [51, 50, 51, 49]) ∧
    getBatchID 12 [] = none := by
  have h1 : ∀ beaconHeight txHashStr, (fmtUint64 beaconHeight ++ txHashStr).length = 32 →
      getBatchID beaconHeight txHashStr
        = some (common.hexEncodeToString (fmtUint64 beaconHeight ++ txHashStr).reverse) := by
    intro beaconHeight txHashStr hlen
    obtain ⟨h, hh, hv⟩ := NewHash_of_length Hash.zero _ hlen
    unfold getBatchID
    simp only [hh]
    unfold Hash.String
    rw [common.swapEnds_val, hv]
  have h2 : ∀ beaconHeight txHashStr, (fmtUint64 beaconHeight ++ txHashStr).length ≠ 32 →
      getBatchID beaconHeight txHashStr = none := by
    intro beaconHeight txHashStr hlen
    unfold getBatchID
    simp only [NewHash_of_other_length Hash.zero _ hlen]
  refine ⟨h1, h2, ?_, ?_, ?_⟩
  · intro beaconHeight txHashStr
    by_cases hlen : (fmtUint64 beaconHeight ++ txHashStr).length = 32
    · rw [h1 _ _ hlen]
      exact ⟨fun _ => hlen, fun _ => rfl⟩
    · rw [h2 _ _ hlen]
      exact ⟨fun h => by simp at h, fun h => absurd h hlen⟩
  · rw [h1 12 _ (by decide)]
    decide
  · exact h2 12 [] (by decide)

/-! ## Theorems: the ranges carved in one cycle -/

theorem u64_span (cur P : Nat) (hP : 1 ≤ P) (h : cur + P ≤ U64) :
    u64sub (u64add cur P) 1 = cur + P - 1 := by
  unfold U64 at h
  simp only [u64add, u64sub, U64]
  omega

theorem u64add_small (a b : Nat) (h : a + b < U64) : u64add a b = a + b := by
  unfold U64 at h
  simp only [u64add, U64]
  omega

theorem beaconRange_of_not_beacon (c : Call) (h : c.isBeacon = false) :
    c.beaconRange = none := by
  cases c <;> simp [Call.isBeacon] at h <;> rfl

theorem beaconRanges_eq_nil (l : List Call) (h : ∀ c ∈ l, c.isBeacon = false) :
    beaconRanges l = [] := by
  unfold beaconRanges
  rw [List.filterMap_eq_nil_iff]
  intro c hc
  exact beaconRange_of_not_beacon c (h c hc)

theorem inRanges_cons (a : Nat × Nat) (l : List (Nat × Nat)) (h : Nat) :
    inRanges (a :: l) h ↔ (a.1 ≤ h ∧ h ≤ a.2) ∨ inRanges l h := by
  simp [inRanges]

theorem inRanges_nil (h : Nat) : ¬ inRanges [] h := by
  simp [inRanges]

/-- The beacon carving loop started at a cursor `cur ≤ T` on a non-empty peer
list, when `T + defaultMaxBlkReqPerPeer` does not overflow: the first range
starts at `cur`, no later range leaves a gap, and the heights covered are those
of `[cur, T]` up to `cur + n * (defaultMaxBlkReqPerPeer - 1)`. -/
theorem carveBeacon_cover (k : Consts) (T : Nat) (hP : 1 ≤ k.defaultMaxBlkReqPerPeer)
    (hw : T + k.defaultMaxBlkReqPerPeer ≤ U64) :
    ∀ (peers : List (PeerID × peerState)) (cur : Nat), cur ≤ T → peers ≠ [] →
      (∃ e t, beaconRanges (carveBeacon k T cur peers) = (cur, e) :: t) ∧
      noGap (beaconRanges (carveBeacon k T cur peers)) ∧
      ∀ h, inRanges (beaconRanges (carveBeacon k T cur peers)) h ↔
        cur ≤ h ∧ h ≤ T ∧ h ≤ cur + peers.length * (k.defaultMaxBlkReqPerPeer - 1) := by
  intro peers
  induction peers with
  | nil => intro cur _ h; exact absurd rfl h
  | cons e es ih =>
    intro cur hcur _
    have hspan := u64_span cur k.defaultMaxBlkReqPerPeer hP (by omega)
    unfold carveBeacon
    rw [hspan]
    by_cases hge : cur + k.defaultMaxBlkReqPerPeer - 1 ≥ T
    · rw [if_pos hge]
      have hr : beaconRanges [Call.SyncBlkBeacon false false [] cur T e.1] = [(cur, T)] := rfl
      rw [hr]
      refine ⟨⟨T, [], rfl⟩, trivial, ?_⟩
      intro h
      rw [inRanges_cons]
      simp only [inRanges_nil, or_false, List.length_cons, Nat.succ_mul]
      generalize es.length * (k.defaultMaxBlkReqPerPeer - 1) = q
      omega
    · rw [if_neg hge]
      have hlt : cur + k.defaultMaxBlkReqPerPeer - 1 < T := Nat.lt_of_not_ge hge
      have hadd : u64add cur (k.defaultMaxBlkReqPerPeer - 1)
          = cur + k.defaultMaxBlkReqPerPeer - 1 := by
        rw [u64add_small _ _ (by omega)]
        omega
      rw [hadd]
      have hr : ∀ rest, beaconRanges
          (Call.SyncBlkBeacon false false [] cur (cur + k.defaultMaxBlkReqPerPeer - 1) e.1
            :: rest)
          = (cur, cur + k.defaultMaxBlkReqPerPeer - 1) :: beaconRanges rest := fun _ => rfl
      rw [hr]
      cases es with
      | nil =>
        have hnil : beaconRanges (carveBeacon k T (cur + k.defaultMaxBlkReqPerPeer - 1) [])
            = [] := rfl
        rw [hnil]
        refine ⟨⟨_, [], rfl⟩, trivial, ?_⟩
        intro h
        rw [inRanges_cons]
        simp only [inRanges_nil, or_false, List.length_cons, List.length_nil]
        omega
      | cons e2 es2 =>
        obtain ⟨⟨e3, t, hhead⟩, hgap, hin⟩ :=
          ih (cur + k.defaultMaxBlkReqPerPeer - 1) (by omega) (by simp)
        refine ⟨⟨_, _, rfl⟩, ?_, ?_⟩
        · rw [hhead] at hgap ⊢
          exact ⟨by simp, hgap⟩
        · intro h
          rw [inRanges_cons, hin h]
          simp only [List.length_cons, Nat.succ_mul]
          generalize es2.length * (k.defaultMaxBlkReqPerPeer - 1) = q
          omega

/-- C22 (as amended): in a cycle on `n >= 1` peers with
`defaultMaxBlkReqPerPeer >= 1`, whenever the clamped beacon target `T` is above
the local height `L` and `T + defaultMaxBlkReqPerPeer` does not overflow
`uint64`, the ranges passed to `SyncBlkBeacon` start at `L + 1`, each later range
starts no higher than the end of the previous one plus one, and a height lies in
one of them exactly when it lies in
`[L + 1, min(T, L + 1 + n * (defaultMaxBlkReqPerPeer - 1))]`. The cycle returns
when no peer has a nil `Beacon` or a nil cross-shard pool entry. -/
theorem UpdateState_beacon_ranges_cover (k : Consts) (bc : BlockChain) (s : synker)
    (hn : 1 ≤ s.States.PeersState.length) (hP : 1 ≤ k.defaultMaxBlkReqPerPeer) :
    ((∀ e ∈ s.States.PeersState, e.2.Beacon ≠ none) →
      (∀ e ∈ s.States.PeersState, crossShardPoolNonNil e.2) →
        ∃ r, UpdateState k bc s = some r) ∧
    ∀ r, UpdateState k bc s = some r →
      bc.BeaconHeight < r.RCS.ClosestBeaconState.Height →
      r.RCS.ClosestBeaconState.Height + k.defaultMaxBlkReqPerPeer ≤ U64 →
        (∃ e t, beaconRanges r.calls = (bc.BeaconHeight + 1, e) :: t) ∧
        noGap (beaconRanges r.calls) ∧
        ∀ h, inRanges (beaconRanges r.calls) h ↔
          bc.BeaconHeight + 1 ≤ h ∧
            h ≤ min r.RCS.ClosestBeaconState.Height
              (bc.BeaconHeight + 1
                + s.States.PeersState.length * (k.defaultMaxBlkReqPerPeer - 1)) := by
  refine ⟨UpdateState_returns k bc s, ?_⟩
  intro r hr hT hw
  obtain ⟨rcs0, _, hcalls, hrcs⟩ := UpdateState_unfold k bc s r hr
  have hTeq : r.RCS.ClosestBeaconState.Height
      = (clampBeacon k bc rcs0).ClosestBeaconState.Height := by
    rw [hrcs, (shardRequests_beacon k bc _ _ _).1]
  have hranges : beaconRanges r.calls
      = beaconRanges (carveBeacon k r.RCS.ClosestBeaconState.Height (bc.BeaconHeight + 1)
          s.States.PeersState) := by
    rw [hcalls, hTeq]
    unfold beaconRanges
    rw [List.filterMap_append, List.filterMap_append]
    have h1 := beaconRanges_eq_nil _
      (fun c hc => (poolRequests_kind k bc (userRoles bc)
        (setReadiness bc (userRoles bc) rcs0 (cycleStart k bc s)) (clampBeacon k bc rcs0) c
        hc).1)
    have h2 := beaconRanges_eq_nil _ (shardRequests_beacon k bc s.States.PeersState
      (clampBeacon k bc rcs0) (cycleStart k bc s).Status.Shards).2
    unfold beaconRanges at h1 h2
    rw [h1, h2, List.append_nil, List.append_nil, u64add_small _ _ (by omega)]
  have hne : s.States.PeersState ≠ [] := by
    intro h0
    rw [h0] at hn
    simp at hn
  obtain ⟨h1, h2, h3⟩ := carveBeacon_cover k r.RCS.ClosestBeaconState.Height hP hw
    s.States.PeersState (bc.BeaconHeight + 1) (by omega) hne
  rw [hranges]
  refine ⟨h1, h2, ?_⟩
  intro h
  rw [h3 h, Nat.le_min]

/-- Witness of C22: local beacon height 100, three peers at beacon height 110,
`defaultMaxBlkReqPerPeer = 3`: the ranges are (101, 103), (103, 105), (105, 107)
and cover exactly the heights 101 to 107. -/
theorem UpdateState_beacon_ranges_cover_witness :
    ∃ r, UpdateState ⟨3, 1200, 8⟩
        (mkChain NodeMode.NODEMODE_AUTO [] Role.other 0 Role.other 100 10 5)
        (mkSynker [] [mkPeer 1 110 [], mkPeer 2 110 [], mkPeer 3 110 []]) = some r ∧
      noGap (beaconRanges r.calls) ∧
      ∀ h, inRanges (beaconRanges r.calls) h ↔ 101 ≤ h ∧ h ≤ 107 := by
  have h := UpdateState_beacon_ranges_cover ⟨3, 1200, 8⟩
    (mkChain NodeMode.NODEMODE_AUTO [] Role.other 0 Role.other 100 10 5)
    (mkSynker [] [mkPeer 1 110 [], mkPeer 2 110 [], mkPeer 3 110 []]) (by decide) (by decide)
  obtain ⟨r, hr⟩ := h.1 (by simp [mkSynker, mkPeer])
    (by simp [mkSynker, mkPeer, crossShardPoolNonNil])
  have hT : (UpdateState ⟨3, 1200, 8⟩
        (mkChain NodeMode.NODEMODE_AUTO [] Role.other 0 Role.other 100 10 5)
        (mkSynker [] [mkPeer 1 110 [], mkPeer 2 110 [], mkPeer 3 110 []])).map
      (fun r0 => r0.RCS.ClosestBeaconState.Height) = some 110 := by decide
  rw [hr] at hT
  simp only [Option.map_some', Option.some.injEq] at hT
  obtain ⟨_, h2, h3⟩ := h.2 r hr (by rw [hT]; decide) (by rw [hT]; decide)
  refine ⟨r, hr, h2, ?_⟩
  intro x
  rw [h3 x, hT]
  simp only [mkChain, mkSynker, List.length_cons, List.length_nil]
  omega

/-- Counterexample to C22 as stated: local beacon height `L = 2 ^ 64 - 5`, three
peers at beacon height `2 ^ 64 - 1`, `defaultMaxBlkReqPerPeer = 3` and
`defaultMaxBlkReqPerTime = 4`. The clamped target is `T = 2 ^ 64 - 1 > L`, the sum
`currentBcnReqHeight + defaultMaxBlkReqPerPeer - 1` wraps in `uint64`, and the
ranges passed to `SyncBlkBeacon` are `(L + 1, L + 3)`, `(L + 3, 0)` and `(0, 2)`:
the third starts above the end of the second plus one, the height 1 is in a
range but not in `[L + 1, T]`, and the height `T` is in no range. -/
theorem UpdateState_beacon_ranges_wrap :
    (UpdateState ⟨3, 4, 8⟩
        (mkChain NodeMode.NODEMODE_AUTO [] Role.other 0 Role.other 18446744073709551611 10 5)
        (mkSynker [] [mkPeer 1 18446744073709551615 [], mkPeer 2 18446744073709551615 [],
          mkPeer 3 18446744073709551615 []])).map
      (fun r => (r.RCS.ClosestBeaconState.Height, beaconRanges r.calls))
      = some (18446744073709551615,
          [(18446744073709551612, 18446744073709551614), (18446744073709551614, 0), (0, 2)]) ∧
    inRanges [(18446744073709551612, 18446744073709551614), (18446744073709551614, 0), (0, 2)]
      1 ∧
    ¬ inRanges [(18446744073709551612, 18446744073709551614), (18446744073709551614, 0), (0, 2)]
      18446744073709551615 ∧
    18446744073709551615 ≤ min 18446744073709551615 (18446744073709551611 + 1 + 3 * (3 - 1)) := by
  refine ⟨by decide, ?_, ?_, by decide⟩
  · simp [inRanges]
  · simp [inRanges]

/-- C23 (the code at the failing input): local beacon height 100, shard 0 in the
syncing set at local height 10, three peers at beacon height 110 and shard
height 20, `defaultMaxBlkReqPerPeer = 3`. The ranges passed to `SyncBlkBeacon`
are (101, 103), (103, 105), (105, 107) and those passed to `SyncBlkShard` for
shard 0 are (11, 13), (13, 15), (15, 17): each later range starts at the end of
the previous one, not after it, so the heights 103, 105, 13 and 15 are each in
the ranges of two peers. With the in-flight cache the messages pushed in that
cycle carry the heights 101-103, 104-105, 106-107 and 11-13, 14-15, 16-17. -/
theorem UpdateState_successive_ranges_share_endpoint :
    (UpdateState ⟨3, 1200, 8⟩
        (mkChain NodeMode.NODEMODE_AUTO [0] Role.other 0 Role.other 100 10 5)
        (mkSynker [0] [mkPeer 1 110 [(0, 20)], mkPeer 2 110 [(0, 20)],
          mkPeer 3 110 [(0, 20)]])).map
      (fun r => (beaconRanges r.calls, shardRanges 0 r.calls))
      = some ([(101, 103), (103, 105), (105, 107)], [(11, 13), (13, 15), (15, 17)]) ∧
    ¬ startsAfterPrevious [(101, 103), (103, 105), (105, 107)] ∧
    ¬ startsAfterPrevious [(11, 13), (13, 15), (15, 17)] ∧
    (UpdateStateWithCache ⟨3, 1200, 8⟩ ⟨examplePrefix, 30⟩
        (mkChain NodeMode.NODEMODE_AUTO [0] Role.other 0 Role.other 100 10 5)
        (mkSynker [0] [mkPeer 1 110 [(0, 20)], mkPeer 2 110 [(0, 20)],
          mkPeer 3 110 [(0, 20)]]) [] 1000).map
      (fun out => out.2.2.map Push.heights)
      = some [[101, 102, 103], [104, 105], [106, 107], [11, 12, 13], [14, 15], [16, 17]] := by
  refine ⟨by decide, ?_, ?_, by decide⟩
  · simp [startsAfterPrevious]
  · simp [startsAfterPrevious]

/-- C24 (the code at the failing input): a beacon proposer in mode AUTO at
beacon height 100 whose beacon view of shard 1 is 5, and three peers at beacon
height 100 that report shard 1 at height 9, with `defaultMaxBlkReqPerPeer = 600`.
The beacon flag is true, the target of shard 1 is 9, and the loop of lines
323-332 calls `SyncBlkShardToBeacon` with the range (6, 9), which ends at the
target, for peer 1 and then again for peer 2 and for peer 3. -/
theorem UpdateState_shardToBeacon_carving_goes_on_after_target :
    (UpdateState ⟨600, 1200, 8⟩
        (mkChain NodeMode.NODEMODE_AUTO [] Role.PROPOSER_ROLE 0 Role.other 100 10 5)
        (mkSynker [] [mkPeer 1 100 [(1, 9)], mkPeer 2 100 [(1, 9)], mkPeer 3 100 [(1, 9)]])).map
      (fun r => ((r.RCS.ClosestShardsState 1).Height, IsLatest r.state false 0,
        r.calls.filterMap (Call.shardToBeaconRange 1)))
      = some (9, true, [(1, 6, 9), (2, 6, 9), (3, 6, 9)]) := by
  decide

/-- Counterexample to C27 as stated. A beacon proposer in mode AUTO that syncs
shard 0 (local height 10, beacon view 5) meets two peers at the local beacon
height 100, peer 1 reporting shard 0 at height 10 and peer 2 at height 15:
visited in the order peer 1, peer 2 the target height of shard 0 after the peer
scan is 15, in the order peer 2, peer 1 it is 10. A node without committee role
that syncs shard 0 meets two peers that both report shard 0 at height 15, with
block hashes `Hash.one` and `Hash.zero`: the target height is 15 in both orders
and the block hash of the target is that of the peer visited first. -/
theorem peerScan_shard_target_depends_on_peer_order :
    (peerScan ⟨600, 1200, 8⟩
        (mkChain NodeMode.NODEMODE_AUTO [0] Role.PROPOSER_ROLE 0 Role.other 100 10 5)
        (mkSynker [0] [mkPeer 1 100 [(0, 10)], mkPeer 2 100 [(0, 15)]])).map
      (fun rcs => (rcs.ClosestShardsState 0).Height) = some 15 ∧
    (peerScan ⟨600, 1200, 8⟩
        (mkChain NodeMode.NODEMODE_AUTO [0] Role.PROPOSER_ROLE 0 Role.other 100 10 5)
        (mkSynker [0] [mkPeer 2 100 [(0, 15)], mkPeer 1 100 [(0, 10)]])).map
      (fun rcs => (rcs.ClosestShardsState 0).Height) = some 10 ∧
    (peerScan ⟨600, 1200, 8⟩
        (mkChain NodeMode.NODEMODE_AUTO [0] Role.other 0 Role.other 100 10 5)
        (mkSynker [0] [mkForkPeer 1 100 0 15 Hash.one, mkForkPeer 2 100 0 15 Hash.zero])).map
      (fun rcs => rcs.ClosestShardsState 0) = some ⟨15, Hash.one, Hash.zero⟩ ∧
    (peerScan ⟨600, 1200, 8⟩
        (mkChain NodeMode.NODEMODE_AUTO [0] Role.other 0 Role.other 100 10 5)
        (mkSynker [0] [mkForkPeer 2 100 0 15 Hash.zero, mkForkPeer 1 100 0 15 Hash.one])).map
      (fun rcs => rcs.ClosestShardsState 0) = some ⟨15, Hash.zero, Hash.zero⟩ := by
  refine ⟨by decide, by decide, by decide, by decide⟩

/-! ## Theorems: the readiness flags gate the pool requests -/

theorem carveBeacon_not_pool (k : Consts) (target cur : Nat)
    (peers : List (PeerID × peerState)) (c : Call)
    (h : c ∈ carveBeacon k target cur peers) :
    c.isShardToBeacon = false ∧ c.isCrossShard = false := by
  induction peers generalizing cur with
  | nil => simp [carveBeacon] at h
  | cons e es ih =>
    unfold carveBeacon at h
    split at h
    · simp only [List.mem_singleton] at h
      subst h; exact ⟨rfl, rfl⟩
    · rcases List.mem_cons.mp h with h1 | h1
      · subst h1; exact ⟨rfl, rfl⟩
      · exact ih _ h1

theorem carveShard_not_pool (k : Consts) (shardID target cur : Nat)
    (peers : List (PeerID × peerState)) (c : Call)
    (h : c ∈ carveShard k shardID target cur peers) :
    c.isShardToBeacon = false ∧ c.isCrossShard = false := by
  induction peers generalizing cur with
  | nil => simp [carveShard] at h
  | cons e es ih =>
    unfold carveShard at h
    split at h
    · split at h
      · split at h
        · simp only [List.mem_singleton] at h
          subst h; exact ⟨rfl, rfl⟩
        · rcases List.mem_cons.mp h with h1 | h1
          · subst h1; exact ⟨rfl, rfl⟩
          · exact ih _ h1
      · exact ih _ h
    · exact ih _ h

theorem shardRequests_not_pool (k : Consts) (bc : BlockChain)
    (peers : List (PeerID × peerState)) (rcs : reportedChainState) (shards : List Nat) :
    ∀ c ∈ (shardRequests k bc peers rcs shards).2,
      c.isShardToBeacon = false ∧ c.isCrossShard = false := by
  induction shards generalizing rcs with
  | nil => simp [shardRequests]
  | cons a t ih =>
    unfold shardRequests
    simp only []
    intro c hc
    rcases List.mem_append.mp hc with h1 | h1
    · exact carveShard_not_pool _ _ _ _ _ _ h1
    · exact ih (clampShard k bc rcs a) c h1

theorem carveShardToBeacon_not_cross (k : Consts) (shardID target cur : Nat)
    (peers : List (PeerID × peerState)) (c : Call)
    (h : c ∈ carveShardToBeacon k shardID target cur peers) : c.isCrossShard = false := by
  induction peers generalizing cur with
  | nil => simp [carveShardToBeacon] at h
  | cons e es ih =>
    unfold carveShardToBeacon at h
    split at h
    · split at h
      · rcases List.mem_cons.mp h with h1 | h1
        · subst h1; rfl
        · exact ih _ h1
      · rcases List.mem_cons.mp h with h1 | h1
        · subst h1; rfl
        · exact ih _ h1
    · exact ih _ h

/-- A call made by the pool-request step needs the beacon flag, and a
`SyncBlkCrossShard` call needs the flag of the own shard and a shard-level role
PROPOSER or VALIDATOR as well. -/
theorem poolRequests_gated (k : Consts) (bc : BlockChain) (u : UserRoles) (s : synker)
    (rcs : reportedChainState) (c : Call) (h : c ∈ poolRequests k bc u s rcs) :
    IsLatest s false 0 = true ∧
    (c.isCrossShard = true →
      IsLatest s true u.userShardID = true ∧
        (u.userShardRole = Role.PROPOSER_ROLE ∨ u.userShardRole = Role.VALIDATOR_ROLE)) := by
  have hS2B : ∀ c0, c0 ∈ specificHeightCalls
        (fun shardID peerID blks =>
          Call.SyncBlkShardToBeacon shardID false true true [] blks 0 0 peerID)
        rcs.ShardToBeaconBlks
      ++ ((List.range k.MAX_SHARD_NUMBER).map (fun shardID =>
        if bc.GetBestHeightOfShard shardID < (rcs.ClosestShardsState shardID).Height then
          carveShardToBeacon k shardID (rcs.ClosestShardsState shardID).Height
            (u64add (bc.GetBestHeightOfShard shardID) 1) s.States.PeersState
        else [])).flatten → c0.isCrossShard = false := by
    intro c0 h0
    rcases List.mem_append.mp h0 with h1 | h1
    · obtain ⟨a, b, d, rfl⟩ := specificHeightCalls_mem _ _ _ h1
      rfl
    · simp only [List.mem_flatten, List.mem_map] at h1
      obtain ⟨l, ⟨sid, _, rfl⟩, hc⟩ := h1
      split at hc
      · exact carveShardToBeacon_not_cross _ _ _ _ _ _ hc
      · simp at hc
  unfold poolRequests at h
  split at h
  · rename_i hlat
    refine ⟨hlat, ?_⟩
    intro hcross
    split at h
    · split at h
      · rw [hS2B c h] at hcross
        simp at hcross
      · simp at h
    · split at h
      · rw [hS2B c h] at hcross
        simp at hcross
      · simp at h
    · split at h
      · rename_i hcond
        split at h
        · rename_i hsh
          exact ⟨hsh, hcond.2⟩
        · simp at h
      · simp at h
    · simp at h
  · simp at h

theorem IsLatest_congr (s1 s2 : synker) (h : s1.Status.IsLatest = s2.Status.IsLatest)
    (shard : Bool) (shardID : Nat) : IsLatest s1 shard shardID = IsLatest s2 shard shardID := by
  unfold IsLatest
  rw [h]

/-- C25: in every cycle that returns, if the beacon flag is false after the
readiness step then no `SyncBlkShardToBeacon` and no `SyncBlkCrossShard` call is
made, and every `SyncBlkCrossShard` call made needs the beacon flag true, the
flag of the user's own shard true, and the user's shard-level role PROPOSER or
VALIDATOR. The cycle returns when no peer has a nil `Beacon` or a nil
cross-shard pool entry. -/
theorem UpdateState_pool_requests_gated (k : Consts) (bc : BlockChain) (s : synker) :
    ((∀ e ∈ s.States.PeersState, e.2.Beacon ≠ none) →
      (∀ e ∈ s.States.PeersState, crossShardPoolNonNil e.2) →
        ∃ r, UpdateState k bc s = some r) ∧
    ∀ r, UpdateState k bc s = some r →
      (IsLatest r.state false 0 = false →
        ∀ c ∈ r.calls, c.isShardToBeacon = false ∧ c.isCrossShard = false) ∧
      (∀ c ∈ r.calls, c.isCrossShard = true →
        IsLatest r.state false 0 = true ∧
        IsLatest r.state true (userRoles bc).userShardID = true ∧
        ((userRoles bc).userShardRole = Role.PROPOSER_ROLE ∨
          (userRoles bc).userShardRole = Role.VALIDATOR_ROLE)) := by
  refine ⟨UpdateState_returns k bc s, ?_⟩
  intro r hr
  obtain ⟨rcs0, hscan, hcalls, _⟩ := UpdateState_unfold k bc s r hr
  obtain ⟨rcs1, hscan1, hflags⟩ := UpdateState_flags k bc s r hr
  rw [hscan] at hscan1
  simp only [Option.some.injEq] at hscan1
  subst hscan1
  have hIs := IsLatest_congr _ _ hflags
  have hmem : ∀ c ∈ r.calls,
      (c.isShardToBeacon = false ∧ c.isCrossShard = false) ∨
        c ∈ poolRequests k bc (userRoles bc)
          (setReadiness bc (userRoles bc) rcs0 (cycleStart k bc s)) (clampBeacon k bc rcs0) := by
    intro c hc
    rw [hcalls] at hc
    rcases List.mem_append.mp hc with h1 | h1
    · rcases List.mem_append.mp h1 with h2 | h2
      · exact Or.inl (carveBeacon_not_pool _ _ _ _ _ h2)
      · exact Or.inr h2
    · exact Or.inl (shardRequests_not_pool _ _ _ _ _ c h1)
  refine ⟨?_, ?_⟩
  · intro hfalse c hc
    rcases hmem c hc with h1 | h1
    · exact h1
    · have := (poolRequests_gated _ _ _ _ _ _ h1).1
      rw [← hIs, hfalse] at this
      simp at this
  · intro c hc hcross
    rcases hmem c hc with h1 | h1
    · rw [h1.2] at hcross
      simp at hcross
    · obtain ⟨h2, h3⟩ := poolRequests_gated _ _ _ _ _ _ h1
      obtain ⟨h4, h5⟩ := h3 hcross
      rw [hIs, hIs]
      exact ⟨h2, h4, h5⟩

/-! ## Theorems: the peer visiting order -/

theorem stepShardHeight_idem (Ls B c h : Nat) :
    stepShardHeight Ls B (stepShardHeight Ls B c h) h = stepShardHeight Ls B c h := by
  simp only [stepShardHeight]
  split_ifs <;> omega

theorem stepShardHeight_comm (Ls B c a b : Nat) :
    stepShardHeight Ls B (stepShardHeight Ls B c a) b
      = stepShardHeight Ls B (stepShardHeight Ls B c b) a := by
  simp only [stepShardHeight]
  split_ifs <;> omega

theorem shardStep_idem (bc : BlockChain) (ps : peerState) (x c : Nat) :
    shardStep bc ps x (shardStep bc ps x c) = shardStep bc ps x c := by
  unfold shardStep
  cases ps.Shard.lookup x with
  | none => rfl
  | some st => exact stepShardHeight_idem _ _ _ _

theorem shardStep_comm (bc : BlockChain) (p1 p2 : peerState) (x c : Nat) :
    shardStep bc p2 x (shardStep bc p1 x c) = shardStep bc p1 x (shardStep bc p2 x c) := by
  unfold shardStep
  cases p1.Shard.lookup x with
  | none => rfl
  | some st1 =>
    cases p2.Shard.lookup x with
    | none => rfl
    | some st2 => exact stepShardHeight_comm _ _ _ _ _

theorem scanSyncingShard_height (bc : BlockChain) (ps : peerState) (rcs : reportedChainState)
    (a x : Nat) :
    ((scanSyncingShard bc ps rcs a).ClosestShardsState x).Height
      = if a = x then shardStep bc ps x (rcs.ClosestShardsState x).Height
        else (rcs.ClosestShardsState x).Height := by
  by_cases hax : a = x
  · subst hax
    simp only [if_true]
    unfold scanSyncingShard shardStep stepShardHeight
    cases ps.Shard.lookup a with
    | none => rfl
    | some st =>
      simp only []
      split_ifs <;> simp_all [setShard]
  · simp only [hax, if_false]
    have hxa : x ≠ a := fun h => hax h.symm
    unfold scanSyncingShard
    cases ps.Shard.lookup a with
    | none => rfl
    | some st =>
      simp only []
      split_ifs <;> simp [setShard, Function.update, hxa]

theorem foldl_scanSyncingShard_height (bc : BlockChain) (ps : peerState) (shards : List Nat)
    (x : Nat) (rcs : reportedChainState) :
    ((shards.foldl (scanSyncingShard bc ps) rcs).ClosestShardsState x).Height
      = if x ∈ shards then shardStep bc ps x (rcs.ClosestShardsState x).Height
        else (rcs.ClosestShardsState x).Height := by
  induction shards generalizing rcs with
  | nil => simp
  | cons a t ih =>
    simp only [List.foldl_cons]
    rw [ih, scanSyncingShard_height]
    by_cases hax : a = x
    · subst hax
      simp only [if_true, List.mem_cons, true_or]
      split
      · exact shardStep_idem _ _ _ _
      · rfl
    · have hxa : x ≠ a := fun h => hax h.symm
      simp only [hax, if_false, List.mem_cons, hxa, false_or]

theorem scanPeer_height (k : Consts) (bc : BlockChain) (u : UserRoles) (shards : List Nat)
    (rcs r : reportedChainState) (e : PeerID × peerState) (x : Nat)
    (hbr : ¬ beaconCommitteeBranch bc u) (h : scanPeer k bc u shards rcs e = some r) :
    (r.ClosestShardsState x).Height
      = if x ∈ shards then shardStep bc e.2 x (rcs.ClosestShardsState x).Height
        else (rcs.ClosestShardsState x).Height := by
  unfold scanPeer at h
  simp only [] at h
  cases hbe : e.2.Beacon with
  | none => rw [hbe] at h; simp at h
  | some b =>
    rw [hbe] at h
    simp only [] at h
    split at h
    · rw [recordPoolState_shards_outside_branch k bc u e.1 e.2 _ r hbr h, adoptBeacon_shards]
      exact foldl_scanSyncingShard_height bc e.2 shards x rcs
    · simp only [Option.some.injEq] at h
      subst h
      exact foldl_scanSyncingShard_height bc e.2 shards x rcs

theorem scanPeers_height (k : Consts) (bc : BlockChain) (u : UserRoles) (shards : List Nat)
    (peers : List (PeerID × peerState)) (rcs r : reportedChainState) (x : Nat)
    (hbr : ¬ beaconCommitteeBranch bc u) (h : scanPeers k bc u shards rcs peers = some r) :
    (r.ClosestShardsState x).Height
      = if x ∈ shards then
          peers.foldl (fun c e => shardStep bc e.2 x c) (rcs.ClosestShardsState x).Height
        else (rcs.ClosestShardsState x).Height := by
  induction peers generalizing rcs with
  | nil =>
    simp only [scanPeers, Option.some.injEq] at h
    subst h
    simp
  | cons e es ih =>
    unfold scanPeers at h
    cases hs : scanPeer k bc u shards rcs e with
    | none => rw [hs] at h; simp at h
    | some r1 =>
      rw [hs] at h
      simp only [] at h
      rw [ih r1 h, scanPeer_height k bc u shards rcs r1 e x hbr hs]
      by_cases hx : x ∈ shards
      · simp only [hx, if_true, List.foldl_cons]
      · simp only [hx, if_false]

theorem stopSyncShard_Status_congr (bc : BlockChain) (s1 s2 : synker) (a : Nat)
    (h : s1.Status = s2.Status) :
    (stopSyncShard bc s1 a).2.Status = (stopSyncShard bc s2 a).2.Status := by
  unfold stopSyncShard
  rw [h]
  split
  · exact h
  · split
    · split
      · rfl
      · exact h
    · exact h

theorem stopSyncUnnecessaryShard_Status_congr (k : Consts) (bc : BlockChain) (s1 s2 : synker)
    (h : s1.Status = s2.Status) :
    (stopSyncUnnecessaryShard k bc s1).Status = (stopSyncUnnecessaryShard k bc s2).Status := by
  unfold stopSyncUnnecessaryShard
  generalize List.range k.MAX_SHARD_NUMBER = l
  induction l generalizing s1 s2 with
  | nil => exact h
  | cons a t ih =>
    simp only [List.foldl_cons]
    exact ih _ _ (stopSyncShard_Status_congr bc s1 s2 a h)

theorem syncShard_Status_congr (s1 s2 : synker) (a : Nat) (h : s1.Status = s2.Status) :
    (syncShard s1 a).2.Status = (syncShard s2 a).2.Status := by
  unfold syncShard
  rw [h]
  split
  · exact h
  · rfl

theorem cycleStart_withPeers (k : Consts) (bc : BlockChain) (s : synker)
    (peers : List (PeerID × peerState)) :
    (cycleStart k bc (s.withPeers peers)).Status.Shards = (cycleStart k bc s).Status.Shards ∧
    (cycleStart k bc (s.withPeers peers)).States.PeersState = peers := by
  refine ⟨?_, (cycleStart_peers k bc (s.withPeers peers)).1⟩
  have h0 : (GetPoolsState bc (s.withPeers peers)).Status = (GetPoolsState bc s).Status := rfl
  unfold cycleStart
  simp only []
  split
  · rw [stopSyncUnnecessaryShard_Status_congr k bc _ _
      (syncShard_Status_congr _ _ (userRoles bc).userShardID h0)]
  · rw [h0]

/-- C27 (as amended): outside the branch of a beacon PROPOSER or VALIDATOR in
node mode AUTO or BEACON, the height of every shard target computed by the peer
scan is the same for every order in which the peers of the table are visited.
Both scans return when no peer has a nil `Beacon` or a nil cross-shard pool
entry. -/
theorem peerScan_shard_heights_order_independent (k : Consts) (bc : BlockChain) (s : synker)
    (peers2 : List (PeerID × peerState))
    (hbr : ¬ beaconCommitteeBranch bc (userRoles bc))
    (hperm : s.States.PeersState.Perm peers2) :
    ((∀ e ∈ s.States.PeersState, e.2.Beacon ≠ none) →
      (∀ e ∈ s.States.PeersState, crossShardPoolNonNil e.2) →
        ∃ r1 r2, peerScan k bc s = some r1 ∧ peerScan k bc (s.withPeers peers2) = some r2) ∧
    ∀ r1 r2, peerScan k bc s = some r1 → peerScan k bc (s.withPeers peers2) = some r2 →
      ∀ shardID,
        (r1.ClosestShardsState shardID).Height = (r2.ClosestShardsState shardID).Height := by
  obtain ⟨hsh, hps⟩ := cycleStart_withPeers k bc s peers2
  have hps1 := (cycleStart_peers k bc s).1
  constructor
  · intro hb hwf
    obtain ⟨r1, h1⟩ := scanPeers_returns k bc (userRoles bc) (cycleStart k bc s).Status.Shards
      s.States.PeersState (initRCS bc (cycleStart k bc s).Status.Shards) hb hwf
    obtain ⟨r2, h2⟩ := scanPeers_returns k bc (userRoles bc) (cycleStart k bc s).Status.Shards
      peers2 (initRCS bc (cycleStart k bc s).Status.Shards)
      (fun e he => hb e (hperm.mem_iff.mpr he)) (fun e he => hwf e (hperm.mem_iff.mpr he))
    refine ⟨r1, r2, ?_, ?_⟩
    · unfold peerScan
      simp only []
      rw [hps1]
      exact h1
    · unfold peerScan
      simp only []
      rw [hsh, hps]
      exact h2
  · intro r1 r2 h1 h2 x
    unfold peerScan at h1 h2
    simp only [] at h1 h2
    rw [hps1] at h1
    rw [hsh, hps] at h2
    rw [scanPeers_height k bc _ _ _ _ r1 x hbr h1, scanPeers_height k bc _ _ _ _ r2 x hbr h2]
    split
    · exact List.Perm.foldl_eq' hperm
        (fun a _ b _ z => shardStep_comm bc a.2 b.2 x z) _
    · rfl

/-- Witness of C27: a node without committee role that syncs shard 0 (local
height 10) and meets a peer reporting shard 0 at height 15 and a peer reporting
it at height 12; in both visiting orders the scan returns and the target height
of shard 0 is the same. -/
theorem peerScan_shard_heights_order_independent_witness :
    ∃ r1 r2,
      peerScan ⟨600, 1200, 8⟩
        (mkChain NodeMode.NODEMODE_AUTO [0] Role.other 0 Role.other 100 10 5)
        (mkSynker [0] [mkPeer 1 100 [(0, 15)], mkPeer 2 100 [(0, 12)]]) = some r1 ∧
      peerScan ⟨600, 1200, 8⟩
        (mkChain NodeMode.NODEMODE_AUTO [0] Role.other 0 Role.other 100 10 5)
        ((mkSynker [0] [mkPeer 1 100 [(0, 15)], mkPeer 2 100 [(0, 12)]]).withPeers
          [mkPeer 2 100 [(0, 12)], mkPeer 1 100 [(0, 15)]]) = some r2 ∧
      (r1.ClosestShardsState 0).Height = (r2.ClosestShardsState 0).Height := by
  have h := peerScan_shard_heights_order_independent ⟨600, 1200, 8⟩
    (mkChain NodeMode.NODEMODE_AUTO [0] Role.other 0 Role.other 100 10 5)
    (mkSynker [0] [mkPeer 1 100 [(0, 15)], mkPeer 2 100 [(0, 12)]])
    [mkPeer 2 100 [(0, 12)], mkPeer 1 100 [(0, 15)]]
    (by simp [beaconCommitteeBranch, userRoles, mkChain])
    (List.Perm.swap _ _ [])
  obtain ⟨r1, r2, h1, h2⟩ := h.1 (by simp [mkSynker, mkPeer])
    (by simp [mkSynker, mkPeer, crossShardPoolNonNil])
  exact ⟨r1, r2, h1, h2, h.2 r1 r2 h1 h2 0⟩

/-! ## Theorems: what a request registers -/

theorem Add_mem (c : SyncCache) (key : Bytes) (now ttl : Nat) (e : Bytes × Nat)
    (h : e ∈ c.Add key now ttl) : e ∈ c ∨ e.1 = key := by
  unfold SyncCache.Add at h
  split at h
  · exact Or.inl h
  · rcases List.mem_cons.mp h with h1 | h1
    · subst h1; exact Or.inr rfl
    · exact Or.inl (List.mem_filter.mp h1).1

theorem Add_holds (c : SyncCache) (key : Bytes) (now ttl : Nat) :
    key ∈ (c.Add key now ttl).map Prod.fst ∧
      (0 < ttl → ((c.Add key now ttl).Items now).has key = true) := by
  unfold SyncCache.Add
  split
  · rename_i hlive
    obtain ⟨e, he, hk, _⟩ := (has_Items_iff c now key).mp hlive
    exact ⟨List.mem_map.mpr ⟨e, he, hk⟩, fun _ => hlive⟩
  · refine ⟨by simp, ?_⟩
    intro httl
    rw [has_Items_iff]
    exact ⟨(key, now + ttl), List.mem_cons_self _ _, rfl, by simp; omega⟩

theorem Add_keeps (c : SyncCache) (key key0 : Bytes) (now ttl : Nat) :
    (key0 ∈ c.map Prod.fst → key0 ∈ (c.Add key now ttl).map Prod.fst) ∧
    ((c.Items now).has key0 = true → ((c.Add key now ttl).Items now).has key0 = true) := by
  unfold SyncCache.Add
  split
  · exact ⟨id, id⟩
  · rename_i hfree
    constructor
    · intro h0
      by_cases hk : key0 = key
      · subst hk; simp
      · obtain ⟨e, he, hek⟩ := List.mem_map.mp h0
        refine List.mem_map.mpr ⟨e, List.mem_cons_of_mem _ (List.mem_filter.mpr ⟨he, ?_⟩), hek⟩
        simp only [decide_eq_true_eq]
        rw [hek]
        exact hk
    · intro h0
      have hk : key0 ≠ key := by
        intro hk
        subst hk
        exact hfree h0
      obtain ⟨e, he, hek, hlt⟩ := (has_Items_iff c now key0).mp h0
      rw [has_Items_iff]
      refine ⟨e, List.mem_cons_of_mem _ (List.mem_filter.mpr ⟨he, ?_⟩), hek, hlt⟩
      simp only [decide_eq_true_eq]
      rw [hek]
      exact hk

theorem registerKeys_mem (sp : SyncParams) (now : Nat) (keys : List Bytes) (c : SyncCache)
    (e : Bytes × Nat) (h : e ∈ registerKeys sp now c keys) : e ∈ c ∨ e.1 ∈ keys := by
  unfold registerKeys at h
  induction keys generalizing c with
  | nil => exact Or.inl h
  | cons a t ih =>
    simp only [List.foldl_cons] at h
    rcases ih _ h with h1 | h1
    · rcases Add_mem c a now _ e h1 with h2 | h2
      · exact Or.inl h2
      · exact Or.inr (by rw [h2]; exact List.mem_cons_self _ _)
    · exact Or.inr (List.mem_cons_of_mem _ h1)

theorem registerKeys_keeps (sp : SyncParams) (now : Nat) (keys : List Bytes) (c : SyncCache)
    (key0 : Bytes) :
    (key0 ∈ c.map Prod.fst → key0 ∈ (registerKeys sp now c keys).map Prod.fst) ∧
    ((c.Items now).has key0 = true →
      ((registerKeys sp now c keys).Items now).has key0 = true) := by
  unfold registerKeys
  induction keys generalizing c with
  | nil => exact ⟨id, id⟩
  | cons a t ih =>
    simp only [List.foldl_cons]
    have h1 := ih (c.Add a now sp.defaultMaxBlockSyncTime)
    have h2 := Add_keeps c a key0 now sp.defaultMaxBlockSyncTime
    exact ⟨fun h => h1.1 (h2.1 h), fun h => h1.2 (h2.2 h)⟩

theorem registerKeys_holds (sp : SyncParams) (now : Nat) (keys : List Bytes) (c : SyncCache)
    (key : Bytes) (hk : key ∈ keys) :
    key ∈ (registerKeys sp now c keys).map Prod.fst ∧
      (0 < sp.defaultMaxBlockSyncTime →
        ((registerKeys sp now c keys).Items now).has key = true) := by
  induction keys generalizing c with
  | nil => simp at hk
  | cons a t ih =>
    have hstep : registerKeys sp now c (a :: t)
        = registerKeys sp now (c.Add a now sp.defaultMaxBlockSyncTime) t := rfl
    rw [hstep]
    rcases List.mem_cons.mp hk with h1 | h1
    · subst h1
      have h2 := Add_holds c key now sp.defaultMaxBlockSyncTime
      have h3 := registerKeys_keeps sp now t (c.Add key now sp.defaultMaxBlockSyncTime) key
      exact ⟨h3.1 h2.1, fun httl => h3.2 (h2.2 httl)⟩
    · exact ih _ h1

theorem registersWhatItPushes_of (sp : SyncParams) (cache : SyncCache) (now : Nat)
    (keys : List Bytes) (pushes : List Push)
    (hk : ∀ key, key ∈ keys ↔ ∃ p ∈ pushes, key ∈ Push.keys sp p) :
    registersWhatItPushes sp cache now (registerKeys sp now cache keys, pushes) := by
  constructor
  · intro p hp key hkey
    exact registerKeys_holds sp now keys cache key ((hk key).mpr ⟨p, hp, hkey⟩)
  · intro e he
    rcases registerKeys_mem sp now keys cache e he with h1 | h1
    · exact Or.inl h1
    · exact Or.inr ((hk e.1).mp h1)

theorem byHash_registers (sp : SyncParams) (pfx : Bytes) (cache : SyncCache) (now : Nat)
    (blksHash : List Hash) (peerID : PeerID) (mk : List Hash → Push)
    (hmk : ∀ l, Push.keys sp (mk l) = l.map (hashKey pfx)) :
    registersWhatItPushes sp cache now
      ((syncByHash sp pfx now cache blksHash peerID).1,
        if (syncByHash sp pfx now cache blksHash peerID).2.length > 0 then
          [mk (syncByHash sp pfx now cache blksHash peerID).2]
        else []) := by
  unfold syncByHash
  simp only []
  apply registersWhatItPushes_of
  intro key
  generalize getBlkNeedToGetByHash pfx blksHash (cache.Items now) peerID = need
  cases need with
  | nil => simp
  | cons a t => simp [hmk]

theorem byHeight_registers (sp : SyncParams) (pfx : Bytes) (cache : SyncCache) (now : Nat)
    (poolItems : List Nat) (fromH toH : Nat) (peerID : PeerID) (mk : Nat × Nat → Push)
    (hmk : ∀ b, Push.keys sp (mk b) = (heightsOf b.1 b.2).map (heightKey pfx))
    (r : SyncCache × List (Nat × Nat))
    (h : syncByHeight sp pfx now cache poolItems fromH toH peerID = some r) :
    registersWhatItPushes sp cache now (r.1, r.2.map mk) := by
  obtain ⟨_, h1⟩ := syncByHeight_spec sp pfx now cache poolItems fromH toH peerID r h
  rw [h1]
  apply registersWhatItPushes_of
  intro key
  simp only [batchHeights, List.mem_map, List.mem_flatten, hmk]
  constructor
  · rintro ⟨x, ⟨l, ⟨b, hb, rfl⟩, hx⟩, rfl⟩
    exact ⟨mk b, ⟨b, hb, rfl⟩, by rw [hmk]; exact List.mem_map_of_mem _ hx⟩
  · rintro ⟨p, ⟨b, hb, rfl⟩, hkey⟩
    rw [hmk] at hkey
    obtain ⟨x, hx, rfl⟩ := List.mem_map.mp hkey
    exact ⟨x, ⟨_, ⟨b, hb, rfl⟩, hx⟩, rfl⟩

/-- C26: a `SyncBlkBeacon` or `SyncBlkShard` call, by hash or by height, that
returns leaves a cache that holds the key of every identifier it pushed (every
height of every pushed batch, every pushed hash), and every entry of that cache
was there before the call or has the key of a pushed identifier. A by-hash call
returns, and a by-height call returns when `to + 1` is a `uint64`. -/
theorem SyncBlk_registers_what_it_pushes (sp : SyncParams) (s : synker) (cache : SyncCache)
    (now : Nat) (shardID : Nat) (byHash getFromPool : Bool) (blksHash : List Hash)
    (fromH toH : Nat) (peerID : PeerID) :
    (((byHash = true ∨ toH + 1 < U64) →
        ∃ r, SyncBlkBeacon sp s cache now byHash getFromPool blksHash fromH toH peerID
          = some r) ∧
      ∀ r, SyncBlkBeacon sp s cache now byHash getFromPool blksHash fromH toH peerID = some r →
        registersWhatItPushes sp cache now r) ∧
    (((byHash = true ∨ toH + 1 < U64) →
        ∃ r, SyncBlkShard sp s cache now shardID byHash getFromPool blksHash fromH toH peerID
          = some r) ∧
      ∀ r, SyncBlkShard sp s cache now shardID byHash getFromPool blksHash fromH toH peerID
          = some r →
        registersWhatItPushes sp cache now r) := by
  refine ⟨⟨?_, ?_⟩, ⟨?_, ?_⟩⟩
  · intro h
    unfold SyncBlkBeacon
    cases byHash with
    | true => exact ⟨_, rfl⟩
    | false =>
      have hto : toH + 1 < U64 := by
        rcases h with h | h
        · simp at h
        · exact h
      obtain ⟨r, hr⟩ := syncByHeight_returns sp
        (sp.getBlkPrefixSyncKey false BlkType.beaconBlk 0 0) now cache
        (GetBeaconPoolStateByHeight s) fromH toH peerID hto
      simp only [Bool.false_eq_true, if_false, hr]
      exact ⟨_, rfl⟩
  · intro r hr
    unfold SyncBlkBeacon at hr
    cases byHash with
    | true =>
      simp only [if_true, Option.some.injEq] at hr
      subst hr
      exact byHash_registers sp _ cache now blksHash peerID
        (fun l => Push.GetBlockBeaconByHash l getFromPool peerID) (fun _ => rfl)
    | false =>
      simp only [Bool.false_eq_true, if_false] at hr
      split at hr
      · simp at hr
      · rename_i r0 h0
        simp only [Option.some.injEq] at hr
        subst hr
        exact byHeight_registers sp _ cache now _ fromH toH peerID
          (fun b => Push.GetBlockBeaconByHeight b.1 b.2 peerID) (fun _ => rfl) r0 h0
  · intro h
    unfold SyncBlkShard
    cases byHash with
    | true => exact ⟨_, rfl⟩
    | false =>
      have hto : toH + 1 < U64 := by
        rcases h with h | h
        · simp at h
        · exact h
      obtain ⟨r, hr⟩ := syncByHeight_returns sp
        (sp.getBlkPrefixSyncKey false BlkType.shardBlk shardID 0) now cache
        (GetShardPoolStateByHeight s shardID) fromH toH peerID hto
      simp only [Bool.false_eq_true, if_false, hr]
      exact ⟨_, rfl⟩
  · intro r hr
    unfold SyncBlkShard at hr
    cases byHash with
    | true =>
      simp only [if_true, Option.some.injEq] at hr
      subst hr
      exact byHash_registers sp _ cache now blksHash peerID
        (fun l => Push.GetBlockShardByHash shardID l getFromPool peerID) (fun _ => rfl)
    | false =>
      simp only [Bool.false_eq_true, if_false] at hr
      split at hr
      · simp at hr
      · rename_i r0 h0
        simp only [Option.some.injEq] at hr
        subst hr
        exact byHeight_registers sp _ cache now _ fromH toH peerID
          (fun b => Push.GetBlockShardByHeight shardID b.1 b.2 peerID) (fun _ => rfl) r0 h0

/-! ## Theorems: the custodian processors -/

/-- C28: for a content string that decodes to an action and a non-nil portal
state, `buildNewInsts` returns an accepted instruction exactly when the pool is
not empty, a non-nil custodian is stored under the key of `Meta.PaymentAddress`
and `Meta.Amount` is at most its free collateral, and then it returns exactly
that one instruction; in every other case it returns exactly one instruction,
rejected and with `RemainFreeCollateral = 0`, and the portal state is
unchanged. -/
theorem buildNewInsts_accepts_iff {Custodian : Type}
    (env : portalRequestWithdrawCollateralProcessor.Env Custodian) (contentStr : String)
    (shardID : Nat) (st : portalRequestWithdrawCollateralProcessor.CurrentPortalState Custodian)
    (beaconHeight : Nat) (actionData : PortalCustodianWithdrawRequestAction)
    (hdec : env.decodeAction contentStr = some actionData) :
    ((∃ inst ∈ (portalRequestWithdrawCollateralProcessor.buildNewInsts env contentStr shardID
          (some st) beaconHeight).1,
        inst.reqStatus
          = CustodianWithdrawStatus.PortalCustodianWithdrawRequestAcceptedChainStatus) ↔
      portalRequestWithdrawCollateralProcessor.acceptable env st actionData) ∧
    (portalRequestWithdrawCollateralProcessor.acceptable env st actionData →
      ∃ inst, (portalRequestWithdrawCollateralProcessor.buildNewInsts env contentStr shardID
          (some st) beaconHeight).1 = [inst] ∧
        inst.reqStatus
          = CustodianWithdrawStatus.PortalCustodianWithdrawRequestAcceptedChainStatus) ∧
    (¬ portalRequestWithdrawCollateralProcessor.acceptable env st actionData →
      ∃ inst, portalRequestWithdrawCollateralProcessor.buildNewInsts env contentStr shardID
          (some st) beaconHeight = ([inst], some st) ∧
        inst.reqStatus
          = CustodianWithdrawStatus.PortalCustodianWithdrawRequestRejectedChainStatus ∧
        inst.content.RemainFreeCollateral = 0) := by
  have hrej : ∀ inst ∈ [buildCustodianWithdrawInst actionData.Meta.Type_ shardID
        CustodianWithdrawStatus.PortalCustodianWithdrawRequestRejectedChainStatus
        actionData.Meta.PaymentAddress actionData.Meta.Amount 0 actionData.TxReqID],
      inst.reqStatus
        ≠ CustodianWithdrawStatus.PortalCustodianWithdrawRequestAcceptedChainStatus := by
    intro inst hi
    simp only [List.mem_singleton] at hi
    subst hi
    simp [buildCustodianWithdrawInst]
  unfold portalRequestWithdrawCollateralProcessor.acceptable
  unfold portalRequestWithdrawCollateralProcessor.buildNewInsts
  simp only [hdec]
  by_cases hlen : st.CustodianPoolState.length ≤ 0
  · have hnil : st.CustodianPoolState = [] := by
      apply List.eq_nil_of_length_eq_zero
      omega
    simp only [hlen, if_true]
    refine ⟨⟨?_, ?_⟩, ?_, ?_⟩
    · rintro ⟨inst, hi, hs⟩
      exact absurd hs (hrej inst hi)
    · rintro ⟨hne, _⟩
      exact absurd hnil hne
    · rintro ⟨hne, _⟩
      exact absurd hnil hne
    · intro _
      exact ⟨_, rfl, rfl, rfl⟩
  · have hne : st.CustodianPoolState ≠ [] := by
      intro h0
      rw [h0] at hlen
      simp at hlen
    simp only [hlen, if_false]
    cases hlk : st.CustodianPoolState.lookup
        (env.GenerateCustodianStateObjectKey actionData.Meta.PaymentAddress) with
    | none =>
      simp only []
      refine ⟨⟨?_, ?_⟩, ?_, ?_⟩
      · rintro ⟨inst, hi, hs⟩
        exact absurd hs (hrej inst hi)
      · rintro ⟨_, c, hc, _⟩
        simp at hc
      · rintro ⟨_, c, hc, _⟩
        simp at hc
      · intro _
        exact ⟨_, rfl, rfl, rfl⟩
    | some oc =>
      cases oc with
      | none =>
        simp only []
        refine ⟨⟨?_, ?_⟩, ?_, ?_⟩
        · rintro ⟨inst, hi, hs⟩
          exact absurd hs (hrej inst hi)
        · rintro ⟨_, c, hc, _⟩
          simp at hc
        · rintro ⟨_, c, hc, _⟩
          simp at hc
        · intro _
          exact ⟨_, rfl, rfl, rfl⟩
      | some custodian =>
        simp only []
        by_cases hgt : actionData.Meta.Amount > env.GetFreeCollateral custodian
        · simp only [hgt, if_true]
          refine ⟨⟨?_, ?_⟩, ?_, ?_⟩
          · rintro ⟨inst, hi, hs⟩
            exact absurd hs (hrej inst hi)
          · rintro ⟨_, c, hc, hle⟩
            simp only [Option.some.injEq] at hc
            subst hc
            omega
          · rintro ⟨_, c, hc, hle⟩
            simp only [Option.some.injEq] at hc
            subst hc
            omega
          · intro _
            exact ⟨_, rfl, rfl, rfl⟩
        · simp only [hgt, if_false]
          have hacc : st.CustodianPoolState ≠ [] ∧
              ∃ c, some (some custodian) = some (some c) ∧
                actionData.Meta.Amount ≤ env.GetFreeCollateral c :=
            ⟨hne, custodian, rfl, Nat.le_of_not_gt hgt⟩
          refine ⟨⟨fun _ => hacc, fun _ => ⟨_, List.mem_singleton.mpr rfl, rfl⟩⟩, ?_, ?_⟩
          · intro _
            exact ⟨_, rfl, rfl⟩
          · intro hn
            exact absurd hacc hn

/-- Witness of C28: a custodian with free collateral 100 under the key `addr`
asks to withdraw 150; the request is not acceptable and the single instruction
returned is rejected, with `RemainFreeCollateral = 0`, the state unchanged. -/
theorem buildNewInsts_accepts_iff_witness :
    ∃ inst, portalRequestWithdrawCollateralProcessor.buildNewInsts
        (portalRequestWithdrawCollateralProcessor.exampleEnv 150) "" 0
        (some ⟨[("addr", some 100)]⟩) 7 = ([inst], some ⟨[("addr", some 100)]⟩) ∧
      inst.reqStatus
        = CustodianWithdrawStatus.PortalCustodianWithdrawRequestRejectedChainStatus ∧
      inst.content.RemainFreeCollateral = 0 :=
  (buildNewInsts_accepts_iff (portalRequestWithdrawCollateralProcessor.exampleEnv 150) "" 0
    ⟨[("addr", some 100)]⟩ 7 ⟨⟨110, "addr", 150⟩, Hash.zero, 0⟩ rfl).2.2
    (by
      simp [portalRequestWithdrawCollateralProcessor.acceptable,
        portalRequestWithdrawCollateralProcessor.exampleEnv, List.lookup])

theorem sortStrings_perm (l1 l2 : List String) (h : l1.Perm l2) :
    sortStrings l1 = sortStrings l2 := by
  unfold sortStrings
  apply List.eq_of_perm_of_sorted (r := fun a b : String => a ≤ b)
  · exact ((List.perm_insertionSort _ l1).trans h).trans (List.perm_insertionSort _ l2).symm
  · exact List.sorted_insertionSort _ l1
  · exact List.sorted_insertionSort _ l2

theorem lookup_eq_some_iff_mem {V : Type} (m : List (String × V)) (key : String) (v : V)
    (hnd : (m.map Prod.fst).Nodup) : m.lookup key = some v ↔ (key, v) ∈ m := by
  induction m with
  | nil => simp
  | cons x t ih =>
    obtain ⟨k1, v1⟩ := x
    simp only [List.map_cons, List.nodup_cons] at hnd
    by_cases hk : key = k1
    · subst hk
      simp only [List.lookup, beq_self_eq_true, Option.some.injEq, List.mem_cons,
        Prod.mk.injEq, true_and]
      constructor
      · intro h; exact Or.inl h.symm
      · rintro (h | h)
        · exact h.symm
        · exact absurd (List.mem_map_of_mem Prod.fst h) hnd.1
    · have hb : (key == k1) = false := by simpa using hk
      simp only [List.lookup, hb, List.mem_cons, Prod.mk.injEq, hk, false_and, false_or]
      exact ih hnd.2

theorem lookup_perm {V : Type} (m1 m2 : List (String × V)) (key : String)
    (hnd : (m1.map Prod.fst).Nodup) (hperm : m1.Perm m2) :
    m1.lookup key = m2.lookup key := by
  have hnd2 : (m2.map Prod.fst).Nodup := (hperm.map Prod.fst).nodup_iff.mp hnd
  cases h1 : m1.lookup key with
  | some v =>
    exact ((lookup_eq_some_iff_mem m2 key v hnd2).mpr
      (hperm.mem_iff.mp ((lookup_eq_some_iff_mem m1 key v hnd).mp h1))).symm
  | none =>
    cases h2 : m2.lookup key with
    | none => rfl
    | some v =>
      have := (lookup_eq_some_iff_mem m1 key v hnd).mpr
        (hperm.mem_iff.mpr ((lookup_eq_some_iff_mem m2 key v hnd2).mp h2))
      rw [h1] at this
      simp at this

theorem map_keys_lookup {V : Type} (m : List (String × V)) (d : V)
    (hnd : (m.map Prod.fst).Nodup) :
    (m.map Prod.fst).map (fun t => (t, (m.lookup t).getD d)) = m := by
  rw [List.map_map]
  conv => rhs; rw [← List.map_id m]
  apply List.map_congr_left
  intro x hx
  obtain ⟨k1, v1⟩ := x
  simp only [Function.comp, id]
  rw [(lookup_eq_some_iff_mem m k1 v1 hnd).mpr hx]
  rfl

/-- C29: on two maps with the same key/amount pairs (distinct keys, any
iteration order) and the same other arguments the instruction built is the
same; it has 8 fields, the third is the decimal number of collaterals, and the
sixth encodes the bytes of the pairs taken in ascending order of token id, each
token id followed by its padded amount. -/
theorem buildConfirmWithdrawCollateralInstV3_deterministic (env : ConfirmWithdrawEnv)
    (metaType : Int) (shardID : Nat) (incAddress extAddress : String)
    (m1 m2 : List (String × Int)) (txReqID : Hash) (beaconHeight : Nat)
    (hnd : (m1.map Prod.fst).Nodup) (hperm : m1.Perm m2) :
    buildConfirmWithdrawCollateralInstV3 env metaType shardID incAddress extAddress m1 txReqID
        beaconHeight
      = buildConfirmWithdrawCollateralInstV3 env metaType shardID incAddress extAddress m2
        txReqID beaconHeight ∧
    (buildConfirmWithdrawCollateralInstV3 env metaType shardID incAddress extAddress m1 txReqID
        beaconHeight).length = 8 ∧
    (buildConfirmWithdrawCollateralInstV3 env metaType shardID incAddress extAddress m1 txReqID
        beaconHeight)[2]? = some (toString m1.length) ∧
    ∃ sorted : List (String × Int),
      sorted.Perm m1 ∧ (sorted.map Prod.fst).Sorted (fun a b => a ≤ b) ∧
      (buildConfirmWithdrawCollateralInstV3 env metaType shardID incAddress extAddress m1
          txReqID beaconHeight)[5]?
        = some (env.Base58CheckEncode
            (sorted.map (fun e => collateralEntryBytes env e.1 e.2)).flatten env.ZeroByte) := by
  have hkeys : sortStrings (m1.map Prod.fst) = sortStrings (m2.map Prod.fst) :=
    sortStrings_perm _ _ (hperm.map Prod.fst)
  refine ⟨?_, rfl, rfl, ?_⟩
  · unfold buildConfirmWithdrawCollateralInstV3
    simp only [← hkeys, hperm.length_eq]
    have hl : ∀ t, m1.lookup t = m2.lookup t := fun t => lookup_perm m1 m2 t hnd hperm
    simp only [hl]
  · refine ⟨(sortStrings (m1.map Prod.fst)).map (fun t => (t, (m1.lookup t).getD 0)), ?_, ?_, ?_⟩
    · have hp : (sortStrings (m1.map Prod.fst)).Perm (m1.map Prod.fst) :=
        List.perm_insertionSort _ _
      have := hp.map (fun t => (t, (m1.lookup t).getD 0))
      rw [map_keys_lookup m1 0 hnd] at this
      exact this
    · rw [List.map_map]
      have : (Prod.fst ∘ fun t : String => (t, (m1.lookup t).getD 0)) = id := rfl
      rw [this, List.map_id]
      exact List.sorted_insertionSort _ _
    · unfold buildConfirmWithdrawCollateralInstV3
      simp only [List.map_map, Function.comp]
      rfl

/-- Witness of C29: the pairs `0xb -> 2` and `0xa -> 1` in both orders. -/
theorem buildConfirmWithdrawCollateralInstV3_deterministic_witness :
    buildConfirmWithdrawCollateralInstV3 exampleConfirmEnv 132 0 "inc" "ext"
        [("0xb", 2), ("0xa", 1)] Hash.zero 7
      = buildConfirmWithdrawCollateralInstV3 exampleConfirmEnv 132 0 "inc" "ext"
        [("0xa", 1), ("0xb", 2)] Hash.zero 7 :=
  (buildConfirmWithdrawCollateralInstV3_deterministic exampleConfirmEnv 132 0 "inc" "ext"
    [("0xb", 2), ("0xa", 1)] [("0xa", 1), ("0xb", 2)] Hash.zero 7
    (by decide) (List.Perm.swap _ _ [])).1

end blockchain
